import Mathlib

/-!
# CTPL expression lexer (`ctpl-lexer-expr.c`)

A shallow embedding of the operator table, of the precedence reduction
`validate_token_list` and of the recursive lexer, followed by the properties
established about them.

C strings are lists of characters; the end of the list plays the role of the
terminating NUL byte.  Nullable pointers are `Option`s.
-/

namespace Ctpl

/-! ## Operator table -/

/-- The `CtplOperator` enumeration.  Its declaration is in `ctpl-token.h`; the
order is the one of `operators_array`, as the comment above that table
requires (`operators_array[i].op == i`). -/
inductive CtplOperator where
  | CTPL_OPERATOR_AND
  | CTPL_OPERATOR_DIV
  | CTPL_OPERATOR_EQUAL
  | CTPL_OPERATOR_INFEQ
  | CTPL_OPERATOR_INF
  | CTPL_OPERATOR_MINUS
  | CTPL_OPERATOR_MODULO
  | CTPL_OPERATOR_MUL
  | CTPL_OPERATOR_NEQ
  | CTPL_OPERATOR_OR
  | CTPL_OPERATOR_PLUS
  | CTPL_OPERATOR_SUPEQ
  | CTPL_OPERATOR_SUP
  | CTPL_OPERATOR_NONE
  deriving DecidableEq, Repr, Inhabited

open CtplOperator

/-- The integer value of an enumeration member, used to index the table. -/
def CtplOperator.index : CtplOperator → Nat
  | CTPL_OPERATOR_AND => 0
  | CTPL_OPERATOR_DIV => 1
  | CTPL_OPERATOR_EQUAL => 2
  | CTPL_OPERATOR_INFEQ => 3
  | CTPL_OPERATOR_INF => 4
  | CTPL_OPERATOR_MINUS => 5
  | CTPL_OPERATOR_MODULO => 6
  | CTPL_OPERATOR_MUL => 7
  | CTPL_OPERATOR_NEQ => 8
  | CTPL_OPERATOR_OR => 9
  | CTPL_OPERATOR_PLUS => 10
  | CTPL_OPERATOR_SUPEQ => 11
  | CTPL_OPERATOR_SUP => 12
  | CTPL_OPERATOR_NONE => 13

/-- One row of `operators_array`. -/
structure OperatorEntry where
  op : CtplOperator
  priority : Nat
  str : List Char
  str_len : Nat
  deriving DecidableEq, Repr

/-- The sentinel row, `{ CTPL_OPERATOR_NONE, 0, "not an operator", 15 }`. -/
def operators_none_entry : OperatorEntry :=
  ⟨CTPL_OPERATOR_NONE, 0, "not an operator".toList, 15⟩

/-- The table `operators_array`, rows in source order. -/
def operators_array : List OperatorEntry :=
  [ ⟨CTPL_OPERATOR_AND,    30, "&&".toList, 2⟩,
    ⟨CTPL_OPERATOR_DIV,    20, "/".toList,  1⟩,
    ⟨CTPL_OPERATOR_EQUAL,  30, "==".toList, 2⟩,
    ⟨CTPL_OPERATOR_INFEQ,  30, "<=".toList, 2⟩,
    ⟨CTPL_OPERATOR_INF,    30, "<".toList,  1⟩,
    ⟨CTPL_OPERATOR_MINUS,  10, "-".toList,  1⟩,
    ⟨CTPL_OPERATOR_MODULO, 20, "%".toList,  1⟩,
    ⟨CTPL_OPERATOR_MUL,    20, "*".toList,  1⟩,
    ⟨CTPL_OPERATOR_NEQ,    30, "!=".toList, 2⟩,
    ⟨CTPL_OPERATOR_OR,     30, "||".toList, 2⟩,
    ⟨CTPL_OPERATOR_PLUS,   10, "+".toList,  1⟩,
    ⟨CTPL_OPERATOR_SUPEQ,  30, ">=".toList, 2⟩,
    ⟨CTPL_OPERATOR_SUP,    30, ">".toList,  1⟩,
    operators_none_entry ]

/-- Number of true operators, `G_N_ELEMENTS (operators_array) - 1`. -/
def operators_array_length : Nat := operators_array.length - 1

/-- The maximum length of a valid operator. -/
def OPERATORS_STR_MAXLEN : Nat := 2

/-- The row `operators_array[i]`. -/
def operators_array_at (i : Nat) : OperatorEntry :=
  operators_array.getD i operators_none_entry

/-- The priority column of `operators_array[op]`. -/
def CtplOperator.priority (op : CtplOperator) : Nat :=
  (operators_array_at op.index).priority

/-- Gets whether `op1` has priority over `op2`; true on equal priorities. -/
def operator_is_prior (op1 op2 : CtplOperator) : Bool :=
  decide ((operators_array_at op1.index).priority ≥ (operators_array_at op2.index).priority)

/-- The string representation of an operator, `operators_array[op].str`.  The
range guard `op >= 0 && op <= CTPL_OPERATOR_NONE` holds for every member of the
enumeration. -/
def ctpl_operator_to_string (op : CtplOperator) : List Char :=
  (operators_array_at op.index).str

/-- The NUL byte. -/
def NUL : Char := Char.ofNat 0

/-- Length of a C string: the bytes before the first NUL. -/
def strlen (s : List Char) : Nat :=
  (s.takeWhile (fun c => c ≠ NUL)).length

/-- The C library `strncmp`: compares at most `n` bytes, stopping after a NUL;
the result is the difference of the first two bytes that differ. -/
def strncmp : List Char → List Char → Nat → Int
  | _, _, 0 => 0
  | [], [], _ + 1 => 0
  | [], b :: _, _ + 1 => 0 - (b.toNat : Int)
  | a :: _, [], _ + 1 => (a.toNat : Int)
  | a :: as, b :: bs, n + 1 =>
    if a = b then (if a = NUL then 0 else strncmp as bs n)
    else (a.toNat : Int) - (b.toNat : Int)

/-- The number of bytes `ctpl_operator_from_string` may read:
`(len < 0) ? strlen (str) : (gsize)len`. -/
def from_string_length (str : List Char) (len : Int) : Nat :=
  if len < 0 then strlen str else len.toNat

/-- The `for` loop of `ctpl_operator_from_string` over the rows still to be
tried; the pair is `op` and the current content of `*operator_len`. -/
def from_string_loop (str : List Char) (length : Nat) :
    List OperatorEntry → CtplOperator × Nat → CtplOperator × Nat
  | [], acc => acc
  | e :: es, (op, operator_len) =>
    if op = CTPL_OPERATOR_NONE then
      if length ≥ e.str_len ∧ strncmp e.str str e.str_len = 0 then
        from_string_loop str length es (e.op, e.str_len)
      else
        from_string_loop str length es (op, operator_len)
    else (op, operator_len)

/-- Tries to convert a string to an operator.  `operator_len` is the content of
the caller's `*operator_len` location before the call; the second component of
the result is its content after the call (it is only written on a match). -/
def ctpl_operator_from_string (str : List Char) (len : Int) (operator_len : Nat) :
    CtplOperator × Nat :=
  from_string_loop str (from_string_length str len)
    (operators_array.take operators_array_length) (CTPL_OPERATOR_NONE, operator_len)

/-- An operator's text is a prefix of the bytes of `str` that may be read. -/
def OperatorMatches (op : CtplOperator) (str : List Char) (len : Int) : Prop :=
  ctpl_operator_to_string op <+: str.take (from_string_length str len)

instance (op : CtplOperator) (str : List Char) (len : Int) :
    Decidable (OperatorMatches op str len) := by
  unfold OperatorMatches; exact inferInstance

/-- The rows that `ctpl_operator_from_string` tries, in order. -/
def scanned_operators : List OperatorEntry :=
  operators_array.take operators_array_length

/-- The test of one row in the loop of `ctpl_operator_from_string`. -/
def entry_test (str : List Char) (length : Nat) (e : OperatorEntry) : Prop :=
  length ≥ e.str_len ∧ strncmp e.str str e.str_len = 0

/-- The boolean and comparison operators. -/
def boolean_operators : List CtplOperator :=
  [CTPL_OPERATOR_AND, CTPL_OPERATOR_OR, CTPL_OPERATOR_EQUAL, CTPL_OPERATOR_NEQ,
   CTPL_OPERATOR_INF, CTPL_OPERATOR_INFEQ, CTPL_OPERATOR_SUP, CTPL_OPERATOR_SUPEQ]

/-- The multiplicative operators. -/
def multiplicative_operators : List CtplOperator :=
  [CTPL_OPERATOR_MUL, CTPL_OPERATOR_DIV, CTPL_OPERATOR_MODULO]

/-- The additive operators. -/
def additive_operators : List CtplOperator :=
  [CTPL_OPERATOR_PLUS, CTPL_OPERATOR_MINUS]

/-! ## Tokens and errors -/

/-- Modelled from the spec: the dynamic value held by a Value token, an
integer/float/string union (`CtplValue`, declared in `ctpl-value.h`). -/
inductive CtplValue where
  | int (i : Int)
  | float (mantissa : Int) (exponent : Int)
  | string (s : List Char)
  deriving DecidableEq, Repr

/-- Modelled from the spec: the token tree `CtplTokenExpr` (declared in
`ctpl-token.h`): an Operator node with its two operand pointers, a Value or a
Symbol; every token carries the list `indexes` of its index sub-trees.  A null
operand pointer is `none`. -/
inductive CtplTokenExpr where
  | operator (op : CtplOperator) (loperand roperand : Option CtplTokenExpr)
      (indexes : List CtplTokenExpr)
  | value (value : CtplValue) (indexes : List CtplTokenExpr)
  | symbol (symbol : List Char) (indexes : List CtplTokenExpr)

mutual
/-- Equality of token trees is decidable (operator nodes). -/
def CtplTokenExpr.decEq : (a b : CtplTokenExpr) → Decidable (a = b)
  | .operator o1 l1 r1 i1, .operator o2 l2 r2 i2 =>
    if ho : o1 = o2 then
      match CtplTokenExpr.decEqOption l1 l2 with
      | isTrue hl =>
        match CtplTokenExpr.decEqOption r1 r2 with
        | isTrue hr =>
          match CtplTokenExpr.decEqList i1 i2 with
          | isTrue hi => isTrue (by rw [ho, hl, hr, hi])
          | isFalse hi => isFalse (fun h => hi (by cases h; rfl))
        | isFalse hr => isFalse (fun h => hr (by cases h; rfl))
      | isFalse hl => isFalse (fun h => hl (by cases h; rfl))
    else isFalse (fun h => ho (by cases h; rfl))
  | .value v1 i1, .value v2 i2 =>
    if hv : v1 = v2 then
      match CtplTokenExpr.decEqList i1 i2 with
      | isTrue hi => isTrue (by rw [hv, hi])
      | isFalse hi => isFalse (fun h => hi (by cases h; rfl))
    else isFalse (fun h => hv (by cases h; rfl))
  | .symbol s1 i1, .symbol s2 i2 =>
    if hs : s1 = s2 then
      match CtplTokenExpr.decEqList i1 i2 with
      | isTrue hi => isTrue (by rw [hs, hi])
      | isFalse hi => isFalse (fun h => hi (by cases h; rfl))
    else isFalse (fun h => hs (by cases h; rfl))
  | .operator .., .value .. => isFalse (fun h => by cases h)
  | .operator .., .symbol .. => isFalse (fun h => by cases h)
  | .value .., .operator .. => isFalse (fun h => by cases h)
  | .value .., .symbol .. => isFalse (fun h => by cases h)
  | .symbol .., .operator .. => isFalse (fun h => by cases h)
  | .symbol .., .value .. => isFalse (fun h => by cases h)
/-- Equality of nullable token pointers is decidable. -/
def CtplTokenExpr.decEqOption : (a b : Option CtplTokenExpr) → Decidable (a = b)
  | none, none => isTrue rfl
  | some a, some b =>
    match CtplTokenExpr.decEq a b with
    | isTrue h => isTrue (by rw [h])
    | isFalse h => isFalse (fun h' => h (by cases h'; rfl))
  | none, some _ => isFalse (fun h => by cases h)
  | some _, none => isFalse (fun h => by cases h)
/-- Equality of token lists is decidable. -/
def CtplTokenExpr.decEqList : (a b : List CtplTokenExpr) → Decidable (a = b)
  | [], [] => isTrue rfl
  | a :: as, b :: bs =>
    match CtplTokenExpr.decEq a b with
    | isTrue h =>
      match CtplTokenExpr.decEqList as bs with
      | isTrue h2 => isTrue (by rw [h, h2])
      | isFalse h2 => isFalse (fun h' => h2 (by cases h'; rfl))
    | isFalse h => isFalse (fun h' => h (by cases h'; rfl))
  | [], _ :: _ => isFalse (fun h => by cases h)
  | _ :: _, [] => isFalse (fun h => by cases h)
end

instance : DecidableEq CtplTokenExpr := CtplTokenExpr.decEq

/-- Modelled from the spec: `ctpl_token_expr_new_operator (op, loperand,
roperand)` of `ctpl-token.c`, a fresh Operator node without indexes. -/
def ctpl_token_expr_new_operator (op : CtplOperator)
    (loperand roperand : Option CtplTokenExpr) : CtplTokenExpr :=
  .operator op loperand roperand []

/-- Modelled from the spec: `ctpl_token_expr_new_value (value)`. -/
def ctpl_token_expr_new_value (value : CtplValue) : CtplTokenExpr :=
  .value value []

/-- Modelled from the spec: `ctpl_token_expr_new_symbol (symbol, -1)`. -/
def ctpl_token_expr_new_symbol (symbol : List Char) : CtplTokenExpr :=
  .symbol symbol []

/-- The error domains (quarks) the lexer meets. -/
inductive ErrorDomain where
  | CTPL_LEXER_EXPR_ERROR
  | CTPL_LEXER_ERROR
  | CTPL_IO_ERROR
  deriving DecidableEq, Repr

/-- The error codes; `other` stands for the codes of the stream's own errors. -/
inductive ErrorCode where
  | CTPL_LEXER_EXPR_ERROR_MISSING_OPERAND
  | CTPL_LEXER_EXPR_ERROR_MISSING_OPERATOR
  | CTPL_LEXER_EXPR_ERROR_SYNTAX_ERROR
  | CTPL_LEXER_EXPR_ERROR_FAILED
  | other (code : Nat)
  deriving DecidableEq, Repr

/-- A `GError`: domain, code and message.  The message is the expansion of the
format string; the `name:line:pos:` position that the stream puts in front of
it is left out. -/
structure GError where
  domain : ErrorDomain
  code : ErrorCode
  message : List Char
  deriving DecidableEq, Repr

/-- Modelled from the spec: `ctpl_input_stream_set_error (stream, error, domain,
code, format, ...)` of `ctpl-input-stream.c`, which records the error through
`g_set_error`: an error already present in the location is kept. -/
def ctpl_input_stream_set_error (error : Option GError) (domain : ErrorDomain)
    (code : ErrorCode) (message : List Char) : Option GError :=
  match error with
  | none => some ⟨domain, code, message⟩
  | some e => some e

/-- The access `token->token.t_operator->operator`; it is only defined on a
token of type operator. -/
def t_operator (token : CtplTokenExpr) : Option CtplOperator :=
  match token with
  | .operator op _ _ _ => some op
  | _ => none

/-- The two stores `nexpr->token.t_operator->loperand = l` and
`nexpr->token.t_operator->roperand = r`; only defined on a token of type
operator. -/
def set_operands (nexpr : CtplTokenExpr) (l r : Option CtplTokenExpr) :
    Option CtplTokenExpr :=
  match nexpr with
  | .operator op _ _ indexes => some (.operator op l r indexes)
  | _ => none

/-- Gets a human-readable name of the token's operator: the text of the last
row of the table unless the token is an operator. -/
def token_operator_to_string (token : CtplTokenExpr) : List Char :=
  match token with
  | .operator op _ _ _ => ctpl_operator_to_string op
  | _ => (operators_array_at operators_array_length).str

/-! ## Precedence reduction -/

/-- A two-slot array of token pointers, as `operands[2]` and `operators[2]`. -/
abbrev TokenPair := Option CtplTokenExpr × Option CtplTokenExpr

/-- The store `array[idx] = v`; there is no slot beyond the second. -/
def TokenPair.set (a : TokenPair) (idx : Nat) (v : Option CtplTokenExpr) :
    Option TokenPair :=
  match idx with
  | 0 => some (v, a.2)
  | 1 => some (a.1, v)
  | _ => none

/-- The read `array[idx]`. -/
def TokenPair.get (a : TokenPair) (idx : Nat) : Option (Option CtplTokenExpr) :=
  match idx with
  | 0 => some a.1
  | 1 => some a.2
  | _ => none

/-- The local variables of `validate_token_list`, with the content of the
`*error` location. -/
structure ValidateState where
  operands : TokenPair
  operators : TokenPair
  opt : Nat
  opd : Nat
  i : Nat
  last_opd : List CtplTokenExpr
  error : Option GError
  deriving DecidableEq

/-- The result of a function returning a token pointer and writing an error
location. -/
abbrev TokenResult := Option CtplTokenExpr × Option GError

/-- The `for` loop of `validate_token_list` over the remaining list nodes;
`self` is the recursive call of `validate_token_list`.  The result is the
state on leaving the loop (list exhausted, or `break`); `none` stands for an
access the C code must not make (out-of-range slot, operator field of a token
that is no operator). -/
def validate_loop (self : List CtplTokenExpr → Option GError → Option TokenResult) :
    List CtplTokenExpr → ValidateState → Option ValidateState
  | [], st => some st
  | data :: next, st =>
    if st.i % 2 = 0 then
      match st.operands.set st.opd (some data) with
      | none => none
      | some operands =>
        validate_loop self next
          { st with i := st.i + 1, operands := operands, opd := st.opd + 1,
                    last_opd := data :: next }
    else
      match st.operators.set st.opt (some data) with
      | none => none
      | some operators =>
        if st.opt + 1 > 1 then
          match operators.1.bind t_operator, operators.2.bind t_operator with
          | some op0, some op1 =>
            if operator_is_prior op0 op1 then
              match operators.1.bind (fun nexpr => set_operands nexpr st.operands.1 st.operands.2) with
              | none => none
              | some nexpr =>
                validate_loop self next
                  { st with i := st.i + 1, operators := (operators.2, none),
                            opt := st.opt + 1 - 1, operands := (some nexpr, none), opd := 1 }
            else
              match self st.last_opd st.error with
              | none => none
              | some (expr, error) =>
                some { st with i := st.i + 1, operators := operators,
                               operands := (st.operands.1, expr),
                               opt := st.opt + 1 - 1, error := error }
          | _, _ => none
        else
          validate_loop self next
            { st with i := st.i + 1, operators := operators, opt := st.opt + 1 }

/-- The message `Too few operands for operator '%s'`. -/
def too_few_operands_message (name : List Char) : List Char :=
  "Too few operands for operator '".toList ++ name ++ "'".toList

/-- The part of `validate_token_list` after the loop.  In the error branch the
read `operators[opt - 1]` is out of range when `opt` is 0, and the token read
is dereferenced: both give `none` when the C code must not make them. -/
def validate_finish (st : ValidateState) : Option TokenResult :=
  if st.opt = 0 ∧ st.opd = 1 then
    some (st.operands.1, st.error)
  else if st.opt = 1 ∧ st.opd = 2 then
    match st.operators.1.bind (fun nexpr => set_operands nexpr st.operands.1 st.operands.2) with
    | none => none
    | some nexpr => some (some nexpr, st.error)
  else
    if st.opt = 0 then none
    else
      match (st.operators.get (st.opt - 1)).join with
      | none => none
      | some token =>
        some (none, ctpl_input_stream_set_error st.error ErrorDomain.CTPL_LEXER_ERROR
          ErrorCode.CTPL_LEXER_EXPR_ERROR_MISSING_OPERAND
          (too_few_operands_message (token_operator_to_string token)))

/-- The function `validate_token_list (stream, tokens, error)` with a bound on
the depth of its recursion; the stream, used for the position of the error
only, is left out.  `error` is the content of the error location on entry. -/
def validate_token_list_fuel : Nat → List CtplTokenExpr → Option GError → Option TokenResult
  | 0, _, _ => none
  | fuel + 1, tokens, error =>
    match validate_loop (validate_token_list_fuel fuel) tokens
        ⟨(none, none), (none, none), 0, 0, 0, [], error⟩ with
    | none => none
    | some st => validate_finish st

/-- The function `validate_token_list`: each recursive call is on a shorter
list, so the length of the list bounds the depth. -/
def validate_token_list (tokens : List CtplTokenExpr) (error : Option GError) :
    Option TokenResult :=
  validate_token_list_fuel (tokens.length + 1) tokens error

/-- The token list `a, o1, b1, o2, b2, ...` ending with an operand: the
operands are any tokens, the operators are as `lex_operator` makes them. -/
def flat_tokens (a : CtplTokenExpr) (rest : List (CtplOperator × CtplTokenExpr)) :
    List CtplTokenExpr :=
  a :: rest.flatMap (fun p => [ctpl_token_expr_new_operator p.1 none none, p.2])

/-- The token list `a, o1, b1, ..., on, bn` followed by one more operator when
`last` is given. -/
def alternating_tokens (a : CtplTokenExpr) (rest : List (CtplOperator × CtplTokenExpr))
    (last : Option CtplOperator) : List CtplTokenExpr :=
  flat_tokens a rest ++ (last.toList.map (fun o => ctpl_token_expr_new_operator o none none))

/-- The tokens that follow the first operand in `alternating_tokens`. -/
def tail_tokens (rest : List (CtplOperator × CtplTokenExpr)) (last : Option CtplOperator) :
    List CtplTokenExpr :=
  rest.flatMap (fun p => [ctpl_token_expr_new_operator p.1 none none, p.2])
    ++ (last.toList.map (fun o => ctpl_token_expr_new_operator o none none))

/-- The operator that follows the operand in hand, if any. -/
def next_operator (rest : List (CtplOperator × CtplTokenExpr)) (last : Option CtplOperator) :
    Option CtplOperator :=
  match rest with
  | [] => last
  | p :: _ => some p.1

/-- The error `validate_token_list` sets for a dangling operator. -/
def missing_operand_error (op : CtplOperator) : GError :=
  ⟨ErrorDomain.CTPL_LEXER_ERROR, ErrorCode.CTPL_LEXER_EXPR_ERROR_MISSING_OPERAND,
    too_few_operands_message (ctpl_operator_to_string op)⟩

/-- What `validate_token_list` computes on `alternating_tokens a rest last`,
as a recursion on the list of (operator, operand) pairs: reduce to the left
when the operator in hand is prior to the next one, otherwise hand everything
from the second operand on to a recursive reduction. -/
def reduction (a : CtplTokenExpr) :
    List (CtplOperator × CtplTokenExpr) → Option CtplOperator → TokenResult
  | [], none => (some a, none)
  | [], some o => (none, some (missing_operand_error o))
  | p :: rest, last =>
    match next_operator rest last with
    | none => (some (.operator p.1 (some a) (some p.2) []), none)
    | some o2 =>
      if operator_is_prior p.1 o2 then
        reduction (.operator p.1 (some a) (some p.2) []) rest last
      else
        (some (.operator p.1 (some a) (reduction p.2 rest last).1 []),
          (reduction p.2 rest last).2)

/-- The fully right-nested tree `o1 (a, o2 (b1, o3 (b2, ...)))`. -/
def right_nested (a : CtplTokenExpr) : List (CtplOperator × CtplTokenExpr) → CtplTokenExpr
  | [] => a
  | p :: rest => .operator p.1 (some a) (some (right_nested p.2 rest)) []

/-- The fully left-nested tree `... o3 (o2 (o1 (a, b1), b2), b3)`: the left
fold of the list. -/
def left_nested (a : CtplTokenExpr) (rest : List (CtplOperator × CtplTokenExpr)) :
    CtplTokenExpr :=
  rest.foldl (fun acc p => .operator p.1 (some acc) (some p.2) []) a

/-- The operators' priorities strictly increase from left to right. -/
def priorities_increasing : List (CtplOperator × CtplTokenExpr) → Bool
  | [] => true
  | [_] => true
  | p :: q :: rest => decide (p.1.priority < q.1.priority) && priorities_increasing (q :: rest)

/-- The operators' priorities never increase from left to right. -/
def priorities_non_increasing : List (CtplOperator × CtplTokenExpr) → Bool
  | [] => true
  | [_] => true
  | p :: q :: rest =>
    decide (p.1.priority ≥ q.1.priority) && priorities_non_increasing (q :: rest)

mutual
/-- Standard precedence climbing, outer loop (this follows the spec's words,
not the source): while the next operator has priority at least `min_priority`,
take it and its operand, let the inner loop extend the operand, and apply the
operator to the left-hand side. -/
def climb_expression : Nat → CtplTokenExpr → Nat → List (CtplOperator × CtplTokenExpr) →
    CtplTokenExpr × List (CtplOperator × CtplTokenExpr)
  | 0, lhs, _, rest => (lhs, rest)
  | _ + 1, lhs, _, [] => (lhs, [])
  | fuel + 1, lhs, min_priority, p :: rest =>
    if p.1.priority ≥ min_priority then
      let r := climb_operand fuel p.2 p.1.priority rest
      climb_expression fuel (.operator p.1 (some lhs) (some r.1) []) min_priority r.2
    else (lhs, p :: rest)
/-- Standard precedence climbing, inner loop: while the next operator has a
priority strictly greater than `priority` (all operators associate to the
left), it belongs to the right operand. -/
def climb_operand : Nat → CtplTokenExpr → Nat → List (CtplOperator × CtplTokenExpr) →
    CtplTokenExpr × List (CtplOperator × CtplTokenExpr)
  | 0, rhs, _, rest => (rhs, rest)
  | _ + 1, rhs, _, [] => (rhs, [])
  | fuel + 1, rhs, priority, p :: rest =>
    if p.1.priority > priority then
      let r := climb_expression fuel rhs (priority + 1) (p :: rest)
      climb_operand fuel r.1 priority r.2
    else (rhs, p :: rest)
end

/-- The tree that standard precedence climbing builds from the operand `a`
followed by the (operator, operand) pairs `rest`. -/
def precedence_climbing (a : CtplTokenExpr) (rest : List (CtplOperator × CtplTokenExpr)) :
    CtplTokenExpr :=
  (climb_expression (2 * rest.length + 2) a 0 rest).1

/-- The integer literal token `n`. -/
def int_token (n : Int) : CtplTokenExpr :=
  ctpl_token_expr_new_value (.int n)

/-- The operator node `op (l, r)` with both operands set. -/
def op_node (op : CtplOperator) (l r : CtplTokenExpr) : CtplTokenExpr :=
  .operator op (some l) (some r) []

/-! ## The input stream -/

/-- An error raised by one of the stream's own scanners. -/
structure StreamError where
  code : Nat
  message : List Char
  deriving DecidableEq, Repr

/-- Modelled from the spec: errors raised by the stream carry the distinguished
I/O category (`CTPL_IO_ERROR`). -/
def StreamError.toGError (e : StreamError) : GError :=
  ⟨ErrorDomain.CTPL_IO_ERROR, ErrorCode.other e.code, e.message⟩

/-- Modelled from the spec: the parts of the character-stream collaborator
(`ctpl-input-stream.h`, `ctpl-input-stream.c`) that the lexer takes as given:
the character classes `ctpl_is_blank` and `ctpl_is_symbol`, the constant
`CTPL_STRING_DELIMITER_CHAR`, and the three scanners.  A scanner looks at the
bytes still to read and either fails with a stream error or returns its result
together with the number of bytes it consumed. -/
structure StreamScanners where
  is_blank : Char → Bool
  is_symbol : Char → Bool
  string_delimiter : Char
  read_number : List Char → Except StreamError (CtplValue × Nat)
  read_symbol : List Char → Except StreamError (List Char × Nat)
  read_string_literal : List Char → Except StreamError (List Char × Nat)

/-- Modelled from the spec: an in-memory `CtplInputStream` is the list of the
bytes still to read; reading from memory raises no I/O error. -/
abbrev CtplInputStream := List Char

/-- Modelled from the spec: `ctpl_input_stream_eof`, the `at_eof` test. -/
def ctpl_input_stream_eof (stream : CtplInputStream) : Bool :=
  stream.isEmpty

/-- Modelled from the spec: `ctpl_input_stream_peek_c`, the next byte without
consuming it, `CTPL_EOF` (the NUL byte) at end of stream. -/
def ctpl_input_stream_peek_c (stream : CtplInputStream) : Char :=
  stream.headD NUL

/-- Modelled from the spec: `ctpl_input_stream_get_c`, `read_char`: the next
byte (`CTPL_EOF` at end of stream) and the stream after it. -/
def ctpl_input_stream_get_c (stream : CtplInputStream) : Char × CtplInputStream :=
  (stream.headD NUL, stream.tail)

/-- Modelled from the spec: `ctpl_input_stream_peek (stream, buf, count)`,
`peek(n)`: the bytes available without consuming, at most `count`. -/
def ctpl_input_stream_peek (stream : CtplInputStream) (count : Nat) : List Char :=
  stream.take count

/-- Modelled from the spec: `ctpl_input_stream_skip (stream, count)`,
`consume(n)`. -/
def ctpl_input_stream_skip (stream : CtplInputStream) (count : Nat) : CtplInputStream :=
  stream.drop count

/-- Modelled from the spec: `ctpl_input_stream_skip_blank`, `skip_blanks`. -/
def ctpl_input_stream_skip_blank (sc : StreamScanners) (stream : CtplInputStream) :
    CtplInputStream :=
  stream.dropWhile sc.is_blank

/-- The GLib test `g_ascii_isdigit`. -/
def g_ascii_isdigit (c : Char) : Bool :=
  decide ('0'.toNat ≤ c.toNat ∧ c.toNat ≤ '9'.toNat)

/-! ## The lexer -/

/-- The result of a lexing function: the returned token pointer, the content
of its error location, and the stream after the call. -/
structure LexResult where
  token : Option CtplTokenExpr
  error : Option GError
  stream : CtplInputStream
  deriving DecidableEq

/-- The function `read_number`. -/
def read_number (sc : StreamScanners) (stream : CtplInputStream) : LexResult :=
  match sc.read_number stream with
  | .ok (value, n) => ⟨some (ctpl_token_expr_new_value value), none, stream.drop n⟩
  | .error e => ⟨none, some e.toGError, stream⟩

/-- The function `read_symbol`: an empty symbol is a syntax error. -/
def read_symbol (sc : StreamScanners) (stream : CtplInputStream) : LexResult :=
  match sc.read_symbol stream with
  | .ok (symbol, n) =>
    if symbol ≠ [] then
      ⟨some (ctpl_token_expr_new_symbol symbol), none, stream.drop n⟩
    else
      ⟨none, ctpl_input_stream_set_error none ErrorDomain.CTPL_LEXER_EXPR_ERROR
        ErrorCode.CTPL_LEXER_EXPR_ERROR_SYNTAX_ERROR "No valid symbol".toList, stream.drop n⟩
  | .error e => ⟨none, some e.toGError, stream⟩

/-- The function `read_string_literal`. -/
def read_string_literal (sc : StreamScanners) (stream : CtplInputStream) : LexResult :=
  match sc.read_string_literal stream with
  | .ok (string, n) =>
    ⟨some (ctpl_token_expr_new_value (.string string)), none, stream.drop n⟩
  | .error e => ⟨none, some e.toGError, stream⟩

/-- The function `lex_operator`: peek `OPERATORS_STR_MAXLEN` bytes, resolve
them through the table (`off` starts from 0), consume the operator read. -/
def lex_operator (stream : CtplInputStream) : LexResult :=
  let buf := ctpl_input_stream_peek stream OPERATORS_STR_MAXLEN
  let r := ctpl_operator_from_string buf (buf.length : Int) 0
  if r.1 = CTPL_OPERATOR_NONE then
    ⟨none, ctpl_input_stream_set_error none ErrorDomain.CTPL_LEXER_EXPR_ERROR
      ErrorCode.CTPL_LEXER_EXPR_ERROR_MISSING_OPERATOR "No valid operator".toList, stream⟩
  else
    ⟨some (ctpl_token_expr_new_operator r.1 none none), none,
      ctpl_input_stream_skip stream r.2⟩

/-- The store `operand->indexes = g_slist_append (operand->indexes, idx)`. -/
def append_index (operand idx : CtplTokenExpr) : CtplTokenExpr :=
  match operand with
  | .operator op l r indexes => .operator op l r (indexes ++ [idx])
  | .value v indexes => .value v (indexes ++ [idx])
  | .symbol s indexes => .symbol s (indexes ++ [idx])

/-- The message `Unexpected character '%c', expected index end`. -/
def unexpected_character_message (c : Char) : List Char :=
  "Unexpected character '".toList ++ [c] ++ "', expected index end".toList

/-- The result of `lex_operand_index`: the returned boolean, the operand with
the indexes appended so far, the error location and the stream. -/
structure IndexResult where
  success : Bool
  operand : CtplTokenExpr
  error : Option GError
  stream : CtplInputStream
  deriving DecidableEq

/-- The parser state `LexerExprState`. -/
structure LexerExprState where
  lex_all : Bool
  depth : Nat
  deriving DecidableEq

/-- The local variables of `ctpl_lexer_expr_lex_internal` inside its loop,
with the stream and the depth of the state it was given. -/
structure InternalState where
  stream : CtplInputStream
  depth : Nat
  tokens : List CtplTokenExpr
  err : Option GError
  expect_operand : Bool
  deriving DecidableEq

/-- The result of `ctpl_lexer_expr_lex_internal`: token, error, stream, and the
depth left in the caller's state. -/
structure InternalResult where
  token : Option CtplTokenExpr
  error : Option GError
  stream : CtplInputStream
  depth : Nat
  deriving DecidableEq

mutual
/-- The function `ctpl_lexer_expr_lex_full (stream, lex_all, error)`.  The first
argument bounds the depth of the calls; `none` is returned when it is
exhausted or when the C code would dereference a null pointer. -/
def lex_full_fuel : Nat → StreamScanners → Bool → CtplInputStream → Option LexResult
  | 0, _, _, _ => none
  | fuel + 1, sc, lex_all, stream =>
    match lex_internal_fuel fuel sc ⟨lex_all, 0⟩ stream with
    | none => none
    | some r =>
      let err :=
        if r.error.isNone then
          if lex_all && !ctpl_input_stream_eof r.stream then
            ctpl_input_stream_set_error r.error ErrorDomain.CTPL_LEXER_EXPR_ERROR
              ErrorCode.CTPL_LEXER_EXPR_ERROR_SYNTAX_ERROR
              "Trash data at end of expression".toList
          else r.error
        else r.error
      if err.isSome then some ⟨none, err, r.stream⟩
      else some ⟨r.token, err, r.stream⟩
/-- The function `ctpl_lexer_expr_lex_internal (stream, state, error)`. -/
def lex_internal_fuel : Nat → StreamScanners → LexerExprState → CtplInputStream →
    Option InternalResult
  | 0, _, _, _ => none
  | fuel + 1, sc, state, stream =>
    match lex_internal_loop fuel sc state.lex_all
        ⟨ctpl_input_stream_skip_blank sc stream, state.depth, [], none, true⟩ with
    | none => none
    | some st =>
      if st.err.isNone then
        if st.tokens.isEmpty then
          some ⟨none, ctpl_input_stream_set_error st.err ErrorDomain.CTPL_LEXER_EXPR_ERROR
            ErrorCode.CTPL_LEXER_EXPR_ERROR_FAILED
            "No valid operand at start of expression".toList, st.stream, st.depth⟩
        else
          match validate_token_list st.tokens.reverse st.err with
          | none => none
          | some r => some ⟨r.1, r.2, st.stream, st.depth⟩
      else some ⟨none, st.err, st.stream, st.depth⟩
/-- The `while` loop of `ctpl_lexer_expr_lex_internal`, from its condition;
the result is the state on leaving the loop. -/
def lex_internal_loop : Nat → StreamScanners → Bool → InternalState → Option InternalState
  | 0, _, _, _ => none
  | fuel + 1, sc, lex_all, st =>
    if ctpl_input_stream_eof st.stream || st.err.isSome then some st
    else
      let c := ctpl_input_stream_peek_c st.stream
      if c = ')' then
        if st.depth ≤ 0 then
          if lex_all then
            some { st with err := (ctpl_input_stream_set_error st.err
              ErrorDomain.CTPL_LEXER_EXPR_ERROR ErrorCode.CTPL_LEXER_EXPR_ERROR_SYNTAX_ERROR
              "Too many closing parenthesis".toList) }
          else some st
        else
          some { st with depth := st.depth - 1,
                         stream := (ctpl_input_stream_get_c st.stream).2 }
      else
        let read : Option LexResult :=
          if st.expect_operand then
            if c = '(' then
              match lex_internal_fuel fuel sc ⟨lex_all, st.depth + 1⟩
                  (ctpl_input_stream_get_c st.stream).2 with
              | none => none
              | some r =>
                if r.token.isSome && r.depth != st.depth then
                  some ⟨r.token, ctpl_input_stream_set_error r.error
                    ErrorDomain.CTPL_LEXER_EXPR_ERROR
                    ErrorCode.CTPL_LEXER_EXPR_ERROR_SYNTAX_ERROR
                    "Missing closing parenthesis".toList, r.stream⟩
                else some ⟨r.token, r.error, r.stream⟩
            else lex_operand_fuel fuel sc st.stream
          else some (lex_operator st.stream)
        match read with
        | none => none
        | some r =>
          match r.token with
          | some token =>
            lex_internal_loop fuel sc lex_all
              { st with stream := ctpl_input_stream_skip_blank sc r.stream,
                        tokens := token :: st.tokens,
                        err := r.error,
                        expect_operand := !st.expect_operand }
          | none =>
            if !lex_all then
              match r.error with
              | none => none
              | some e =>
                if e.domain ≠ ErrorDomain.CTPL_IO_ERROR then
                  some { st with stream := r.stream, err := none }
                else some { st with stream := r.stream, err := some e }
            else
              lex_internal_loop fuel sc lex_all
                { st with stream := ctpl_input_stream_skip_blank sc r.stream,
                          err := r.error }
/-- The function `lex_operand (stream, error)`. -/
def lex_operand_fuel : Nat → StreamScanners → CtplInputStream → Option LexResult
  | 0, _, _ => none
  | fuel + 1, sc, stream =>
    let buf := ctpl_input_stream_peek stream 2
    let c := buf.getD 0 NUL
    let next_c := buf.getD 1 NUL
    let r : LexResult :=
      if g_ascii_isdigit c || (c = '.' && g_ascii_isdigit next_c) || c = '+' || c = '-' then
        read_number sc stream
      else if sc.is_symbol c then
        read_symbol sc stream
      else if c = sc.string_delimiter then
        read_string_literal sc stream
      else
        ⟨none, ctpl_input_stream_set_error none ErrorDomain.CTPL_LEXER_EXPR_ERROR
          ErrorCode.CTPL_LEXER_EXPR_ERROR_SYNTAX_ERROR
          "No valid operand at start of expression".toList, stream⟩
    match r.token with
    | none => some r
    | some token =>
      match lex_operand_index_fuel fuel sc token r.error r.stream with
      | none => none
      | some ir =>
        if ir.success then some ⟨some ir.operand, ir.error, ir.stream⟩
        else some ⟨none, ir.error, ir.stream⟩
/-- The function `lex_operand_index (stream, operand, error)`: its `while`
loop from the condition, `success` being true there. -/
def lex_operand_index_fuel : Nat → StreamScanners → CtplTokenExpr → Option GError →
    CtplInputStream → Option IndexResult
  | 0, _, _, _, _ => none
  | fuel + 1, sc, operand, error, stream =>
    let stream1 := ctpl_input_stream_skip_blank sc stream
    if ctpl_input_stream_peek_c stream1 = '[' then
      match lex_full_fuel fuel sc false (ctpl_input_stream_get_c stream1).2 with
      | none => none
      | some r =>
        match r.token with
        | none => some ⟨false, operand, r.error, r.stream⟩
        | some idx =>
          let c := (ctpl_input_stream_get_c r.stream).1
          if c ≠ ']' then
            some ⟨false, operand, ctpl_input_stream_set_error r.error
              ErrorDomain.CTPL_LEXER_EXPR_ERROR ErrorCode.CTPL_LEXER_EXPR_ERROR_SYNTAX_ERROR
              (unexpected_character_message c), (ctpl_input_stream_get_c r.stream).2⟩
          else
            lex_operand_index_fuel fuel sc (append_index operand idx) r.error
              (ctpl_input_stream_get_c r.stream).2
    else some ⟨true, operand, error, stream1⟩
end

/-- The depth bound that is always enough for a stream: five calls per byte. -/
def lex_fuel (stream : CtplInputStream) : Nat :=
  5 * stream.length + 5

/-- The function `ctpl_lexer_expr_lex_full (stream, lex_all, error)`. -/
def ctpl_lexer_expr_lex_full (sc : StreamScanners) (stream : CtplInputStream)
    (lex_all : Bool) : Option LexResult :=
  lex_full_fuel (lex_fuel stream) sc lex_all stream

/-- The function `ctpl_lexer_expr_lex (stream, error)`. -/
def ctpl_lexer_expr_lex (sc : StreamScanners) (stream : CtplInputStream) :
    Option LexResult :=
  ctpl_lexer_expr_lex_full sc stream true

/-- The function `ctpl_lexer_expr_lex_string (expr, len, error)`: the stream is
made of the first `len` bytes of `expr`, of the whole string when `len` is
negative. -/
def ctpl_lexer_expr_lex_string (sc : StreamScanners) (expr : List Char) (len : Int) :
    Option CtplTokenExpr × Option GError :=
  match ctpl_lexer_expr_lex sc (expr.take (from_string_length expr len)) with
  | none => (none, none)
  | some r => (r.token, r.error)

/-! ## A sample stream collaborator, for concrete inputs -/

/-- Blank characters of the sample collaborator: space, tab, vertical tab,
carriage return, newline. -/
def sample_is_blank (c : Char) : Bool :=
  c = ' ' || c = '\t' || c = Char.ofNat 11 || c = '\r' || c = '\n'

/-- Symbol characters of the sample collaborator: letters, digits, `_`. -/
def sample_is_symbol (c : Char) : Bool :=
  decide (('a'.toNat ≤ c.toNat ∧ c.toNat ≤ 'z'.toNat) ∨
    ('A'.toNat ≤ c.toNat ∧ c.toNat ≤ 'Z'.toNat) ∨
    ('0'.toNat ≤ c.toNat ∧ c.toNat ≤ '9'.toNat) ∨ c = '_')

/-- The value of a run of decimal digits. -/
def digits_value (ds : List Char) : Nat :=
  ds.foldl (fun n c => 10 * n + (c.toNat - '0'.toNat)) 0

/-- Number scanner of the sample collaborator: an optional sign and a run of
decimal digits. -/
def sample_read_number (s : List Char) : Except StreamError (CtplValue × Nat) :=
  let signed : Int × List Char × Nat :=
    match s with
    | '+' :: r => (1, r, 1)
    | '-' :: r => (-1, r, 1)
    | _ => (1, s, 0)
  let ds := signed.2.1.takeWhile g_ascii_isdigit
  if ds.isEmpty then .error ⟨1, "Missing mantissa in numeric constant".toList⟩
  else .ok (.int (signed.1 * (digits_value ds : Int)), signed.2.2 + ds.length)

/-- Symbol scanner of the sample collaborator: the run of symbol characters. -/
def sample_read_symbol (s : List Char) : Except StreamError (List Char × Nat) :=
  .ok (s.takeWhile sample_is_symbol, (s.takeWhile sample_is_symbol).length)

/-- String scanner of the sample collaborator: the bytes between two
delimiters, without escapes. -/
def sample_read_string_literal (s : List Char) : Except StreamError (List Char × Nat) :=
  match s with
  | [] => .error ⟨2, "Missing string delimiter".toList⟩
  | _ :: r =>
    let body := r.takeWhile (fun c => c ≠ '"')
    if (r.drop body.length).isEmpty then .error ⟨2, "Unterminated string".toList⟩
    else .ok (body, body.length + 2)

/-- The sample stream collaborator. -/
def sample_scanners : StreamScanners :=
  ⟨sample_is_blank, sample_is_symbol, '"', sample_read_number, sample_read_symbol,
    sample_read_string_literal⟩

/-! ## Invariants of the lexer -/

/-- The shape of the token list accumulated by the loop of
`ctpl_lexer_expr_lex_internal` (most recent token first), with the value of
`expect_operand`: operands and operators alternate, starting with an operand,
and each operator token is as `lex_operator` returns it. -/
inductive Accumulated : Bool → List CtplTokenExpr → Prop where
  | nil : Accumulated true []
  | operand (token : CtplTokenExpr) (tokens : List CtplTokenExpr) :
      Accumulated true tokens → Accumulated false (token :: tokens)
  | operator (op : CtplOperator) (tokens : List CtplTokenExpr) :
      Accumulated false tokens →
      Accumulated true (ctpl_token_expr_new_operator op none none :: tokens)

/-- What is established of `lex_full_fuel` at a given bound. -/
def FullTotal (fuel : Nat) : Prop :=
  ∀ (sc : StreamScanners) (lex_all : Bool) (stream : CtplInputStream),
    5 * stream.length + 5 ≤ fuel →
    ∃ r, lex_full_fuel fuel sc lex_all stream = some r ∧
      r.stream.length ≤ stream.length ∧
      (r.token.isSome = true ↔ r.error.isNone = true)

/-- What is established of `lex_internal_fuel` at a given bound. -/
def InternalTotal (fuel : Nat) : Prop :=
  ∀ (sc : StreamScanners) (state : LexerExprState) (stream : CtplInputStream),
    5 * stream.length + 4 ≤ fuel →
    ∃ r, lex_internal_fuel fuel sc state stream = some r ∧
      r.stream.length ≤ stream.length ∧
      (r.token = none → r.error ≠ none)

/-- What is established of `lex_internal_loop` at a given bound. -/
def LoopTotal (fuel : Nat) : Prop :=
  ∀ (sc : StreamScanners) (lex_all : Bool) (st : InternalState),
    5 * st.stream.length + (if st.expect_operand = true then 3 else 2) ≤ fuel →
    Accumulated st.expect_operand st.tokens →
    ∃ st', lex_internal_loop fuel sc lex_all st = some st' ∧
      st'.stream.length ≤ st.stream.length ∧
      ∃ b, Accumulated b st'.tokens

/-- What is established of `lex_operand_fuel` at a given bound. -/
def OperandTotal (fuel : Nat) : Prop :=
  ∀ (sc : StreamScanners) (stream : CtplInputStream),
    5 * stream.length + 2 ≤ fuel →
    ∃ r, lex_operand_fuel fuel sc stream = some r ∧
      r.stream.length ≤ stream.length ∧
      (r.token = none → r.error ≠ none)

/-- What is established of `lex_operand_index_fuel` at a given bound. -/
def IndexTotal (fuel : Nat) : Prop :=
  ∀ (sc : StreamScanners) (operand : CtplTokenExpr) (error : Option GError)
    (stream : CtplInputStream),
    5 * stream.length + 1 ≤ fuel →
    ∃ r, lex_operand_index_fuel fuel sc operand error stream = some r ∧
      r.stream.length ≤ stream.length ∧
      (r.success = false → r.error ≠ none)

/-! ## The lexer, piece by piece -/

/-- The end of `ctpl_lexer_expr_lex_full`, after the call of
`ctpl_lexer_expr_lex_internal` has returned `r`. -/
def lex_full_finish (lex_all : Bool) (r : InternalResult) : LexResult :=
  let err :=
    if r.error.isNone then
      if lex_all && !ctpl_input_stream_eof r.stream then
        ctpl_input_stream_set_error r.error ErrorDomain.CTPL_LEXER_EXPR_ERROR
          ErrorCode.CTPL_LEXER_EXPR_ERROR_SYNTAX_ERROR
          "Trash data at end of expression".toList
      else r.error
    else r.error
  if err.isSome then ⟨none, err, r.stream⟩
  else ⟨r.token, err, r.stream⟩

/-- The state in which `ctpl_lexer_expr_lex_internal` enters its loop. -/
def lex_internal_initial (sc : StreamScanners) (depth : Nat) (stream : CtplInputStream) :
    InternalState :=
  ⟨ctpl_input_stream_skip_blank sc stream, depth, [], none, true⟩

/-- The end of `ctpl_lexer_expr_lex_internal`, after its loop has been left in
the state `st`. -/
def lex_internal_finish (st : InternalState) : Option InternalResult :=
  if st.err.isNone then
    if st.tokens.isEmpty then
      some ⟨none, ctpl_input_stream_set_error st.err ErrorDomain.CTPL_LEXER_EXPR_ERROR
        ErrorCode.CTPL_LEXER_EXPR_ERROR_FAILED
        "No valid operand at start of expression".toList, st.stream, st.depth⟩
    else
      match validate_token_list st.tokens.reverse st.err with
      | none => none
      | some r => some ⟨r.1, r.2, st.stream, st.depth⟩
  else some ⟨none, st.err, st.stream, st.depth⟩

/-- The token read of one turn of the loop of `ctpl_lexer_expr_lex_internal`
(the character peeked is neither end of stream nor `)`), given the two
functions it calls. -/
def lex_internal_read (internal : LexerExprState → CtplInputStream → Option InternalResult)
    (operand : CtplInputStream → Option LexResult) (lex_all : Bool) (st : InternalState) :
    Option LexResult :=
  if st.expect_operand then
    if ctpl_input_stream_peek_c st.stream = '(' then
      match internal ⟨lex_all, st.depth + 1⟩ (ctpl_input_stream_get_c st.stream).2 with
      | none => none
      | some r =>
        if r.token.isSome && r.depth != st.depth then
          some ⟨r.token, ctpl_input_stream_set_error r.error
            ErrorDomain.CTPL_LEXER_EXPR_ERROR
            ErrorCode.CTPL_LEXER_EXPR_ERROR_SYNTAX_ERROR
            "Missing closing parenthesis".toList, r.stream⟩
        else some ⟨r.token, r.error, r.stream⟩
    else operand st.stream
  else some (lex_operator st.stream)

/-- What one turn of the loop of `ctpl_lexer_expr_lex_internal` does with the
result `r` of its token read; `loop` is the rest of the loop. -/
def lex_internal_continue (loop : InternalState → Option InternalState)
    (sc : StreamScanners) (lex_all : Bool) (st : InternalState) (r : LexResult) :
    Option InternalState :=
  match r.token with
  | some token =>
    loop { st with stream := ctpl_input_stream_skip_blank sc r.stream,
                   tokens := token :: st.tokens,
                   err := r.error,
                   expect_operand := !st.expect_operand }
  | none =>
    if !lex_all then
      match r.error with
      | none => none
      | some e =>
        if e.domain ≠ ErrorDomain.CTPL_IO_ERROR then
          some { st with stream := r.stream, err := none }
        else some { st with stream := r.stream, err := some e }
    else
      loop { st with stream := ctpl_input_stream_skip_blank sc r.stream, err := r.error }

/-- The first part of `lex_operand`: the kind of operand is chosen from the two
bytes peeked and the matching scanner is called. -/
def lex_operand_read (sc : StreamScanners) (stream : CtplInputStream) : LexResult :=
  let buf := ctpl_input_stream_peek stream 2
  let c := buf.getD 0 NUL
  let next_c := buf.getD 1 NUL
  if g_ascii_isdigit c || (c = '.' && g_ascii_isdigit next_c) || c = '+' || c = '-' then
    read_number sc stream
  else if sc.is_symbol c then
    read_symbol sc stream
  else if c = sc.string_delimiter then
    read_string_literal sc stream
  else
    ⟨none, ctpl_input_stream_set_error none ErrorDomain.CTPL_LEXER_EXPR_ERROR
      ErrorCode.CTPL_LEXER_EXPR_ERROR_SYNTAX_ERROR
      "No valid operand at start of expression".toList, stream⟩

/-- The end of `lex_operand`, after `lex_operand_index` has returned. -/
def lex_operand_finish (ir : IndexResult) : LexResult :=
  if ir.success then ⟨some ir.operand, ir.error, ir.stream⟩
  else ⟨none, ir.error, ir.stream⟩

/-- Some bound on the depth of the calls makes `lex_full_fuel` return `r`. -/
def FullReturns (sc : StreamScanners) (lex_all : Bool) (stream : CtplInputStream)
    (r : LexResult) : Prop :=
  ∃ fuel, lex_full_fuel fuel sc lex_all stream = some r

/-- Some bound makes `lex_internal_fuel` return `r`. -/
def InternalReturns (sc : StreamScanners) (state : LexerExprState) (stream : CtplInputStream)
    (r : InternalResult) : Prop :=
  ∃ fuel, lex_internal_fuel fuel sc state stream = some r

/-- Some bound makes the loop started in the state `st` end in the state
`st'`. -/
def LoopReturns (sc : StreamScanners) (lex_all : Bool) (st st' : InternalState) : Prop :=
  ∃ fuel, lex_internal_loop fuel sc lex_all st = some st'

/-- Some bound makes `lex_operand_fuel` return `r`. -/
def OperandReturns (sc : StreamScanners) (stream : CtplInputStream) (r : LexResult) : Prop :=
  ∃ fuel, lex_operand_fuel fuel sc stream = some r

/-- Some bound makes `lex_operand_index_fuel` return `r`. -/
def IndexReturns (sc : StreamScanners) (operand : CtplTokenExpr) (error : Option GError)
    (stream : CtplInputStream) (r : IndexResult) : Prop :=
  ∃ fuel, lex_operand_index_fuel fuel sc operand error stream = some r

/-- Some bound makes the token read of one turn of the loop return `r`. -/
def ReadReturns (sc : StreamScanners) (lex_all : Bool) (st : InternalState) (r : LexResult) :
    Prop :=
  ∃ fuel, lex_internal_read (lex_internal_fuel fuel sc) (lex_operand_fuel fuel sc) lex_all st
    = some r

/-- What the loop of `ctpl_lexer_expr_lex_internal` makes of a parenthesized
group whose inner call returned `r`: the check of the depth. -/
def lex_internal_group (depth : Nat) (r : InternalResult) : LexResult :=
  if r.token.isSome && r.depth != depth then
    ⟨r.token, ctpl_input_stream_set_error r.error ErrorDomain.CTPL_LEXER_EXPR_ERROR
      ErrorCode.CTPL_LEXER_EXPR_ERROR_SYNTAX_ERROR "Missing closing parenthesis".toList,
      r.stream⟩
  else ⟨r.token, r.error, r.stream⟩

/-! ## The errors of the lexer -/

/-- The error `Too many closing parenthesis`. -/
def too_many_closing_error : GError :=
  ⟨ErrorDomain.CTPL_LEXER_EXPR_ERROR, ErrorCode.CTPL_LEXER_EXPR_ERROR_SYNTAX_ERROR,
    "Too many closing parenthesis".toList⟩

/-- The error `Missing closing parenthesis`. -/
def missing_closing_error : GError :=
  ⟨ErrorDomain.CTPL_LEXER_EXPR_ERROR, ErrorCode.CTPL_LEXER_EXPR_ERROR_SYNTAX_ERROR,
    "Missing closing parenthesis".toList⟩

/-- The error `Trash data at end of expression`. -/
def trash_data_error : GError :=
  ⟨ErrorDomain.CTPL_LEXER_EXPR_ERROR, ErrorCode.CTPL_LEXER_EXPR_ERROR_SYNTAX_ERROR,
    "Trash data at end of expression".toList⟩

/-- The error `No valid operator` (MissingOperator). -/
def missing_operator_error : GError :=
  ⟨ErrorDomain.CTPL_LEXER_EXPR_ERROR, ErrorCode.CTPL_LEXER_EXPR_ERROR_MISSING_OPERATOR,
    "No valid operator".toList⟩

/-- The FAILED error `No valid operand at start of expression`, set when no
token was read. -/
def no_token_error : GError :=
  ⟨ErrorDomain.CTPL_LEXER_EXPR_ERROR, ErrorCode.CTPL_LEXER_EXPR_ERROR_FAILED,
    "No valid operand at start of expression".toList⟩

/-- The syntax error `No valid operand at start of expression` of
`lex_operand`. -/
def no_operand_error : GError :=
  ⟨ErrorDomain.CTPL_LEXER_EXPR_ERROR, ErrorCode.CTPL_LEXER_EXPR_ERROR_SYNTAX_ERROR,
    "No valid operand at start of expression".toList⟩

/-- The state of the loop after a turn that read `token` with the result
`r`. -/
def lex_internal_next (sc : StreamScanners) (st : InternalState) (r : LexResult)
    (token : CtplTokenExpr) : InternalState :=
  { st with stream := ctpl_input_stream_skip_blank sc r.stream,
            tokens := token :: st.tokens,
            err := r.error,
            expect_operand := !st.expect_operand }

/-- The scan of one parenthesis level, started in the state `st0`, comes to
the condition of its loop in the state `st`, after any number of turns that
each read a token. -/
inductive ScanReaches (sc : StreamScanners) (lex_all : Bool) :
    InternalState → InternalState → Prop where
  | here (st : InternalState) : ScanReaches sc lex_all st st
  | token (st st' : InternalState) (r : LexResult) (token : CtplTokenExpr) :
      (ctpl_input_stream_eof st.stream || st.err.isSome) = false →
      ctpl_input_stream_peek_c st.stream ≠ ')' →
      ReadReturns sc lex_all st r →
      r.token = some token →
      ScanReaches sc lex_all (lex_internal_next sc st r token) st' →
      ScanReaches sc lex_all st st'

/-- The character `c`, followed by `next_c`, starts an operand for
`lex_operand`: a number, a symbol or a string literal. -/
def starts_operand (sc : StreamScanners) (c next_c : Char) : Bool :=
  g_ascii_isdigit c || (c = '.' && g_ascii_isdigit next_c) || c = '+' || c = '-' ||
    sc.is_symbol c || c = sc.string_delimiter

/-! ## Index suffixes -/

/-- The field `indexes` of a token. -/
def token_indexes (token : CtplTokenExpr) : List CtplTokenExpr :=
  match token with
  | .operator _ _ _ indexes => indexes
  | .value _ indexes => indexes
  | .symbol _ indexes => indexes

/-- The stream `s`, right after an operand, holds the bracketed index
expressions whose parses are `idxs`, in this order, and then something that is
no index, at `s'`: each time, after blanks, a `[` comes, the permissive
`ctpl_lexer_expr_lex_full` of what follows returns the tree `idx` without
error, and the next character is `]`. -/
inductive IndexChain (sc : StreamScanners) :
    CtplInputStream → List CtplTokenExpr → CtplInputStream → Prop where
  | done (s : CtplInputStream) :
      ctpl_input_stream_peek_c (ctpl_input_stream_skip_blank sc s) ≠ '[' →
      IndexChain sc s [] (ctpl_input_stream_skip_blank sc s)
  | next (s : CtplInputStream) (idx : CtplTokenExpr) (s1 : CtplInputStream)
      (idxs : List CtplTokenExpr) (s2 : CtplInputStream) :
      ctpl_input_stream_peek_c (ctpl_input_stream_skip_blank sc s) = '[' →
      FullReturns sc false (ctpl_input_stream_get_c (ctpl_input_stream_skip_blank sc s)).2
        ⟨some idx, none, s1⟩ →
      (ctpl_input_stream_get_c s1).1 = ']' →
      IndexChain sc (ctpl_input_stream_get_c s1).2 idxs s2 →
      IndexChain sc s (idx :: idxs) s2

/-! ## Operands of the operator nodes -/

mutual
/-- Every Operator node of the tree has both its operands, also inside the
operands themselves and inside the index lists. -/
def operands_set : CtplTokenExpr → Bool
  | .operator _ l r indexes =>
    operands_set_child l && operands_set_child r && operands_set_list indexes
  | .value _ indexes => operands_set_list indexes
  | .symbol _ indexes => operands_set_list indexes
/-- An operand slot is filled, by a tree whose operands are set. -/
def operands_set_child : Option CtplTokenExpr → Bool
  | none => false
  | some t => operands_set t
/-- All the trees of a list have their operands set. -/
def operands_set_list : List CtplTokenExpr → Bool
  | [] => true
  | t :: ts => operands_set t && operands_set_list ts
end

/-- The list of tokens accumulated by the loop of
`ctpl_lexer_expr_lex_internal`, as in `Accumulated`, where moreover every
operand has its operands set. -/
inductive AccumulatedSet : Bool → List CtplTokenExpr → Prop where
  | nil : AccumulatedSet true []
  | operand (token : CtplTokenExpr) (tokens : List CtplTokenExpr) :
      operands_set token = true →
      AccumulatedSet true tokens → AccumulatedSet false (token :: tokens)
  | operator (op : CtplOperator) (tokens : List CtplTokenExpr) :
      AccumulatedSet false tokens →
      AccumulatedSet true (ctpl_token_expr_new_operator op none none :: tokens)

/-! ## Parenthesis depth -/

/-- The state of the loop, had the scan been entered `k` parenthesis levels
deeper. -/
def shift_depth (k : Nat) (st : InternalState) : InternalState :=
  { st with depth := st.depth + k }

/-- The result of `ctpl_lexer_expr_lex_internal`, had it been entered `k`
parenthesis levels deeper. -/
def shift_result (k : Nat) (r : InternalResult) : InternalResult :=
  { r with depth := r.depth + k }

/-! ## Parenthesized groups -/

/-- What the texts of the grouping examples take of the blank test of the
stream: the space is a blank, and the parentheses and the characters of the
operators are not. -/
def BlankConvention (sc : StreamScanners) : Prop :=
  sc.is_blank ' ' = true ∧ sc.is_blank '(' = false ∧ sc.is_blank ')' = false ∧
    ∀ op, op ≠ CTPL_OPERATOR_NONE → ∀ c ∈ ctpl_operator_to_string op, sc.is_blank c = false

/-- The operand text ends before `rest`: at the end of the stream, at a space
or at a closing parenthesis. -/
def operand_end (rest : List Char) : Bool :=
  match rest with
  | [] => true
  | c :: _ => c == ' ' || c == ')'

/-- The text `text` is a simple operand that reads as the token `tok`: it
starts with a character that is neither a blank nor a parenthesis, and
wherever it ends (`operand_end`) the first part of `lex_operand` reads exactly
it and returns `tok`. -/
def SimpleOperand (sc : StreamScanners) (text : List Char) (tok : CtplTokenExpr) : Prop :=
  (∃ c cs, text = c :: cs ∧ sc.is_blank c = false ∧ c ≠ '(' ∧ c ≠ ')') ∧
  ∀ rest, operand_end rest = true →
    lex_operand_read sc (text ++ rest) = ⟨some tok, none, rest⟩

/-- The text `(a o1 b) o2 c`, from the texts of the operands. -/
def grouped_left_text (ta : List Char) (o1 : CtplOperator) (tb : List Char)
    (o2 : CtplOperator) (tc : List Char) : List Char :=
  '(' :: (ta ++ ' ' :: (ctpl_operator_to_string o1 ++ ' ' :: (tb ++ ')' :: ' ' ::
    (ctpl_operator_to_string o2 ++ ' ' :: (tc ++ [])))))

/-- The text `a o1 (b o2 c)`, from the texts of the operands. -/
def grouped_right_text (ta : List Char) (o1 : CtplOperator) (tb : List Char)
    (o2 : CtplOperator) (tc : List Char) : List Char :=
  ta ++ ' ' :: (ctpl_operator_to_string o1 ++ ' ' :: '(' ::
    (tb ++ ' ' :: (ctpl_operator_to_string o2 ++ ' ' :: (tc ++ [')']))))

/-! ## The two modes -/

/-- The condition under which `ctpl_lexer_expr_lex_full` sets the error `Trash
data at end of expression`, after `ctpl_lexer_expr_lex_internal` has returned
`r`: no error yet, `lex_all` set, and the stream not at its end. -/
def trash_data_branch (lex_all : Bool) (r : InternalResult) : Bool :=
  r.error.isNone && (lex_all && !ctpl_input_stream_eof r.stream)

/-! ## In-order reading of a tree -/

mutual
/-- Reads the tree in order (left operand, operator, right operand) against
the front of a token list and returns what is left of the list, or `none` when
the tree does not read as a front part of the list.  A tree that is the next
entry of the list is that entry: it is not descended into.  An operator node
stands for the entry that is the node without its operands. -/
def read_in_order : CtplTokenExpr → List CtplTokenExpr → Option (List CtplTokenExpr)
  | _, [] => none
  | .operator op l r indexes, x :: xs =>
    if CtplTokenExpr.operator op l r indexes = x then some xs
    else
      match read_operand l (x :: xs) with
      | some (o :: rest) =>
        if o = CtplTokenExpr.operator op none none indexes then read_operand r rest else none
      | _ => none
  | .value v indexes, x :: xs => if CtplTokenExpr.value v indexes = x then some xs else none
  | .symbol s indexes, x :: xs => if CtplTokenExpr.symbol s indexes = x then some xs else none
/-- Reads an operand slot in order: an empty slot reads as nothing. -/
def read_operand : Option CtplTokenExpr → List CtplTokenExpr → Option (List CtplTokenExpr)
  | none, _ => none
  | some t, tokens => read_in_order t tokens
end

/-- The tree `t` reads in order as exactly the tokens `tokens`, whatever
follows them; the first of these tokens is no bigger than the tree. -/
def ReadsAs (t : CtplTokenExpr) (tokens : List CtplTokenExpr) : Prop :=
  (∀ after, read_in_order t (tokens ++ after) = some after) ∧
  ∃ x more, tokens = x :: more ∧ sizeOf x ≤ sizeOf t

/-! ## Operator table: lemmas -/

theorem strncmp_eq_zero_iff (a : List Char) (h : ∀ c ∈ a, c ≠ NUL) (s : List Char) :
    strncmp a s a.length = 0 ↔ a <+: s := by
  induction a generalizing s with
  | nil => simp [strncmp]
  | cons x xs ih =>
    have hx : x ≠ NUL := h x (List.mem_cons_self _ _)
    have hxs : ∀ c ∈ xs, c ≠ NUL := fun c hc => h c (List.mem_cons_of_mem _ hc)
    cases s with
    | nil =>
      have : (x.toNat : Int) ≠ 0 := by
        intro h0
        apply hx
        have : x.toNat = 0 := by exact_mod_cast h0
        apply Char.ext
        apply UInt32.ext
        simpa [Char.toNat, NUL] using this
      simp [strncmp, this]
    | cons y ys =>
      by_cases hxy : x = y
      · subst hxy
        simp [strncmp, hx, ih hxs ys, List.cons_prefix_cons]
      · have : (x.toNat : Int) - (y.toNat : Int) ≠ 0 := by
          intro h0
          apply hxy
          have h1 : x.toNat = y.toNat := by omega
          apply Char.ext
          apply UInt32.ext
          simpa [Char.toNat] using h1
        simp [strncmp, hxy, this, List.cons_prefix_cons]

theorem scanned_operators_wf :
    ∀ e ∈ scanned_operators, e.op ≠ CTPL_OPERATOR_NONE ∧ e.str_len = e.str.length ∧
      (∀ c ∈ e.str, c ≠ NUL) ∧ e.str = ctpl_operator_to_string e.op := by
  decide

theorem scanned_operators_complete (op : CtplOperator) (h : op ≠ CTPL_OPERATOR_NONE) :
    ∃ e ∈ scanned_operators, e.op = op := by
  cases op <;> first | exact absurd rfl h | decide

theorem scanned_operators_order :
    scanned_operators.Pairwise (fun e1 e2 => ¬ e1.str <+: e2.str) := by
  decide

theorem entry_test_iff (str : List Char) (len : Int) (e : OperatorEntry)
    (he : e ∈ scanned_operators) :
    entry_test str (from_string_length str len) e ↔ OperatorMatches e.op str len := by
  obtain ⟨_, hlen, hnul, hstr⟩ := scanned_operators_wf e he
  unfold entry_test OperatorMatches
  rw [← hstr, List.prefix_take_iff, hlen, strncmp_eq_zero_iff e.str hnul str]
  constructor
  · rintro ⟨h1, h2⟩; exact ⟨h2, h1⟩
  · rintro ⟨h1, h2⟩; exact ⟨h2, h1⟩

theorem operator_to_string_injective (a b : CtplOperator)
    (h : ctpl_operator_to_string a = ctpl_operator_to_string b) : a = b := by
  revert h
  cases a <;> cases b <;> decide

theorem from_string_loop_found (str : List Char) (length : Nat) (es : List OperatorEntry)
    (op : CtplOperator) (n : Nat) (h : op ≠ CTPL_OPERATOR_NONE) :
    from_string_loop str length es (op, n) = (op, n) := by
  cases es with
  | nil => rfl
  | cons e es => simp [from_string_loop, h]

theorem from_string_loop_none (str : List Char) (length : Nat) (es : List OperatorEntry)
    (off : Nat) (h : ∀ e ∈ es, ¬ entry_test str length e) :
    from_string_loop str length es (CTPL_OPERATOR_NONE, off) = (CTPL_OPERATOR_NONE, off) := by
  induction es with
  | nil => rfl
  | cons e es ih =>
    have h1 : ¬ (length ≥ e.str_len ∧ strncmp e.str str e.str_len = 0) :=
      h e (List.mem_cons_self _ _)
    simp only [from_string_loop, if_true, h1, if_false]
    exact ih (fun e' he' => h e' (List.mem_cons_of_mem _ he'))

theorem from_string_loop_first (str : List Char) (length : Nat) (es : List OperatorEntry)
    (off : Nat) (hop : ∀ e ∈ es, e.op ≠ CTPL_OPERATOR_NONE)
    (h : ∃ e ∈ es, entry_test str length e) :
    ∃ as e bs, es = as ++ e :: bs ∧ (∀ a ∈ as, ¬ entry_test str length a) ∧
      entry_test str length e ∧
      from_string_loop str length es (CTPL_OPERATOR_NONE, off) = (e.op, e.str_len) := by
  induction es with
  | nil => obtain ⟨e, he, _⟩ := h; cases he
  | cons e es ih =>
    by_cases h1 : entry_test str length e
    · refine ⟨[], e, es, rfl, by simp, h1, ?_⟩
      have h1' : length ≥ e.str_len ∧ strncmp e.str str e.str_len = 0 := h1
      simp only [from_string_loop, if_true, h1']
      exact from_string_loop_found str length es e.op e.str_len (hop e (List.mem_cons_self _ _))
    · have h2 : ∃ e' ∈ es, entry_test str length e' := by
        obtain ⟨e', he', ht⟩ := h
        rcases List.mem_cons.mp he' with rfl | hmem
        · exact absurd ht h1
        · exact ⟨e', hmem, ht⟩
      obtain ⟨as, e', bs, hsplit, hnot, htest, hres⟩ :=
        ih (fun x hx => hop x (List.mem_cons_of_mem _ hx)) h2
      refine ⟨e :: as, e', bs, by rw [hsplit]; rfl, ?_, htest, ?_⟩
      · intro a ha
        rcases List.mem_cons.mp ha with rfl | hmem
        · exact h1
        · exact hnot a hmem
      · have h1' : ¬ (length ≥ e.str_len ∧ strncmp e.str str e.str_len = 0) := h1
        simp only [from_string_loop, if_true, h1', if_false]
        exact hres

/-! ## Operator table: properties -/

/-- C1: reading back the canonical text of any of the thirteen real operators
(whole string, `len = -1`) gives the operator itself, and the reported operator
length is the length of that text, whatever the length location held before. -/
theorem operator_text_roundtrip (op : CtplOperator) (h : op ≠ CTPL_OPERATOR_NONE)
    (off : Nat) :
    ctpl_operator_from_string (ctpl_operator_to_string op) (-1) off
      = (op, (ctpl_operator_to_string op).length) := by
  cases op <;> first | exact absurd rfl h | rfl

theorem operator_text_roundtrip_witness :
    CTPL_OPERATOR_SUPEQ ≠ CTPL_OPERATOR_NONE ∧
    ctpl_operator_from_string (ctpl_operator_to_string CTPL_OPERATOR_SUPEQ) (-1) 0
      = (CTPL_OPERATOR_SUPEQ, 2) :=
  ⟨by decide, operator_text_roundtrip CTPL_OPERATOR_SUPEQ (by decide) 0⟩

/-- C2: when some operator's text is a prefix of the readable bytes of the
text, `ctpl_operator_from_string` returns a real operator whose text is such a
prefix, reports that text's length, no operator with a longer text is such a
prefix, and it is the only operator with a prefix of that length; a text
starting with `>=` (resp. `<=`) read with at least two bytes (or wholly) gives
SUPEQ (resp. INFEQ) with length 2. -/
theorem operator_from_string_longest (str : List Char) (len : Int) (off : Nat)
    (h : ∃ op, op ≠ CTPL_OPERATOR_NONE ∧ OperatorMatches op str len) :
    ((ctpl_operator_from_string str len off).1 ≠ CTPL_OPERATOR_NONE ∧
      OperatorMatches (ctpl_operator_from_string str len off).1 str len ∧
      (ctpl_operator_from_string str len off).2
        = (ctpl_operator_to_string (ctpl_operator_from_string str len off).1).length ∧
      (∀ op, op ≠ CTPL_OPERATOR_NONE → OperatorMatches op str len →
        (ctpl_operator_to_string op).length ≤ (ctpl_operator_from_string str len off).2) ∧
      (∀ op, op ≠ CTPL_OPERATOR_NONE → OperatorMatches op str len →
        (ctpl_operator_to_string op).length = (ctpl_operator_from_string str len off).2 →
        op = (ctpl_operator_from_string str len off).1)) ∧
    (∀ rest : List Char, ∀ n : Int, (2 ≤ n ∨ n < 0) →
      ctpl_operator_from_string ('>' :: '=' :: rest) n off = (CTPL_OPERATOR_SUPEQ, 2) ∧
      ctpl_operator_from_string ('<' :: '=' :: rest) n off = (CTPL_OPERATOR_INFEQ, 2)) := by
  constructor
  · have h' : ∃ e ∈ scanned_operators, entry_test str (from_string_length str len) e := by
      obtain ⟨op, hop, hm⟩ := h
      obtain ⟨e, he, heq⟩ := scanned_operators_complete op hop
      exact ⟨e, he, (entry_test_iff str len e he).mpr (heq ▸ hm)⟩
    obtain ⟨as, e, bs, hsplit, hnot, htest, hres⟩ :=
      from_string_loop_first str (from_string_length str len) scanned_operators off
        (fun e he => (scanned_operators_wf e he).1) h'
    have hres' : ctpl_operator_from_string str len off = (e.op, e.str_len) := hres
    have he : e ∈ scanned_operators := by rw [hsplit]; simp
    obtain ⟨hnone, hlen, _, hstr⟩ := scanned_operators_wf e he
    have hmatch : OperatorMatches e.op str len := (entry_test_iff str len e he).mp htest
    rw [hres']
    have hlongest : ∀ op, op ≠ CTPL_OPERATOR_NONE → OperatorMatches op str len →
        (ctpl_operator_to_string op).length ≤ e.str_len := ?_
    · refine ⟨hnone, hmatch, by simp only [← hstr, hlen], hlongest, ?_⟩
      intro op hop hm hl
      apply operator_to_string_injective
      have p1 : ctpl_operator_to_string e.op <+: str.take (from_string_length str len) :=
        hmatch
      have p2 : ctpl_operator_to_string op <+: str.take (from_string_length str len) := hm
      have hl' : (ctpl_operator_to_string op).length
          = (ctpl_operator_to_string e.op).length := by
        rw [← hstr, ← hlen]; exact hl
      exact (List.prefix_of_prefix_length_le p2 p1 (le_of_eq hl')).eq_of_length hl'
    intro op hop hm
    obtain ⟨e', he', heq⟩ := scanned_operators_complete op hop
    obtain ⟨_, _, _, hstr'⟩ := scanned_operators_wf e' he'
    have htest' : entry_test str (from_string_length str len) e' :=
      (entry_test_iff str len e' he').mpr (heq ▸ hm)
    rw [← heq, ← hstr', hlen]
    have hpw := scanned_operators_order
    rw [hsplit, List.pairwise_append] at hpw
    obtain ⟨_, hpw2, _⟩ := hpw
    have hmem' : e' ∈ as ++ e :: bs := hsplit ▸ he'
    rcases List.mem_append.mp hmem' with hin | hin
    · exact absurd htest' (hnot e' hin)
    · rcases List.mem_cons.mp hin with rfl | hin'
      · exact le_refl _
      · have hno : ¬ e.str <+: e'.str := (List.pairwise_cons.mp hpw2).1 e' hin'
        have p1 : e.str <+: str.take (from_string_length str len) := by
          have := hmatch; unfold OperatorMatches at this; rwa [← hstr] at this
        have p2 : e'.str <+: str.take (from_string_length str len) := by
          have := (entry_test_iff str len e' he').mp htest'
          unfold OperatorMatches at this; rwa [← hstr'] at this
        rcases List.prefix_or_prefix_of_prefix p1 p2 with hp | hp
        · exact absurd hp hno
        · exact hp.length_le
  · intro rest n hn
    have hlen : ∀ c d : Char, c ≠ NUL → d ≠ NUL →
        2 ≤ from_string_length (c :: d :: rest) n := by
      intro c d hc hd
      unfold from_string_length
      split
      · simp [strlen, List.takeWhile, hc, hd]
      · omega
    have h1 := hlen '>' '=' (by decide) (by decide)
    have h2 := hlen '<' '=' (by decide) (by decide)
    constructor
    · simp [ctpl_operator_from_string, operators_array, operators_array_length,
        from_string_loop, strncmp, operators_none_entry, NUL, h1]
    · simp [ctpl_operator_from_string, operators_array, operators_array_length,
        from_string_loop, strncmp, operators_none_entry, NUL, h2]

theorem operator_from_string_longest_witness :
    (∃ op, op ≠ CTPL_OPERATOR_NONE ∧ OperatorMatches op ">= 1".toList 4) ∧
    ctpl_operator_from_string ">= 1".toList 4 0 = (CTPL_OPERATOR_SUPEQ, 2) ∧
    (ctpl_operator_to_string CTPL_OPERATOR_SUP).length
      ≤ (ctpl_operator_from_string ">= 1".toList 4 0).2 :=
  ⟨⟨CTPL_OPERATOR_SUP, by decide, by decide⟩,
   ((operator_from_string_longest ">= 1".toList 4 0
      ⟨CTPL_OPERATOR_SUP, by decide, by decide⟩).2 " 1".toList 4 (Or.inl (by decide))).1,
   (operator_from_string_longest ">= 1".toList 4 0
      ⟨CTPL_OPERATOR_SUP, by decide, by decide⟩).1.2.2.2.1
      CTPL_OPERATOR_SUP (by decide) (by decide)⟩

/-- C3 (as amended): when no operator's text is a prefix of the readable bytes
of the text, `ctpl_operator_from_string` returns the NONE sentinel and does not
write the length location: the length reported is the value the caller put
there, whatever it is, hence zero for a caller that starts from zero as
`lex_operator` does (`off = 0`). -/
theorem operator_from_string_none (str : List Char) (len : Int)
    (h : ∀ op, op ≠ CTPL_OPERATOR_NONE → ¬ OperatorMatches op str len) :
    ctpl_operator_from_string str len 0 = (CTPL_OPERATOR_NONE, 0) ∧
    ∀ off, ctpl_operator_from_string str len off = (CTPL_OPERATOR_NONE, off) := by
  have key : ∀ off, ctpl_operator_from_string str len off = (CTPL_OPERATOR_NONE, off) := by
    intro off
    apply from_string_loop_none
    intro e he ht
    exact h e.op (scanned_operators_wf e he).1 ((entry_test_iff str len e he).mp ht)
  exact ⟨key 0, key⟩

theorem operator_from_string_none_witness :
    (∀ op, op ≠ CTPL_OPERATOR_NONE → ¬ OperatorMatches op ">=".toList 0) ∧
    ctpl_operator_from_string ">=".toList 0 0 = (CTPL_OPERATOR_NONE, 0) ∧
    ctpl_operator_from_string ">=".toList 0 5 = (CTPL_OPERATOR_NONE, 5) :=
  ⟨fun op hop => by cases op <;> first | exact absurd rfl hop | decide,
   (operator_from_string_none ">=".toList 0
     (fun op hop => by cases op <;> first | exact absurd rfl hop | decide)).1,
   (operator_from_string_none ">=".toList 0
     (fun op hop => by cases op <;> first | exact absurd rfl hop | decide)).2 5⟩

/-- C3 (counterexample): no operator's text is a prefix of `=`, yet
`ctpl_operator_from_string` called on it with the length location holding 7
returns the NONE sentinel with the length 7, not zero: the function does not
write the location when nothing matches. -/
theorem operator_from_string_none_length_kept :
    (∀ op, op ≠ CTPL_OPERATOR_NONE → ¬ OperatorMatches op "=".toList (-1)) ∧
    ctpl_operator_from_string "=".toList (-1) 7 = (CTPL_OPERATOR_NONE, 7) ∧
    (ctpl_operator_from_string "=".toList (-1) 7).2 ≠ 0 :=
  ⟨fun op hop => by cases op <;> first | exact absurd rfl hop | decide, by decide, by decide⟩

/-- C4: the boolean and comparison operators share one priority, strictly
higher than the one shared by the multiplicative operators, itself strictly
higher than the one shared by the additive operators; and `operator_is_prior
op1 op2` holds exactly when the priority of `op1` is at least that of `op2`. -/
theorem operator_priority_classes :
    (∀ a ∈ boolean_operators, ∀ b ∈ boolean_operators, a.priority = b.priority) ∧
    (∀ a ∈ multiplicative_operators, ∀ b ∈ multiplicative_operators,
      a.priority = b.priority) ∧
    (∀ a ∈ additive_operators, ∀ b ∈ additive_operators, a.priority = b.priority) ∧
    (∀ a ∈ boolean_operators, ∀ b ∈ multiplicative_operators, a.priority > b.priority) ∧
    (∀ a ∈ multiplicative_operators, ∀ b ∈ additive_operators, a.priority > b.priority) ∧
    (∀ op1 op2, operator_is_prior op1 op2 = true ↔ op1.priority ≥ op2.priority) := by
  refine ⟨by decide, by decide, by decide, by decide, by decide, ?_⟩
  intro op1 op2
  simp [operator_is_prior, CtplOperator.priority]

theorem operator_priority_classes_witness :
    CTPL_OPERATOR_SUPEQ.priority > CTPL_OPERATOR_MODULO.priority ∧
    CTPL_OPERATOR_MODULO.priority > CTPL_OPERATOR_MINUS.priority ∧
    operator_is_prior CTPL_OPERATOR_PLUS CTPL_OPERATOR_MINUS = true :=
  ⟨operator_priority_classes.2.2.2.1 _ (by decide) _ (by decide),
   operator_priority_classes.2.2.2.2.1 _ (by decide) _ (by decide),
   (operator_priority_classes.2.2.2.2.2 _ _).mpr (by decide)⟩

/-! ## Precedence reduction: lemmas -/

theorem alternating_tokens_eq (a : CtplTokenExpr) (rest : List (CtplOperator × CtplTokenExpr))
    (last : Option CtplOperator) :
    alternating_tokens a rest last = a :: tail_tokens rest last := by
  simp [alternating_tokens, flat_tokens, tail_tokens]

theorem tail_tokens_cons (p : CtplOperator × CtplTokenExpr)
    (rest : List (CtplOperator × CtplTokenExpr)) (last : Option CtplOperator) :
    tail_tokens (p :: rest) last
      = ctpl_token_expr_new_operator p.1 none none :: p.2 :: tail_tokens rest last := by
  simp [tail_tokens]

theorem tail_tokens_nil_none : tail_tokens [] none = [] := rfl

theorem tail_tokens_length (rest : List (CtplOperator × CtplTokenExpr))
    (last : Option CtplOperator) : rest.length ≤ (tail_tokens rest last).length := by
  induction rest with
  | nil => simp
  | cons p rest ih =>
    rw [tail_tokens_cons]
    simp only [List.length_cons]
    omega

theorem tail_tokens_nil_some (o : CtplOperator) :
    tail_tokens [] (some o) = [ctpl_token_expr_new_operator o none none] := rfl

theorem validate_loop_operand
    (self : List CtplTokenExpr → Option GError → Option TokenResult)
    (a b ot : CtplTokenExpr) (next lo : List CtplTokenExpr) (i : Nat) (hi : i % 2 = 0) :
    validate_loop self (b :: next) ⟨(some a, none), (some ot, none), 1, 1, i, lo, none⟩
      = validate_loop self next
          ⟨(some a, some b), (some ot, none), 1, 2, i + 1, b :: next, none⟩ := by
  rw [validate_loop]
  simp [hi, TokenPair.set]

theorem validate_loop_operator_prior
    (self : List CtplTokenExpr → Option GError → Option TokenResult)
    (a b : CtplTokenExpr) (o o2 : CtplOperator) (next lo : List CtplTokenExpr) (i : Nat)
    (hi : i % 2 ≠ 0) (hp : operator_is_prior o o2 = true) :
    validate_loop self (ctpl_token_expr_new_operator o2 none none :: next)
        ⟨(some a, some b), (some (ctpl_token_expr_new_operator o none none), none),
          1, 2, i, lo, none⟩
      = validate_loop self next
          ⟨(some (.operator o (some a) (some b) []), none),
            (some (ctpl_token_expr_new_operator o2 none none), none), 1, 1, i + 1, lo, none⟩ := by
  rw [validate_loop]
  simp [hi, TokenPair.set, ctpl_token_expr_new_operator, t_operator, hp, set_operands]

theorem validate_loop_operator_recurse
    (self : List CtplTokenExpr → Option GError → Option TokenResult)
    (a b : CtplTokenExpr) (o o2 : CtplOperator) (next lo : List CtplTokenExpr) (i : Nat)
    (hi : i % 2 ≠ 0) (hp : ¬ operator_is_prior o o2 = true) (r : TokenResult)
    (hr : self lo none = some r) :
    validate_loop self (ctpl_token_expr_new_operator o2 none none :: next)
        ⟨(some a, some b), (some (ctpl_token_expr_new_operator o none none), none),
          1, 2, i, lo, none⟩
      = some ⟨(some a, r.1), (some (ctpl_token_expr_new_operator o none none),
            some (ctpl_token_expr_new_operator o2 none none)), 1, 2, i + 1, lo, r.2⟩ := by
  rw [validate_loop]
  simp [hi, TokenPair.set, ctpl_token_expr_new_operator, t_operator, hp, hr]

/-- The loop from the state reached with one operand `a` and one operator `o`
in hand, on the tokens `b, ...`, followed by the final wiring. -/
theorem validate_loop_reduction
    (self : List CtplTokenExpr → Option GError → Option TokenResult) (bound : Nat)
    (hself : ∀ b rest last, rest.length < bound →
      self (b :: tail_tokens rest last) none = some (reduction b rest last))
    (last : Option CtplOperator) (rest : List (CtplOperator × CtplTokenExpr)) :
    ∀ (a : CtplTokenExpr) (o : CtplOperator) (b : CtplTokenExpr) (i : Nat)
      (lo : List CtplTokenExpr), i % 2 = 0 → rest.length < bound →
      (validate_loop self (b :: tail_tokens rest last)
        ⟨(some a, none), (some (ctpl_token_expr_new_operator o none none), none),
          1, 1, i, lo, none⟩).bind validate_finish
        = some (reduction a ((o, b) :: rest) last) := by
  induction rest with
  | nil =>
    intro a o b i lo hi hlen
    have hi' : (i + 1) % 2 ≠ 0 := by omega
    rw [validate_loop_operand self a b _ _ lo i hi]
    cases last with
    | none =>
      simp [tail_tokens_nil_none, validate_loop, validate_finish,
        set_operands, ctpl_token_expr_new_operator, reduction, next_operator]
    | some o2 =>
      rw [tail_tokens_nil_some]
      by_cases hp : operator_is_prior o o2 = true
      · rw [validate_loop_operator_prior self a b o o2 [] _ (i + 1) hi' hp]
        simp [validate_loop, validate_finish, ctpl_token_expr_new_operator, reduction,
          next_operator, hp, TokenPair.get, token_operator_to_string, missing_operand_error,
          ctpl_input_stream_set_error]
      · have hs := hself b [] (some o2) hlen
        rw [tail_tokens_nil_some] at hs
        rw [validate_loop_operator_recurse self a b o o2 [] _ (i + 1) hi' hp _ hs]
        simp [validate_finish, set_operands, ctpl_token_expr_new_operator, reduction,
          next_operator, hp]
  | cons p rest ih =>
    intro a o b i lo hi hlen
    have hi' : (i + 1) % 2 ≠ 0 := by omega
    have hi'' : (i + 1 + 1) % 2 = 0 := by omega
    rw [validate_loop_operand self a b _ _ lo i hi, tail_tokens_cons]
    by_cases hp : operator_is_prior o p.1 = true
    · have hlen' : rest.length < bound := by simp at hlen; omega
      rw [validate_loop_operator_prior self a b o p.1 _ _ (i + 1) hi' hp]
      rw [ih (.operator o (some a) (some b) []) p.1 p.2 (i + 1 + 1) _ hi'' hlen']
      simp [reduction, next_operator, hp]
    · have hs := hself b (p :: rest) last hlen
      rw [tail_tokens_cons] at hs
      rw [validate_loop_operator_recurse self a b o p.1 _ _ (i + 1) hi' hp _ hs]
      simp [validate_finish, set_operands, ctpl_token_expr_new_operator, reduction,
        next_operator, hp]

/-- With enough fuel, `validate_token_list_fuel` computes `reduction`. -/
theorem validate_token_list_fuel_eq (fuel : Nat) :
    ∀ (a : CtplTokenExpr) (rest : List (CtplOperator × CtplTokenExpr))
      (last : Option CtplOperator), rest.length < fuel →
      validate_token_list_fuel fuel (a :: tail_tokens rest last) none
        = some (reduction a rest last) := by
  induction fuel with
  | zero => intro a rest last h; omega
  | succ fuel ih =>
    intro a rest last hlen
    cases rest with
    | nil =>
      cases last with
      | none =>
        simp [validate_token_list_fuel, tail_tokens_nil_none, validate_loop, TokenPair.set,
          validate_finish, reduction]
      | some o =>
        simp [validate_token_list_fuel, tail_tokens_nil_some, validate_loop, TokenPair.set,
          validate_finish, reduction, TokenPair.get, token_operator_to_string,
          ctpl_token_expr_new_operator, missing_operand_error, ctpl_input_stream_set_error]
    | cons p rest =>
      have hlen' : rest.length < fuel := by simp at hlen; omega
      have h := validate_loop_reduction (validate_token_list_fuel fuel) fuel ih last rest
        a p.1 p.2 2 (a :: tail_tokens (p :: rest) last) (by decide) hlen'
      rw [validate_token_list_fuel, tail_tokens_cons]
      rw [show validate_loop (validate_token_list_fuel fuel)
            (a :: ctpl_token_expr_new_operator p.1 none none :: p.2 :: tail_tokens rest last)
            ⟨(none, none), (none, none), 0, 0, 0, [], none⟩
          = validate_loop (validate_token_list_fuel fuel) (p.2 :: tail_tokens rest last)
            ⟨(some a, none), (some (ctpl_token_expr_new_operator p.1 none none), none),
              1, 1, 2, a :: tail_tokens (p :: rest) last, none⟩ from by
        rw [validate_loop]
        simp only [Nat.zero_mod, if_true, TokenPair.set]
        rw [validate_loop]
        simp [TokenPair.set, tail_tokens_cons]]
      have h' : ∀ x : Option ValidateState,
          (match x with | none => none | some st => validate_finish st)
            = x.bind validate_finish := by
        intro x; cases x <;> rfl
      rw [h', h]

/-- The function `validate_token_list` computes `reduction` on every
alternating token list. -/
theorem validate_token_list_eq (a : CtplTokenExpr)
    (rest : List (CtplOperator × CtplTokenExpr)) (last : Option CtplOperator) :
    validate_token_list (alternating_tokens a rest last) none
      = some (reduction a rest last) := by
  rw [alternating_tokens_eq]
  apply validate_token_list_fuel_eq
  have h := tail_tokens_length rest last
  simp only [List.length_cons]
  omega

theorem flat_tokens_eq (a : CtplTokenExpr) (rest : List (CtplOperator × CtplTokenExpr)) :
    flat_tokens a rest = alternating_tokens a rest none := by
  simp [alternating_tokens]

theorem operator_is_prior_iff (op1 op2 : CtplOperator) :
    operator_is_prior op1 op2 = true ↔ op1.priority ≥ op2.priority := by
  simp [operator_is_prior, CtplOperator.priority]

theorem reduction_increasing (rest : List (CtplOperator × CtplTokenExpr)) :
    ∀ a, priorities_increasing rest = true →
      reduction a rest none = (some (right_nested a rest), none) := by
  induction rest with
  | nil => intro a _; rfl
  | cons p rest ih =>
    intro a h
    cases rest with
    | nil => simp [reduction, next_operator, right_nested]
    | cons q rest =>
      simp only [priorities_increasing, Bool.and_eq_true, decide_eq_true_eq] at h
      have hp : ¬ operator_is_prior p.1 q.1 = true := by
        rw [operator_is_prior_iff]; have := h.1; omega
      have h2 := ih p.2 h.2
      rw [reduction]
      simp only [next_operator, hp, if_false]
      rw [h2]
      simp [right_nested]

theorem reduction_non_increasing (rest : List (CtplOperator × CtplTokenExpr)) :
    ∀ a, priorities_non_increasing rest = true →
      reduction a rest none = (some (left_nested a rest), none) := by
  induction rest with
  | nil => intro a _; rfl
  | cons p rest ih =>
    intro a h
    cases rest with
    | nil => simp [reduction, next_operator, left_nested]
    | cons q rest =>
      simp only [priorities_non_increasing, Bool.and_eq_true, decide_eq_true_eq] at h
      have hp : operator_is_prior p.1 q.1 = true := by
        rw [operator_is_prior_iff]; exact h.1
      have h2 := ih (.operator p.1 (some a) (some p.2) []) h.2
      rw [reduction]
      simp only [next_operator, hp, if_true]
      rw [h2]
      simp [left_nested]

theorem reduction_no_last (rest : List (CtplOperator × CtplTokenExpr)) :
    ∀ a, (reduction a rest none).2 = none ∧ (reduction a rest none).1.isSome = true := by
  induction rest with
  | nil => intro a; exact ⟨rfl, rfl⟩
  | cons p rest ih =>
    intro a
    rw [reduction]
    cases hn : next_operator rest none with
    | none => exact ⟨rfl, rfl⟩
    | some o2 =>
      by_cases hp : operator_is_prior p.1 o2 = true
      · simp only [hp, if_true]; exact ih _
      · simp only [hp, if_false]; exact ⟨(ih _).1, rfl⟩

theorem reduction_last (o : CtplOperator) (rest : List (CtplOperator × CtplTokenExpr)) :
    ∀ a, (reduction a rest (some o)).2 = some (missing_operand_error o) := by
  induction rest with
  | nil => intro a; rfl
  | cons p rest ih =>
    intro a
    rw [reduction]
    cases hn : next_operator rest (some o) with
    | none => cases rest <;> simp [next_operator] at hn
    | some o2 =>
      by_cases hp : operator_is_prior p.1 o2 = true
      · simp only [hp, if_true]; exact ih _
      · simp only [hp, if_false]; exact ih _

/-! ## Precedence reduction: properties -/

/-- C5: on a flat token list whose operators' priorities strictly increase from
left to right, `validate_token_list` succeeds without error and returns the
fully right-nested tree; so `[a, o1, b, o2, c]` with `o1` of lower priority than
`o2` gives `o1 (a, o2 (b, c))`. -/
theorem validate_increasing_right_nested (a : CtplTokenExpr)
    (rest : List (CtplOperator × CtplTokenExpr)) (h : priorities_increasing rest = true) :
    validate_token_list (flat_tokens a rest) none = some (some (right_nested a rest), none) := by
  rw [flat_tokens_eq, validate_token_list_eq, reduction_increasing rest a h]

theorem validate_increasing_right_nested_witness :
    priorities_increasing
      [(CTPL_OPERATOR_PLUS, int_token 3), (CTPL_OPERATOR_MUL, int_token 4)] = true ∧
    validate_token_list
      [int_token 2, ctpl_token_expr_new_operator CTPL_OPERATOR_PLUS none none, int_token 3,
        ctpl_token_expr_new_operator CTPL_OPERATOR_MUL none none, int_token 4] none
      = some (some (op_node CTPL_OPERATOR_PLUS (int_token 2)
          (op_node CTPL_OPERATOR_MUL (int_token 3) (int_token 4))), none) :=
  ⟨by decide,
   validate_increasing_right_nested (int_token 2)
     [(CTPL_OPERATOR_PLUS, int_token 3), (CTPL_OPERATOR_MUL, int_token 4)]
     (by decide)⟩

/-- C6: on a flat token list whose operators' priorities never increase from
left to right (ties included), `validate_token_list` succeeds without error and
returns the fully left-nested tree, the left fold of the list. -/
theorem validate_non_increasing_left_nested (a : CtplTokenExpr)
    (rest : List (CtplOperator × CtplTokenExpr)) (h : priorities_non_increasing rest = true) :
    validate_token_list (flat_tokens a rest) none = some (some (left_nested a rest), none) := by
  rw [flat_tokens_eq, validate_token_list_eq, reduction_non_increasing rest a h]

theorem validate_non_increasing_left_nested_witness :
    (priorities_non_increasing
      [(CTPL_OPERATOR_MINUS, int_token 4), (CTPL_OPERATOR_MINUS, int_token 2)] = true ∧
    validate_token_list
      [int_token 8, ctpl_token_expr_new_operator CTPL_OPERATOR_MINUS none none, int_token 4,
        ctpl_token_expr_new_operator CTPL_OPERATOR_MINUS none none, int_token 2] none
      = some (some (op_node CTPL_OPERATOR_MINUS
          (op_node CTPL_OPERATOR_MINUS (int_token 8) (int_token 4)) (int_token 2)), none)) ∧
    (priorities_non_increasing
      [(CTPL_OPERATOR_MUL, int_token 3), (CTPL_OPERATOR_PLUS, int_token 4)] = true ∧
    validate_token_list
      [int_token 2, ctpl_token_expr_new_operator CTPL_OPERATOR_MUL none none, int_token 3,
        ctpl_token_expr_new_operator CTPL_OPERATOR_PLUS none none, int_token 4] none
      = some (some (op_node CTPL_OPERATOR_PLUS
          (op_node CTPL_OPERATOR_MUL (int_token 2) (int_token 3)) (int_token 4)), none)) :=
  ⟨⟨by decide,
    validate_non_increasing_left_nested (int_token 8)
      [(CTPL_OPERATOR_MINUS, int_token 4), (CTPL_OPERATOR_MINUS, int_token 2)]
      (by decide)⟩,
   ⟨by decide,
    validate_non_increasing_left_nested (int_token 2)
      [(CTPL_OPERATOR_MUL, int_token 3), (CTPL_OPERATOR_PLUS, int_token 4)]
      (by decide)⟩⟩

/-- C7 (failing input): on `8 - 2 * 3 - 1` the function `validate_token_list`
returns `MINUS (8, MINUS (MUL (2, 3), 1))`, while standard precedence climbing
gives `MINUS (MINUS (8, MUL (2, 3)), 1)`: the two trees differ. -/
theorem validate_differs_from_precedence_climbing :
    validate_token_list
      (flat_tokens (int_token 8) [(CTPL_OPERATOR_MINUS, int_token 2),
        (CTPL_OPERATOR_MUL, int_token 3), (CTPL_OPERATOR_MINUS, int_token 1)]) none
      = some (some (op_node CTPL_OPERATOR_MINUS (int_token 8)
          (op_node CTPL_OPERATOR_MINUS
            (op_node CTPL_OPERATOR_MUL (int_token 2) (int_token 3)) (int_token 1))), none) ∧
    precedence_climbing (int_token 8) [(CTPL_OPERATOR_MINUS, int_token 2),
        (CTPL_OPERATOR_MUL, int_token 3), (CTPL_OPERATOR_MINUS, int_token 1)]
      = op_node CTPL_OPERATOR_MINUS
          (op_node CTPL_OPERATOR_MINUS (int_token 8)
            (op_node CTPL_OPERATOR_MUL (int_token 2) (int_token 3))) (int_token 1) ∧
    validate_token_list
      (flat_tokens (int_token 8) [(CTPL_OPERATOR_MINUS, int_token 2),
        (CTPL_OPERATOR_MUL, int_token 3), (CTPL_OPERATOR_MINUS, int_token 1)]) none
      ≠ some (some (precedence_climbing (int_token 8) [(CTPL_OPERATOR_MINUS, int_token 2),
        (CTPL_OPERATOR_MUL, int_token 3), (CTPL_OPERATOR_MINUS, int_token 1)]), none) := by
  refine ⟨rfl, rfl, ?_⟩
  intro h
  have h1 : validate_token_list
      (flat_tokens (int_token 8) [(CTPL_OPERATOR_MINUS, int_token 2),
        (CTPL_OPERATOR_MUL, int_token 3), (CTPL_OPERATOR_MINUS, int_token 1)]) none
      = some (some (op_node CTPL_OPERATOR_MINUS (int_token 8)
          (op_node CTPL_OPERATOR_MINUS
            (op_node CTPL_OPERATOR_MUL (int_token 2) (int_token 3)) (int_token 1))), none) := rfl
  have h2 : precedence_climbing (int_token 8) [(CTPL_OPERATOR_MINUS, int_token 2),
        (CTPL_OPERATOR_MUL, int_token 3), (CTPL_OPERATOR_MINUS, int_token 1)]
      = op_node CTPL_OPERATOR_MINUS
          (op_node CTPL_OPERATOR_MINUS (int_token 8)
            (op_node CTPL_OPERATOR_MUL (int_token 2) (int_token 3))) (int_token 1) := rfl
  rw [h1, h2] at h
  simp [op_node, int_token, ctpl_token_expr_new_value] at h

/-- C8 (failing input): on `8 - 6 / 3 - 1` the two MINUS operators have the
same priority, yet the tree returned by `validate_token_list` is
`MINUS (8, MINUS (DIV (6, 3), 1))`: the right MINUS lies inside the right
operand of the left one, so the right one is applied first. -/
theorem validate_equal_priority_right_first :
    CTPL_OPERATOR_MINUS.priority = CTPL_OPERATOR_MINUS.priority ∧
    validate_token_list
      [int_token 8, ctpl_token_expr_new_operator CTPL_OPERATOR_MINUS none none, int_token 6,
        ctpl_token_expr_new_operator CTPL_OPERATOR_DIV none none, int_token 3,
        ctpl_token_expr_new_operator CTPL_OPERATOR_MINUS none none, int_token 1] none
      = some (some (.operator CTPL_OPERATOR_MINUS (some (int_token 8))
          (some (.operator CTPL_OPERATOR_MINUS
            (some (.operator CTPL_OPERATOR_DIV (some (int_token 6)) (some (int_token 3)) []))
            (some (int_token 1)) [])) []), none) :=
  ⟨rfl, rfl⟩

/-- C9: on every non-empty token list alternating operand, operator, operand,
... `validate_token_list` returns, and it reports an error exactly when the
list ends with an operator; that error has the code MissingOperand and the
message `Too few operands for operator '<text of that last operator>'`; a list
ending with an operand gives a tree and no error. -/
theorem validate_error_iff_dangling_operator (a : CtplTokenExpr)
    (rest : List (CtplOperator × CtplTokenExpr)) (last : Option CtplOperator) :
    ∃ r : TokenResult,
      validate_token_list (alternating_tokens a rest last) none = some r ∧
      (r.2.isSome = true ↔ last.isSome = true) ∧
      (∀ o, last = some o →
        r.2 = some ⟨ErrorDomain.CTPL_LEXER_ERROR,
          ErrorCode.CTPL_LEXER_EXPR_ERROR_MISSING_OPERAND,
          "Too few operands for operator '".toList ++ ctpl_operator_to_string o
            ++ "'".toList⟩) ∧
      (last = none → r.2 = none ∧ r.1.isSome = true) := by
  refine ⟨reduction a rest last, validate_token_list_eq a rest last, ?_, ?_, ?_⟩
  · cases last with
    | none => simp [(reduction_no_last rest a).1]
    | some o => simp [reduction_last o rest a]
  · intro o ho
    subst ho
    exact reduction_last o rest a
  · intro h
    subst h
    exact reduction_no_last rest a

theorem validate_error_iff_dangling_operator_witness :
    ∃ r : TokenResult,
      validate_token_list
        [int_token 2, ctpl_token_expr_new_operator CTPL_OPERATOR_PLUS none none] none
        = some r ∧
      r.2 = some ⟨ErrorDomain.CTPL_LEXER_ERROR,
        ErrorCode.CTPL_LEXER_EXPR_ERROR_MISSING_OPERAND,
        "Too few operands for operator '+'".toList⟩ := by
  obtain ⟨r, h1, _, h3, _⟩ :=
    validate_error_iff_dangling_operator (int_token 2) [] (some CTPL_OPERATOR_PLUS)
  exact ⟨r, h1, h3 CTPL_OPERATOR_PLUS rfl⟩

/-! ## The lexer: lemmas -/

theorem alternating_tokens_snoc_operand (a : CtplTokenExpr)
    (rest : List (CtplOperator × CtplTokenExpr)) (o : CtplOperator) (t : CtplTokenExpr) :
    alternating_tokens a rest (some o) ++ [t] = alternating_tokens a (rest ++ [(o, t)]) none := by
  simp [alternating_tokens, flat_tokens, List.flatMap_append]

theorem alternating_tokens_snoc_operator (a : CtplTokenExpr)
    (rest : List (CtplOperator × CtplTokenExpr)) (o : CtplOperator) :
    alternating_tokens a rest none ++ [ctpl_token_expr_new_operator o none none]
      = alternating_tokens a rest (some o) := by
  simp [alternating_tokens, flat_tokens]

theorem accumulated_reverse (b : Bool) (tokens : List CtplTokenExpr)
    (h : Accumulated b tokens) :
    (b = false → ∃ a rest, tokens.reverse = alternating_tokens a rest none) ∧
    (b = true → tokens = [] ∨
      ∃ a rest o, tokens.reverse = alternating_tokens a rest (some o)) := by
  induction h with
  | nil => exact ⟨fun h => (by cases h), fun _ => Or.inl rfl⟩
  | operand token tokens _ ih =>
    refine ⟨fun _ => ?_, fun h => by cases h⟩
    rcases ih.2 rfl with h0 | ⟨a, rest, o, h1⟩
    · subst h0
      exact ⟨token, [], by simp [alternating_tokens, flat_tokens]⟩
    · refine ⟨a, rest ++ [(o, token)], ?_⟩
      rw [List.reverse_cons, h1, alternating_tokens_snoc_operand]
  | operator op tokens _ ih =>
    refine ⟨fun h => (by cases h), fun _ => Or.inr ?_⟩
    obtain ⟨a, rest, h1⟩ := ih.1 rfl
    refine ⟨a, rest, op, ?_⟩
    rw [List.reverse_cons, h1, alternating_tokens_snoc_operator]

/-- On the reversed accumulated list (not empty), `validate_token_list` returns,
and it returns a token whenever it sets no error. -/
theorem validate_accumulated (b : Bool) (tokens : List CtplTokenExpr)
    (h : Accumulated b tokens) (hne : tokens ≠ []) :
    ∃ r : TokenResult, validate_token_list tokens.reverse none = some r ∧
      (r.1 = none → r.2 ≠ none) := by
  have key : ∀ a rest last, ∃ r : TokenResult,
      validate_token_list (alternating_tokens a rest last) none = some r ∧
      (r.1 = none → r.2 ≠ none) := by
    intro a rest last
    refine ⟨reduction a rest last, validate_token_list_eq a rest last, ?_⟩
    cases last with
    | none =>
      intro h1
      have := (reduction_no_last rest a).2
      rw [h1] at this
      cases this
    | some o =>
      intro _
      rw [reduction_last o rest a]
      exact Option.some_ne_none _
  cases b with
  | false =>
    obtain ⟨a, rest, h1⟩ := (accumulated_reverse false tokens h).1 rfl
    rw [h1]
    exact key a rest none
  | true =>
    rcases (accumulated_reverse true tokens h).2 rfl with h0 | ⟨a, rest, o, h1⟩
    · exact absurd h0 hne
    · rw [h1]
      exact key a rest (some o)

theorem operator_from_string_consumed (str : List Char) (len : Int) (off : Nat)
    (h : (ctpl_operator_from_string str len off).1 ≠ CTPL_OPERATOR_NONE) :
    1 ≤ (ctpl_operator_from_string str len off).2 ∧
    (ctpl_operator_from_string str len off).2 ≤ from_string_length str len := by
  by_cases hex : ∃ e ∈ scanned_operators, entry_test str (from_string_length str len) e
  · obtain ⟨as, e, bs, hsplit, _, htest, hres⟩ :=
      from_string_loop_first str (from_string_length str len) scanned_operators off
        (fun e he => (scanned_operators_wf e he).1) hex
    have hres' : ctpl_operator_from_string str len off = (e.op, e.str_len) := hres
    have he : e ∈ scanned_operators := by rw [hsplit]; simp
    have hpos : ∀ e ∈ scanned_operators, 1 ≤ e.str_len := by decide
    rw [hres']
    exact ⟨hpos e he, htest.1⟩
  · have hnone : ctpl_operator_from_string str len off = (CTPL_OPERATOR_NONE, off) := by
      apply from_string_loop_none
      intro e he ht
      exact hex ⟨e, he, ht⟩
    rw [hnone] at h
    exact absurd rfl h

theorem skip_blank_length (sc : StreamScanners) (stream : CtplInputStream) :
    (ctpl_input_stream_skip_blank sc stream).length ≤ stream.length :=
  (List.dropWhile_sublist _).length_le

theorem get_c_length (stream : CtplInputStream) :
    (ctpl_input_stream_get_c stream).2.length ≤ stream.length := by
  simp [ctpl_input_stream_get_c]

theorem get_c_length_of_peek (stream : CtplInputStream)
    (h : ctpl_input_stream_eof stream = false) :
    (ctpl_input_stream_get_c stream).2.length + 1 = stream.length := by
  cases stream with
  | nil => simp [ctpl_input_stream_eof] at h
  | cons c cs => simp [ctpl_input_stream_get_c]

/-- The function `lex_operator` sets an error when it returns no token, and a
token it returns is a fresh operator token read from at least one byte. -/
theorem lex_operator_spec (stream : CtplInputStream) :
    ((lex_operator stream).token = none → (lex_operator stream).error ≠ none) ∧
    (lex_operator stream).stream.length ≤ stream.length ∧
    (∀ t, (lex_operator stream).token = some t →
      (∃ op, t = ctpl_token_expr_new_operator op none none) ∧
      (lex_operator stream).stream.length + 1 ≤ stream.length) := by
  unfold lex_operator
  simp only []
  split
  · refine ⟨fun _ => by simp [ctpl_input_stream_set_error], le_refl _, ?_⟩
    intro t ht
    cases ht
  · rename_i hne
    have hc := operator_from_string_consumed _ _ _ hne
    have hlen : from_string_length (ctpl_input_stream_peek stream OPERATORS_STR_MAXLEN)
        ((ctpl_input_stream_peek stream OPERATORS_STR_MAXLEN).length : Int)
        ≤ stream.length := by
      simp only [from_string_length, ctpl_input_stream_peek]
      split
      · omega
      · simp only [List.length_take, Int.toNat_ofNat]
        omega
    refine ⟨fun h => (by cases h), ?_, ?_⟩
    · simp [ctpl_input_stream_skip]
    · intro t ht
      simp only [Option.some.injEq] at ht
      refine ⟨⟨_, ht.symm⟩, ?_⟩
      simp only [ctpl_input_stream_skip, List.length_drop]
      omega

theorem lex_full_step (fuel : Nat) (hint : InternalTotal fuel) : FullTotal (fuel + 1) := by
  intro sc lex_all stream hfuel
  obtain ⟨⟨tok, err, strm, depth⟩, hr, hlen, hq⟩ := hint sc ⟨lex_all, 0⟩ stream (by omega)
  simp only at hlen hq
  rw [lex_full_fuel, hr]
  cases err with
  | some e =>
    exact ⟨⟨none, some e, strm⟩, by simp, hlen, by simp⟩
  | none =>
    cases tok with
    | none => exact absurd rfl (hq rfl)
    | some t =>
      by_cases htrash : (lex_all && !ctpl_input_stream_eof strm) = true
      · simp only [Option.isNone_none, if_true, htrash, ctpl_input_stream_set_error,
          Option.isSome_some]
        exact ⟨_, rfl, hlen, by simp⟩
      · simp only [Option.isNone_none, if_true, htrash, Option.isSome_none]
        exact ⟨_, rfl, hlen, by simp⟩

theorem lex_internal_step (fuel : Nat) (hloop : LoopTotal fuel) : InternalTotal (fuel + 1) := by
  intro sc state stream hfuel
  have hsb := skip_blank_length sc stream
  obtain ⟨⟨strm, depth, tokens, err, eo⟩, hst, hlen, b, hacc⟩ := hloop sc state.lex_all
    ⟨ctpl_input_stream_skip_blank sc stream, state.depth, [], none, true⟩
    (by simp only [if_true]; omega) Accumulated.nil
  simp only at hlen hacc
  have hlen' : strm.length ≤ stream.length := le_trans hlen hsb
  rw [lex_internal_fuel, hst]
  cases err with
  | some e => exact ⟨⟨none, some e, strm, depth⟩, by simp, hlen', by simp⟩
  | none =>
    cases tokens with
    | nil =>
      simp only [Option.isNone_none, if_true, List.isEmpty_nil, ctpl_input_stream_set_error]
      exact ⟨_, rfl, hlen', by simp⟩
    | cons t ts =>
      obtain ⟨r, hr, hq⟩ := validate_accumulated b (t :: ts) hacc (by simp)
      refine ⟨⟨r.1, r.2, strm, depth⟩, ?_, hlen', hq⟩
      simp only [List.reverse_cons] at hr
      simp [hr]

theorem lex_internal_loop_stop (fuel : Nat) (sc : StreamScanners) (lex_all : Bool)
    (st : InternalState)
    (h : (ctpl_input_stream_eof st.stream || st.err.isSome) = true) :
    lex_internal_loop (fuel + 1) sc lex_all st = some st := by
  rw [lex_internal_loop]
  simp only [h, if_true]

theorem lex_operand_step (fuel : Nat) (hidx : IndexTotal fuel) : OperandTotal (fuel + 1) := by
  intro sc stream hfuel
  rw [lex_operand_fuel]
  have hread : ∀ r : LexResult, r.stream.length ≤ stream.length →
      (r.token = none → r.error ≠ none) →
      ∃ r', (match r.token with
        | none => some r
        | some token =>
          match lex_operand_index_fuel fuel sc token r.error r.stream with
          | none => none
          | some ir =>
            if ir.success = true then some ⟨some ir.operand, ir.error, ir.stream⟩
            else some ⟨none, ir.error, ir.stream⟩) = some r' ∧
        r'.stream.length ≤ stream.length ∧ (r'.token = none → r'.error ≠ none) := by
    intro r hlen hq
    obtain ⟨tok, err, strm⟩ := r
    simp only at hlen hq
    cases tok with
    | none => exact ⟨_, rfl, hlen, hq⟩
    | some token =>
      obtain ⟨⟨succ, opd, ierr, istrm⟩, hir, hilen, hiq⟩ := hidx sc token err strm (by omega)
      simp only at hilen hiq
      simp only [hir]
      cases succ with
      | true => exact ⟨_, rfl, le_trans hilen hlen, by simp⟩
      | false => exact ⟨_, rfl, le_trans hilen hlen, fun _ => hiq rfl⟩
  apply hread
  · split
    · unfold read_number
      split <;> simp
    · split
      · unfold read_symbol
        split
        · split <;> simp
        · simp
      · split
        · unfold read_string_literal
          split <;> simp
        · simp
  · split
    · unfold read_number
      split <;> simp
    · split
      · unfold read_symbol
        split
        · split <;> simp [ctpl_input_stream_set_error]
        · simp
      · split
        · unfold read_string_literal
          split <;> simp
        · simp [ctpl_input_stream_set_error]

theorem peek_c_not_eof (stream : CtplInputStream) (c : Char) (hc : c ≠ NUL)
    (h : ctpl_input_stream_peek_c stream = c) : ctpl_input_stream_eof stream = false := by
  cases stream with
  | nil => exact absurd h.symm hc
  | cons x xs => rfl

theorem lex_operand_index_step (fuel : Nat) (hfull : FullTotal fuel) (hidx : IndexTotal fuel) :
    IndexTotal (fuel + 1) := by
  intro sc operand error stream hfuel
  have hsb := skip_blank_length sc stream
  rw [lex_operand_index_fuel]
  by_cases hpeek : ctpl_input_stream_peek_c (ctpl_input_stream_skip_blank sc stream) = '['
  · have hne := peek_c_not_eof _ '[' (by decide) hpeek
    have hget := get_c_length_of_peek _ hne
    obtain ⟨⟨tok, err, strm⟩, hr, hlen, hq⟩ := hfull sc false
      (ctpl_input_stream_get_c (ctpl_input_stream_skip_blank sc stream)).2 (by omega)
    simp only at hlen hq
    simp only [hpeek, if_true, hr]
    cases tok with
    | none =>
      refine ⟨_, rfl, by simp only; omega, fun _ => ?_⟩
      simp only
      intro h0
      rw [h0] at hq
      simp at hq
    | some idx =>
      have hg2 := get_c_length strm
      by_cases hc : (ctpl_input_stream_get_c strm).1 ≠ ']'
      · simp only [hc, if_true, ne_eq, not_false_eq_true]
        refine ⟨_, rfl, by simp only; omega, fun _ => ?_⟩
        cases err <;> simp [ctpl_input_stream_set_error]
      · simp only [hc, if_false]
        obtain ⟨r2, hr2, hlen2, hq2⟩ := hidx sc (append_index operand idx) err
          (ctpl_input_stream_get_c strm).2 (by omega)
        exact ⟨r2, hr2, by omega, hq2⟩
  · simp only [hpeek, if_false]
    exact ⟨_, rfl, hsb, by simp⟩

theorem lex_internal_loop_step (fuel : Nat) (hint : InternalTotal fuel)
    (hopd : OperandTotal fuel) (hloop : LoopTotal fuel) : LoopTotal (fuel + 1) := by
  intro sc lex_all st hfuel hacc
  obtain ⟨strm, depth, tokens, err, eo⟩ := st
  simp only at hfuel hacc
  by_cases hstop : (ctpl_input_stream_eof strm || err.isSome) = true
  · rw [lex_internal_loop_stop _ _ _ _ hstop]
    exact ⟨_, rfl, le_refl _, eo, hacc⟩
  · have heof : ctpl_input_stream_eof strm = false := by
      cases h : ctpl_input_stream_eof strm
      · rfl
      · simp [h] at hstop
    have hpos := get_c_length_of_peek strm heof
    have hfuel1 : 1 ≤ fuel := by split at hfuel <;> omega
    rw [lex_internal_loop]
    simp only [hstop, if_false, Bool.false_eq_true]
    by_cases hclose : ctpl_input_stream_peek_c strm = ')'
    · simp only [hclose, if_true]
      split
      · split
        · exact ⟨_, rfl, le_refl _, eo, hacc⟩
        · exact ⟨_, rfl, le_refl _, eo, hacc⟩
      · exact ⟨_, rfl, by simp only; omega, eo, hacc⟩
    · simp only [hclose, if_false]
      have hcont : ∀ read : Option LexResult,
          (∃ r, read = some r ∧ r.stream.length ≤ strm.length ∧
            (r.token = none → r.error ≠ none) ∧
            (∀ t, r.token = some t → Accumulated (!eo) (t :: tokens) ∧
              5 * r.stream.length + (if (!eo) = true then 3 else 2) ≤ fuel)) →
          ∃ st' : InternalState,
            (match read with
              | none => none
              | some r =>
                match r.token with
                | some token =>
                  lex_internal_loop fuel sc lex_all
                    { stream := ctpl_input_stream_skip_blank sc r.stream, depth := depth,
                      tokens := token :: tokens, err := r.error, expect_operand := !eo }
                | none =>
                  if (!lex_all) = true then
                    match r.error with
                    | none => none
                    | some e =>
                      if e.domain ≠ ErrorDomain.CTPL_IO_ERROR then
                        some { stream := r.stream, depth := depth, tokens := tokens,
                               err := none, expect_operand := eo }
                      else
                        some { stream := r.stream, depth := depth, tokens := tokens,
                               err := some e, expect_operand := eo }
                  else
                    lex_internal_loop fuel sc lex_all
                      { stream := ctpl_input_stream_skip_blank sc r.stream, depth := depth,
                        tokens := tokens, err := r.error, expect_operand := eo }) = some st' ∧
            st'.stream.length ≤ strm.length ∧ ∃ b, Accumulated b st'.tokens := by
        rintro read ⟨⟨tok, e, s'⟩, rfl, hlen, hq, ht⟩
        simp only at hlen hq ht
        have hsb := skip_blank_length sc s'
        cases tok with
        | some t =>
          obtain ⟨hacc', hm⟩ := ht t rfl
          obtain ⟨st', hst', hlen', hb⟩ := hloop sc lex_all
            ⟨ctpl_input_stream_skip_blank sc s', depth, t :: tokens, e, !eo⟩
            (by simp only; omega) hacc'
          exact ⟨st', hst', by simp only at hlen'; omega, hb⟩
        | none =>
          cases e with
          | none => exact absurd rfl (hq rfl)
          | some e =>
            simp only
            split
            · split
              · exact ⟨_, rfl, hlen, eo, hacc⟩
              · exact ⟨_, rfl, hlen, eo, hacc⟩
            · obtain ⟨k, rfl⟩ : ∃ k, fuel = k + 1 := ⟨fuel - 1, by omega⟩
              rw [lex_internal_loop_stop _ _ _ _ (by simp)]
              exact ⟨_, rfl, by simp only; omega, eo, hacc⟩
      apply hcont
      cases eo with
      | true =>
        simp only [if_true] at hfuel ⊢
        by_cases hopen : ctpl_input_stream_peek_c strm = '('
        · simp only [hopen, if_true]
          obtain ⟨⟨tok, e, s', d'⟩, hr, hlen, hq⟩ := hint sc ⟨lex_all, depth + 1⟩
            (ctpl_input_stream_get_c strm).2 (by omega)
          simp only at hlen hq
          rw [hr]
          simp only
          split
          · rename_i hcond
            refine ⟨_, rfl, by simp only; omega, ?_, ?_⟩
            · intro h0
              simp only at h0
              simp [h0] at hcond
            · intro t ht
              simp only at ht
              exact ⟨Accumulated.operand t tokens hacc, by simp; omega⟩
          · refine ⟨_, rfl, by simp only; omega, hq, ?_⟩
            intro t ht
            exact ⟨Accumulated.operand t tokens hacc, by simp; omega⟩
        · simp only [hopen, if_false]
          obtain ⟨r, hr, hlen, hq⟩ := hopd sc strm (by omega)
          refine ⟨r, hr, hlen, hq, ?_⟩
          intro t ht
          exact ⟨Accumulated.operand t tokens hacc, by simp; omega⟩
      | false =>
        simp only [Bool.false_eq_true, if_false] at hfuel ⊢
        obtain ⟨h1, h2, h3⟩ := lex_operator_spec strm
        refine ⟨_, rfl, h2, h1, ?_⟩
        intro t ht
        obtain ⟨⟨op, hop⟩, hl⟩ := h3 t ht
        subst hop
        exact ⟨Accumulated.operator op tokens hacc, by simp; omega⟩

/-- With a bound of five calls per byte (and five more), every function of the
lexer returns, the stream only shrinks, and a missing token comes with an
error. -/
theorem lexer_total (fuel : Nat) :
    FullTotal fuel ∧ InternalTotal fuel ∧ LoopTotal fuel ∧ OperandTotal fuel ∧
      IndexTotal fuel := by
  induction fuel with
  | zero =>
    refine ⟨?_, ?_, ?_, ?_, ?_⟩
    · intro _ _ _ h; omega
    · intro _ _ _ h; omega
    · intro _ _ st h _; split at h <;> omega
    · intro _ _ h; omega
    · intro _ _ _ _ h; omega
  | succ fuel ih =>
    obtain ⟨hfull, hint, hloop, hopd, hidx⟩ := ih
    exact ⟨lex_full_step fuel hint, lex_internal_step fuel hloop,
      lex_internal_loop_step fuel hint hopd hloop, lex_operand_step fuel hidx,
      lex_operand_index_step fuel hfull hidx⟩

/-! ## The lexer: properties -/

/-- C10: for every input and either mode `ctpl_lexer_expr_lex_full` returns, and
it returns a tree exactly when it reports no error: never a tree together with
an error, never no tree without an error. -/
theorem lex_full_tree_iff_no_error (sc : StreamScanners) (stream : CtplInputStream)
    (lex_all : Bool) :
    ∃ r : LexResult, ctpl_lexer_expr_lex_full sc stream lex_all = some r ∧
      (r.token.isSome = true ↔ r.error.isNone = true) ∧
      ¬ (r.token.isSome = true ∧ r.error.isSome = true) ∧
      ¬ (r.token = none ∧ r.error = none) := by
  obtain ⟨r, hr, _, hiff⟩ := (lexer_total (lex_fuel stream)).1 sc lex_all stream (le_refl _)
  refine ⟨r, hr, hiff, ?_, ?_⟩
  · rintro ⟨h1, h2⟩
    have h3 := hiff.mp h1
    cases he : r.error <;> simp [he] at h2 h3
  · rintro ⟨h1, h2⟩
    have h3 := hiff.mpr (by simp [h2])
    simp [h1] at h3

/-! ## The lexer, piece by piece: lemmas -/

theorem lex_full_fuel_succ (fuel : Nat) (sc : StreamScanners) (lex_all : Bool)
    (stream : CtplInputStream) :
    lex_full_fuel (fuel + 1) sc lex_all stream
      = (lex_internal_fuel fuel sc ⟨lex_all, 0⟩ stream).map (lex_full_finish lex_all) := by
  rw [lex_full_fuel]
  cases lex_internal_fuel fuel sc ⟨lex_all, 0⟩ stream with
  | none => rfl
  | some r =>
    simp only [Option.map_some', lex_full_finish]
    split_ifs <;> rfl

theorem lex_internal_fuel_succ (fuel : Nat) (sc : StreamScanners) (state : LexerExprState)
    (stream : CtplInputStream) :
    lex_internal_fuel (fuel + 1) sc state stream
      = (lex_internal_loop fuel sc state.lex_all
          (lex_internal_initial sc state.depth stream)).bind lex_internal_finish := by
  rw [lex_internal_fuel]
  simp only [lex_internal_initial]
  generalize lex_internal_loop fuel sc state.lex_all _ = x
  cases x with
  | none => rfl
  | some st => rfl

theorem lex_internal_loop_succ (fuel : Nat) (sc : StreamScanners) (lex_all : Bool)
    (st : InternalState)
    (hstop : (ctpl_input_stream_eof st.stream || st.err.isSome) = false)
    (hclose : ctpl_input_stream_peek_c st.stream ≠ ')') :
    lex_internal_loop (fuel + 1) sc lex_all st
      = (lex_internal_read (lex_internal_fuel fuel sc) (lex_operand_fuel fuel sc) lex_all st).bind
          (lex_internal_continue (lex_internal_loop fuel sc lex_all) sc lex_all st) := by
  rw [lex_internal_loop]
  simp only [hstop, hclose, if_false, Bool.false_eq_true]
  show (match lex_internal_read (lex_internal_fuel fuel sc) (lex_operand_fuel fuel sc)
      lex_all st with
    | none => none
    | some r => lex_internal_continue (lex_internal_loop fuel sc lex_all) sc lex_all st r) = _
  generalize lex_internal_read (lex_internal_fuel fuel sc) (lex_operand_fuel fuel sc)
      lex_all st = x
  cases x <;> rfl

theorem lex_operand_fuel_succ (fuel : Nat) (sc : StreamScanners) (stream : CtplInputStream) :
    lex_operand_fuel (fuel + 1) sc stream
      = match (lex_operand_read sc stream).token with
        | none => some (lex_operand_read sc stream)
        | some token =>
          (lex_operand_index_fuel fuel sc token (lex_operand_read sc stream).error
            (lex_operand_read sc stream).stream).map lex_operand_finish := by
  rw [lex_operand_fuel]
  show (match (lex_operand_read sc stream).token with
    | none => some (lex_operand_read sc stream)
    | some token =>
      match lex_operand_index_fuel fuel sc token (lex_operand_read sc stream).error
          (lex_operand_read sc stream).stream with
      | none => none
      | some ir =>
        if ir.success = true then some ⟨some ir.operand, ir.error, ir.stream⟩
        else some ⟨none, ir.error, ir.stream⟩) = _
  cases (lex_operand_read sc stream).token with
  | none => rfl
  | some token =>
    simp only
    cases lex_operand_index_fuel fuel sc token (lex_operand_read sc stream).error
        (lex_operand_read sc stream).stream with
    | none => rfl
    | some ir =>
      simp only [Option.map_some', lex_operand_finish]
      split_ifs <;> rfl

/-! ## The depth bound does not matter once it is enough -/

theorem lex_internal_read_mono
    (internal internal' : LexerExprState → CtplInputStream → Option InternalResult)
    (operand operand' : CtplInputStream → Option LexResult)
    (hint : ∀ state s r, internal state s = some r → internal' state s = some r)
    (hopd : ∀ s r, operand s = some r → operand' s = some r)
    (lex_all : Bool) (st : InternalState) (r : LexResult)
    (h : lex_internal_read internal operand lex_all st = some r) :
    lex_internal_read internal' operand' lex_all st = some r := by
  unfold lex_internal_read at h ⊢
  split
  · rename_i heo
    simp only [heo, if_true] at h
    split
    · rename_i hopen
      simp only [hopen, if_true] at h
      cases hsub : internal ⟨lex_all, st.depth + 1⟩ (ctpl_input_stream_get_c st.stream).2 with
      | none => simp [hsub] at h
      | some ri =>
        rw [hint _ _ _ hsub]
        rw [hsub] at h
        exact h
    · rename_i hopen
      simp only [hopen, if_false] at h
      exact hopd _ _ h
  · rename_i heo
    simp only [heo, if_false] at h
    exact h

theorem lex_internal_continue_mono (loop loop' : InternalState → Option InternalState)
    (hloop : ∀ st st', loop st = some st' → loop' st = some st')
    (sc : StreamScanners) (lex_all : Bool) (st : InternalState) (r : LexResult)
    (st' : InternalState)
    (h : lex_internal_continue loop sc lex_all st r = some st') :
    lex_internal_continue loop' sc lex_all st r = some st' := by
  unfold lex_internal_continue at h ⊢
  split
  · rename_i token htok
    simp only [htok] at h
    exact hloop _ _ h
  · rename_i htok
    simp only [htok] at h
    split
    · rename_i hla
      simp only [hla, if_true] at h
      exact h
    · rename_i hla
      simp only [hla, if_false] at h
      exact hloop _ _ h

/-- One more unit of depth bound changes no result. -/
theorem lexer_fuel_succ (fuel : Nat) :
    (∀ sc lex_all stream r, lex_full_fuel fuel sc lex_all stream = some r →
      lex_full_fuel (fuel + 1) sc lex_all stream = some r) ∧
    (∀ sc state stream r, lex_internal_fuel fuel sc state stream = some r →
      lex_internal_fuel (fuel + 1) sc state stream = some r) ∧
    (∀ sc lex_all st st', lex_internal_loop fuel sc lex_all st = some st' →
      lex_internal_loop (fuel + 1) sc lex_all st = some st') ∧
    (∀ sc stream r, lex_operand_fuel fuel sc stream = some r →
      lex_operand_fuel (fuel + 1) sc stream = some r) ∧
    (∀ sc operand error stream r,
      lex_operand_index_fuel fuel sc operand error stream = some r →
      lex_operand_index_fuel (fuel + 1) sc operand error stream = some r) := by
  induction fuel with
  | zero =>
    refine ⟨?_, ?_, ?_, ?_, ?_⟩
    · intro sc la s r h; rw [lex_full_fuel] at h; cases h
    · intro sc state s r h; rw [lex_internal_fuel] at h; cases h
    · intro sc la st st' h; rw [lex_internal_loop] at h; cases h
    · intro sc s r h; rw [lex_operand_fuel] at h; cases h
    · intro sc o e s r h; rw [lex_operand_index_fuel] at h; cases h
  | succ fuel ih =>
    obtain ⟨hfull, hint, hloop, hopd, hidx⟩ := ih
    refine ⟨?_, ?_, ?_, ?_, ?_⟩
    · intro sc la s r h
      rw [lex_full_fuel_succ] at h ⊢
      cases hsub : lex_internal_fuel fuel sc ⟨la, 0⟩ s with
      | none => simp [hsub] at h
      | some ri => rw [hint _ _ _ _ hsub]; rw [hsub] at h; exact h
    · intro sc state s r h
      rw [lex_internal_fuel_succ] at h ⊢
      cases hsub : lex_internal_loop fuel sc state.lex_all
          (lex_internal_initial sc state.depth s) with
      | none => simp [hsub] at h
      | some st => rw [hloop _ _ _ _ hsub]; rw [hsub] at h; exact h
    · intro sc la st st' h
      by_cases hstop : (ctpl_input_stream_eof st.stream || st.err.isSome) = true
      · rw [lex_internal_loop_stop _ _ _ _ hstop] at h ⊢
        exact h
      · have hstop' : (ctpl_input_stream_eof st.stream || st.err.isSome) = false := by
          simpa using hstop
        by_cases hclose : ctpl_input_stream_peek_c st.stream = ')'
        · rw [lex_internal_loop] at h ⊢
          simp only [hstop', hclose, if_true, if_false, Bool.false_eq_true] at h ⊢
          exact h
        · rw [lex_internal_loop_succ _ _ _ _ hstop' hclose] at h ⊢
          cases hread : lex_internal_read (lex_internal_fuel fuel sc) (lex_operand_fuel fuel sc)
              la st with
          | none => simp [hread] at h
          | some r =>
            rw [lex_internal_read_mono _ _ _ _ (hint sc) (hopd sc) la st r hread]
            rw [hread] at h
            exact lex_internal_continue_mono _ _ (hloop sc la) sc la st r st' h
    · intro sc s r h
      rw [lex_operand_fuel_succ] at h ⊢
      cases htok : (lex_operand_read sc s).token with
      | none => simp only [htok] at h ⊢; exact h
      | some token =>
        simp only [htok] at h ⊢
        cases hsub : lex_operand_index_fuel fuel sc token (lex_operand_read sc s).error
            (lex_operand_read sc s).stream with
        | none => simp [hsub] at h
        | some ir => rw [hidx _ _ _ _ _ hsub]; rw [hsub] at h; exact h
    · intro sc operand error s r h
      rw [lex_operand_index_fuel] at h ⊢
      by_cases hpeek : ctpl_input_stream_peek_c (ctpl_input_stream_skip_blank sc s) = '['
      · simp only [hpeek, if_true] at h ⊢
        cases hsub : lex_full_fuel fuel sc false
            (ctpl_input_stream_get_c (ctpl_input_stream_skip_blank sc s)).2 with
        | none => simp [hsub] at h
        | some rf =>
          rw [hfull _ _ _ _ hsub]
          rw [hsub] at h
          simp only at h ⊢
          cases htok : rf.token with
          | none => simp only [htok] at h ⊢; exact h
          | some idx =>
            simp only [htok] at h ⊢
            by_cases hc : (ctpl_input_stream_get_c rf.stream).1 ≠ ']'
            · simp only [hc, if_true, ne_eq, not_false_eq_true] at h ⊢
              exact h
            · simp only [hc, if_false] at h ⊢
              exact hidx _ _ _ _ _ h
      · simp only [hpeek, if_false] at h ⊢
        exact h

theorem lex_full_fuel_mono (sc : StreamScanners) (lex_all : Bool) (stream : CtplInputStream)
    (r : LexResult) (fuel fuel' : Nat) (hle : fuel ≤ fuel')
    (h : lex_full_fuel fuel sc lex_all stream = some r) :
    lex_full_fuel fuel' sc lex_all stream = some r := by
  induction hle with
  | refl => exact h
  | step _ ih => exact (lexer_fuel_succ _).1 _ _ _ _ ih

theorem lex_internal_fuel_mono (sc : StreamScanners) (state : LexerExprState)
    (stream : CtplInputStream) (r : InternalResult) (fuel fuel' : Nat) (hle : fuel ≤ fuel')
    (h : lex_internal_fuel fuel sc state stream = some r) :
    lex_internal_fuel fuel' sc state stream = some r := by
  induction hle with
  | refl => exact h
  | step _ ih => exact (lexer_fuel_succ _).2.1 _ _ _ _ ih

theorem lex_internal_loop_mono (sc : StreamScanners) (lex_all : Bool) (st st' : InternalState)
    (fuel fuel' : Nat) (hle : fuel ≤ fuel')
    (h : lex_internal_loop fuel sc lex_all st = some st') :
    lex_internal_loop fuel' sc lex_all st = some st' := by
  induction hle with
  | refl => exact h
  | step _ ih => exact (lexer_fuel_succ _).2.2.1 _ _ _ _ ih

theorem lex_operand_fuel_mono (sc : StreamScanners) (stream : CtplInputStream)
    (r : LexResult) (fuel fuel' : Nat) (hle : fuel ≤ fuel')
    (h : lex_operand_fuel fuel sc stream = some r) :
    lex_operand_fuel fuel' sc stream = some r := by
  induction hle with
  | refl => exact h
  | step _ ih => exact (lexer_fuel_succ _).2.2.2.1 _ _ _ ih

theorem lex_operand_index_fuel_mono (sc : StreamScanners) (operand : CtplTokenExpr)
    (error : Option GError) (stream : CtplInputStream) (r : IndexResult) (fuel fuel' : Nat)
    (hle : fuel ≤ fuel')
    (h : lex_operand_index_fuel fuel sc operand error stream = some r) :
    lex_operand_index_fuel fuel' sc operand error stream = some r := by
  induction hle with
  | refl => exact h
  | step _ ih => exact (lexer_fuel_succ _).2.2.2.2 _ _ _ _ _ ih

/-- A result obtained with some depth bound is the result of
`ctpl_lexer_expr_lex_full`. -/
theorem lex_full_of_returns (sc : StreamScanners) (lex_all : Bool) (stream : CtplInputStream)
    (r : LexResult) (h : FullReturns sc lex_all stream r) :
    ctpl_lexer_expr_lex_full sc stream lex_all = some r := by
  obtain ⟨fuel, hf⟩ := h
  obtain ⟨r0, hr0, _, _⟩ := (lexer_total (lex_fuel stream)).1 sc lex_all stream (le_refl _)
  have h1 := lex_full_fuel_mono sc lex_all stream r fuel (max fuel (lex_fuel stream))
    (le_max_left _ _) hf
  have h2 := lex_full_fuel_mono sc lex_all stream r0 (lex_fuel stream)
    (max fuel (lex_fuel stream)) (le_max_right _ _) hr0
  rw [h1] at h2
  unfold ctpl_lexer_expr_lex_full
  rw [hr0, ← Option.some.inj h2]

theorem lex_full_returns (sc : StreamScanners) (lex_all : Bool) (stream : CtplInputStream)
    (r : LexResult) (h : ctpl_lexer_expr_lex_full sc stream lex_all = some r) :
    FullReturns sc lex_all stream r :=
  ⟨lex_fuel stream, h⟩

theorem full_returns_of_internal (sc : StreamScanners) (lex_all : Bool)
    (stream : CtplInputStream) (ri : InternalResult)
    (h : InternalReturns sc ⟨lex_all, 0⟩ stream ri) :
    FullReturns sc lex_all stream (lex_full_finish lex_all ri) := by
  obtain ⟨fuel, hf⟩ := h
  exact ⟨fuel + 1, by rw [lex_full_fuel_succ, hf]; rfl⟩

theorem full_returns_inv (sc : StreamScanners) (lex_all : Bool) (stream : CtplInputStream)
    (r : LexResult) (h : FullReturns sc lex_all stream r) :
    ∃ ri, InternalReturns sc ⟨lex_all, 0⟩ stream ri ∧ r = lex_full_finish lex_all ri := by
  obtain ⟨fuel, hf⟩ := h
  cases fuel with
  | zero => rw [lex_full_fuel] at hf; cases hf
  | succ fuel =>
    rw [lex_full_fuel_succ] at hf
    cases hsub : lex_internal_fuel fuel sc ⟨lex_all, 0⟩ stream with
    | none => simp [hsub] at hf
    | some ri =>
      rw [hsub] at hf
      exact ⟨ri, ⟨fuel, hsub⟩, (Option.some.inj hf).symm⟩

theorem internal_returns_of_loop (sc : StreamScanners) (state : LexerExprState)
    (stream : CtplInputStream) (st : InternalState) (ri : InternalResult)
    (h : LoopReturns sc state.lex_all (lex_internal_initial sc state.depth stream) st)
    (hfin : lex_internal_finish st = some ri) :
    InternalReturns sc state stream ri := by
  obtain ⟨fuel, hf⟩ := h
  exact ⟨fuel + 1, by rw [lex_internal_fuel_succ, hf]; exact hfin⟩

theorem internal_returns_inv (sc : StreamScanners) (state : LexerExprState)
    (stream : CtplInputStream) (ri : InternalResult)
    (h : InternalReturns sc state stream ri) :
    ∃ st, LoopReturns sc state.lex_all (lex_internal_initial sc state.depth stream) st ∧
      lex_internal_finish st = some ri := by
  obtain ⟨fuel, hf⟩ := h
  cases fuel with
  | zero => rw [lex_internal_fuel] at hf; cases hf
  | succ fuel =>
    rw [lex_internal_fuel_succ] at hf
    cases hsub : lex_internal_loop fuel sc state.lex_all
        (lex_internal_initial sc state.depth stream) with
    | none => simp [hsub] at hf
    | some st =>
      rw [hsub] at hf
      exact ⟨st, ⟨fuel, hsub⟩, hf⟩

theorem loop_returns_stop (sc : StreamScanners) (lex_all : Bool) (st : InternalState)
    (h : (ctpl_input_stream_eof st.stream || st.err.isSome) = true) :
    LoopReturns sc lex_all st st :=
  ⟨1, lex_internal_loop_stop 0 sc lex_all st h⟩

theorem loop_returns_close (sc : StreamScanners) (lex_all : Bool) (st : InternalState)
    (hstop : (ctpl_input_stream_eof st.stream || st.err.isSome) = false)
    (hclose : ctpl_input_stream_peek_c st.stream = ')') :
    LoopReturns sc lex_all st
      (if st.depth ≤ 0 then
        if lex_all = true then
          { st with err := (ctpl_input_stream_set_error st.err
            ErrorDomain.CTPL_LEXER_EXPR_ERROR ErrorCode.CTPL_LEXER_EXPR_ERROR_SYNTAX_ERROR
            "Too many closing parenthesis".toList) }
        else st
      else { st with depth := st.depth - 1,
                     stream := (ctpl_input_stream_get_c st.stream).2 }) := by
  refine ⟨1, ?_⟩
  rw [lex_internal_loop]
  simp only [hstop, hclose, if_true, if_false, Bool.false_eq_true]
  split_ifs <;> rfl

theorem read_returns_operator (sc : StreamScanners) (lex_all : Bool) (st : InternalState)
    (heo : st.expect_operand = false) :
    ReadReturns sc lex_all st (lex_operator st.stream) :=
  ⟨0, by simp [lex_internal_read, heo]⟩

theorem read_returns_operand (sc : StreamScanners) (lex_all : Bool) (st : InternalState)
    (r : LexResult) (heo : st.expect_operand = true)
    (hopen : ctpl_input_stream_peek_c st.stream ≠ '(')
    (h : OperandReturns sc st.stream r) :
    ReadReturns sc lex_all st r := by
  obtain ⟨fuel, hf⟩ := h
  exact ⟨fuel, by simp [lex_internal_read, heo, hopen, hf]⟩

theorem read_returns_group (sc : StreamScanners) (lex_all : Bool) (st : InternalState)
    (ri : InternalResult) (heo : st.expect_operand = true)
    (hopen : ctpl_input_stream_peek_c st.stream = '(')
    (h : InternalReturns sc ⟨lex_all, st.depth + 1⟩ (ctpl_input_stream_get_c st.stream).2 ri) :
    ReadReturns sc lex_all st (lex_internal_group st.depth ri) := by
  obtain ⟨fuel, hf⟩ := h
  refine ⟨fuel, ?_⟩
  simp only [lex_internal_read, heo, hopen, if_true, hf, lex_internal_group]
  split_ifs <;> rfl

/-- One turn of the loop that reads a token and goes on. -/
theorem loop_returns_token (sc : StreamScanners) (lex_all : Bool) (st st' : InternalState)
    (r : LexResult) (token : CtplTokenExpr)
    (hstop : (ctpl_input_stream_eof st.stream || st.err.isSome) = false)
    (hclose : ctpl_input_stream_peek_c st.stream ≠ ')')
    (hread : ReadReturns sc lex_all st r) (htok : r.token = some token)
    (hnext : LoopReturns sc lex_all
      { st with stream := ctpl_input_stream_skip_blank sc r.stream,
                tokens := token :: st.tokens,
                err := r.error,
                expect_operand := !st.expect_operand } st') :
    LoopReturns sc lex_all st st' := by
  obtain ⟨f1, h1⟩ := hread
  obtain ⟨f2, h2⟩ := hnext
  refine ⟨max f1 f2 + 1, ?_⟩
  rw [lex_internal_loop_succ _ _ _ _ hstop hclose]
  rw [lex_internal_read_mono _ _ _ _
    (fun state s r h => lex_internal_fuel_mono sc state s r f1 (max f1 f2) (le_max_left _ _) h)
    (fun s r h => lex_operand_fuel_mono sc s r f1 (max f1 f2) (le_max_left _ _) h)
    lex_all st r h1]
  simp only [Option.bind, lex_internal_continue, htok]
  exact lex_internal_loop_mono sc lex_all _ st' f2 (max f1 f2) (le_max_right _ _) h2

/-- One turn of the loop in which no token is read. -/
theorem loop_returns_no_token (sc : StreamScanners) (lex_all : Bool) (st : InternalState)
    (r : LexResult) (e : GError)
    (hstop : (ctpl_input_stream_eof st.stream || st.err.isSome) = false)
    (hclose : ctpl_input_stream_peek_c st.stream ≠ ')')
    (hread : ReadReturns sc lex_all st r) (htok : r.token = none) (herr : r.error = some e) :
    LoopReturns sc lex_all st
      (if lex_all = true then
        { st with stream := ctpl_input_stream_skip_blank sc r.stream, err := some e }
      else if e.domain ≠ ErrorDomain.CTPL_IO_ERROR then
        { st with stream := r.stream, err := none }
      else { st with stream := r.stream, err := some e }) := by
  obtain ⟨f1, h1⟩ := hread
  refine ⟨f1 + 1 + 1, ?_⟩
  rw [lex_internal_loop_succ _ _ _ _ hstop hclose]
  rw [lex_internal_read_mono _ _ _ _
    (fun state s r h => lex_internal_fuel_mono sc state s r f1 (f1 + 1) (Nat.le_succ _) h)
    (fun s r h => lex_operand_fuel_mono sc s r f1 (f1 + 1) (Nat.le_succ _) h)
    lex_all st r h1]
  simp only [Option.bind, lex_internal_continue, htok, herr]
  cases lex_all with
  | true =>
    simp only [Bool.not_true, Bool.false_eq_true, if_false, if_true]
    exact lex_internal_loop_stop f1 sc true _ (by simp)
  | false =>
    simp only [Bool.not_false, if_true, Bool.false_eq_true, if_false]
    split_ifs <;> rfl

theorem operand_returns_of_index (sc : StreamScanners) (stream : CtplInputStream)
    (token : CtplTokenExpr) (ir : IndexResult)
    (htok : (lex_operand_read sc stream).token = some token)
    (h : IndexReturns sc token (lex_operand_read sc stream).error
      (lex_operand_read sc stream).stream ir) :
    OperandReturns sc stream (lex_operand_finish ir) := by
  obtain ⟨fuel, hf⟩ := h
  refine ⟨fuel + 1, ?_⟩
  rw [lex_operand_fuel_succ]
  simp only [htok, hf, Option.map_some']

theorem operand_returns_no_token (sc : StreamScanners) (stream : CtplInputStream)
    (htok : (lex_operand_read sc stream).token = none) :
    OperandReturns sc stream (lex_operand_read sc stream) := by
  refine ⟨1, ?_⟩
  rw [lex_operand_fuel_succ]
  simp only [htok]

theorem index_returns_done (sc : StreamScanners) (operand : CtplTokenExpr)
    (error : Option GError) (stream : CtplInputStream)
    (hpeek : ctpl_input_stream_peek_c (ctpl_input_stream_skip_blank sc stream) ≠ '[') :
    IndexReturns sc operand error stream
      ⟨true, operand, error, ctpl_input_stream_skip_blank sc stream⟩ := by
  refine ⟨1, ?_⟩
  rw [lex_operand_index_fuel]
  simp only [hpeek, if_false]

theorem index_returns_next (sc : StreamScanners) (operand idx : CtplTokenExpr)
    (error : Option GError) (stream : CtplInputStream) (r : LexResult) (ir : IndexResult)
    (hpeek : ctpl_input_stream_peek_c (ctpl_input_stream_skip_blank sc stream) = '[')
    (hfull : FullReturns sc false
      (ctpl_input_stream_get_c (ctpl_input_stream_skip_blank sc stream)).2 r)
    (htok : r.token = some idx)
    (hend : (ctpl_input_stream_get_c r.stream).1 = ']')
    (hnext : IndexReturns sc (append_index operand idx) r.error
      (ctpl_input_stream_get_c r.stream).2 ir) :
    IndexReturns sc operand error stream ir := by
  obtain ⟨f1, h1⟩ := hfull
  obtain ⟨f2, h2⟩ := hnext
  refine ⟨max f1 f2 + 1, ?_⟩
  rw [lex_operand_index_fuel]
  simp only [hpeek, if_true]
  rw [lex_full_fuel_mono sc false _ r f1 (max f1 f2) (le_max_left _ _) h1]
  simp only [htok, hend, ne_eq, not_true_eq_false, if_false]
  exact lex_operand_index_fuel_mono sc _ _ _ ir f2 (max f1 f2) (le_max_right _ _) h2

/-! ## The scan of one level: lemmas -/

theorem scan_reaches_loop (sc : StreamScanners) (lex_all : Bool) (st0 st st' : InternalState)
    (h : ScanReaches sc lex_all st0 st) (hl : LoopReturns sc lex_all st st') :
    LoopReturns sc lex_all st0 st' := by
  induction h with
  | here st => exact hl
  | token st st1 r token hstop hclose hread htok _ ih =>
    exact loop_returns_token sc lex_all st st' r token hstop hclose hread htok (ih hl)

theorem scan_reaches_depth (sc : StreamScanners) (lex_all : Bool) (st0 st : InternalState)
    (h : ScanReaches sc lex_all st0 st) : st.depth = st0.depth := by
  induction h with
  | here st => rfl
  | token st st1 r token _ _ _ _ _ ih => exact ih

theorem read_returns_operator_inv (sc : StreamScanners) (lex_all : Bool) (st : InternalState)
    (r : LexResult) (heo : st.expect_operand = false) (h : ReadReturns sc lex_all st r) :
    r = lex_operator st.stream := by
  obtain ⟨fuel, hf⟩ := h
  simp only [lex_internal_read, heo, Bool.false_eq_true, if_false, Option.some.injEq] at hf
  exact hf.symm

theorem scan_reaches_accumulated (sc : StreamScanners) (lex_all : Bool)
    (st0 st : InternalState) (h : ScanReaches sc lex_all st0 st)
    (hacc : Accumulated st0.expect_operand st0.tokens) :
    Accumulated st.expect_operand st.tokens := by
  induction h with
  | here st => exact hacc
  | token st st1 r token hstop hclose hread htok _ ih =>
    apply ih
    cases heo : st.expect_operand with
    | true =>
      rw [heo] at hacc
      simp only [lex_internal_next, heo, Bool.not_true]
      exact Accumulated.operand token st.tokens hacc
    | false =>
      rw [heo] at hacc
      have hr := read_returns_operator_inv sc lex_all st r heo hread
      subst hr
      obtain ⟨⟨op, hop⟩, _⟩ := (lex_operator_spec st.stream).2.2 token htok
      subst hop
      simp only [lex_internal_next, heo, Bool.not_false]
      exact Accumulated.operator op st.tokens hacc

/-- The result of `ctpl_lexer_expr_lex_full` from the state in which the loop
of its top-level call ends. -/
theorem lex_full_of_loop (sc : StreamScanners) (lex_all : Bool) (stream : CtplInputStream)
    (st : InternalState) (ri : InternalResult)
    (h : LoopReturns sc lex_all (lex_internal_initial sc 0 stream) st)
    (hfin : lex_internal_finish st = some ri) :
    ctpl_lexer_expr_lex_full sc stream lex_all = some (lex_full_finish lex_all ri) :=
  lex_full_of_returns sc lex_all stream _
    (full_returns_of_internal sc lex_all stream ri
      (internal_returns_of_loop sc ⟨lex_all, 0⟩ stream st ri h hfin))

theorem validate_accumulated_operand (tokens : List CtplTokenExpr)
    (h : Accumulated false tokens) :
    ∃ tree, validate_token_list tokens.reverse none = some (some tree, none) := by
  obtain ⟨a, rest, h1⟩ := (accumulated_reverse false tokens h).1 rfl
  rw [h1, validate_token_list_eq]
  have h2 := reduction_no_last rest a
  cases hr : reduction a rest none with
  | mk tok err =>
    rw [hr] at h2
    simp only at h2
    cases tok with
    | none => simp at h2
    | some tree => exact ⟨tree, by rw [h2.1]⟩

theorem accumulated_false_ne_nil (tokens : List CtplTokenExpr)
    (h : Accumulated false tokens) : tokens ≠ [] := by
  cases h
  simp

theorem lex_operator_no_token (stream : CtplInputStream)
    (h : (lex_operator stream).token = none) :
    lex_operator stream = ⟨none, some missing_operator_error, stream⟩ := by
  unfold lex_operator at h ⊢
  simp only [] at h ⊢
  split
  · rfl
  · rename_i hne
    simp only [hne, if_false] at h
    cases h

theorem lex_full_finish_strict_eof (ri : InternalResult)
    (h : (lex_full_finish true ri).token.isSome = true) :
    (lex_full_finish true ri).stream = [] := by
  obtain ⟨tok, err, strm, depth⟩ := ri
  cases err with
  | some e => simp [lex_full_finish] at h
  | none =>
    cases strm with
    | nil => simp [lex_full_finish, ctpl_input_stream_eof]
    | cons c cs =>
      simp [lex_full_finish, ctpl_input_stream_eof, ctpl_input_stream_set_error] at h

theorem lex_internal_finish_tree (st : InternalState) (tree : CtplTokenExpr)
    (herr : st.err = none) (hne : st.tokens ≠ [])
    (htree : validate_token_list st.tokens.reverse none = some (some tree, none)) :
    lex_internal_finish st = some ⟨some tree, none, st.stream, st.depth⟩ := by
  have hemp : st.tokens.isEmpty = false := by
    cases h : st.tokens with
    | nil => exact absurd h hne
    | cons t ts => rfl
  unfold lex_internal_finish
  simp only [herr, Option.isNone_none, if_true, hemp, Bool.false_eq_true, if_false, htree]

/-! ## The lexer: properties of the scan -/

/-- C15: in strict mode, whenever the top-level scan comes to its loop
condition with no error and a `)` as next character (its depth is zero),
whatever tokens it has read before, `ctpl_lexer_expr_lex_full` returns no tree
and the error `Too many closing parenthesis`, the stream being left on that
`)`; in particular this holds for every input whose first non-blank character
is `)`. -/
theorem strict_close_at_depth_zero (sc : StreamScanners) :
    (∀ (stream : CtplInputStream) (st : InternalState) (rest : CtplInputStream),
      ScanReaches sc true (lex_internal_initial sc 0 stream) st →
      st.err = none → st.stream = ')' :: rest →
      st.depth = 0 ∧
      ctpl_lexer_expr_lex_full sc stream true
        = some ⟨none, some too_many_closing_error, ')' :: rest⟩) ∧
    (∀ (stream rest : CtplInputStream),
      ctpl_input_stream_skip_blank sc stream = ')' :: rest →
      ctpl_lexer_expr_lex_full sc stream true
        = some ⟨none, some too_many_closing_error, ')' :: rest⟩) := by
  have key : ∀ (stream : CtplInputStream) (st : InternalState) (rest : CtplInputStream),
      ScanReaches sc true (lex_internal_initial sc 0 stream) st →
      st.err = none → st.stream = ')' :: rest →
      st.depth = 0 ∧
      ctpl_lexer_expr_lex_full sc stream true
        = some ⟨none, some too_many_closing_error, ')' :: rest⟩ := by
    intro stream st rest hreach herr hs
    have hdepth : st.depth = 0 := scan_reaches_depth sc true _ st hreach
    refine ⟨hdepth, ?_⟩
    obtain ⟨strm, depth, tokens, err, eo⟩ := st
    simp only at herr hs hdepth
    subst herr hs hdepth
    have hl := loop_returns_close sc true ⟨')' :: rest, 0, tokens, none, eo⟩ (by rfl) (by rfl)
    simp only [le_refl, if_true, ctpl_input_stream_set_error] at hl
    have h := lex_full_of_loop sc true stream _
      ⟨none, some too_many_closing_error, ')' :: rest, 0⟩
      (scan_reaches_loop sc true _ _ _ hreach hl) (by rfl)
    rw [h]
    rfl
  refine ⟨key, ?_⟩
  intro stream rest hs
  refine (key stream (lex_internal_initial sc 0 stream) rest (ScanReaches.here _) rfl ?_).2
  exact hs

/-- C16 (as amended): in strict mode, when the top-level scan has read a token
sequence ending with an operand and then meets bytes that are neither the end
of the stream, nor `)`, nor the start of an operator, `ctpl_lexer_expr_lex_full`
returns no tree and the MissingOperator error `No valid operator`, the stream
being left on those bytes.  (A `[` that directly follows a number, symbol or
string literal belongs to the read of that operand, as its index: the scan has
not read the operand then.) -/
theorem strict_trailing_operand_missing_operator (sc : StreamScanners)
    (stream : CtplInputStream) (st : InternalState)
    (hreach : ScanReaches sc true (lex_internal_initial sc 0 stream) st)
    (herr : st.err = none) (heo : st.expect_operand = false)
    (hne : ctpl_input_stream_eof st.stream = false)
    (hclose : ctpl_input_stream_peek_c st.stream ≠ ')')
    (hop : (lex_operator st.stream).token = none) :
    ctpl_lexer_expr_lex_full sc stream true
      = some ⟨none, some missing_operator_error,
          ctpl_input_stream_skip_blank sc st.stream⟩ := by
  have hstop : (ctpl_input_stream_eof st.stream || st.err.isSome) = false := by
    simp [hne, herr]
  have hl := loop_returns_no_token sc true st (lex_operator st.stream) missing_operator_error
    hstop hclose (read_returns_operator sc true st heo) hop
    (by rw [lex_operator_no_token _ hop])
  simp only [if_true] at hl
  rw [lex_operator_no_token _ hop] at hl
  have h := lex_full_of_loop sc true stream _
    ⟨none, some missing_operator_error, ctpl_input_stream_skip_blank sc st.stream, st.depth⟩
    (scan_reaches_loop sc true _ _ _ hreach hl) (by rfl)
  rw [h]
  rfl

/-- C17: in permissive mode, when the top-level scan has read tokens ending
with an operand and the next characters start no operator,
`ctpl_lexer_expr_lex_full` sets no error, returns the tree that
`validate_token_list` makes of the tokens read so far, and leaves the stream
where it was, on those characters. -/
theorem permissive_stops_before_non_operator (sc : StreamScanners)
    (stream : CtplInputStream) (st : InternalState)
    (hreach : ScanReaches sc false (lex_internal_initial sc 0 stream) st)
    (herr : st.err = none) (heo : st.expect_operand = false)
    (hop : (lex_operator st.stream).token = none) :
    ∃ tree, validate_token_list st.tokens.reverse none = some (some tree, none) ∧
      ctpl_lexer_expr_lex_full sc stream false = some ⟨some tree, none, st.stream⟩ := by
  have hacc := scan_reaches_accumulated sc false _ st hreach Accumulated.nil
  rw [heo] at hacc
  have hdepth : st.depth = 0 := scan_reaches_depth sc false _ st hreach
  obtain ⟨tree, htree⟩ := validate_accumulated_operand st.tokens hacc
  have hne := accumulated_false_ne_nil st.tokens hacc
  refine ⟨tree, htree, ?_⟩
  have hl : LoopReturns sc false st st := by
    by_cases hstop : (ctpl_input_stream_eof st.stream || st.err.isSome) = true
    · exact loop_returns_stop sc false st hstop
    · have hstop' : (ctpl_input_stream_eof st.stream || st.err.isSome) = false := by
        simpa using hstop
      by_cases hclose : ctpl_input_stream_peek_c st.stream = ')'
      · have h := loop_returns_close sc false st hstop' hclose
        simp only [hdepth, le_refl, if_true, Bool.false_eq_true, if_false] at h
        exact h
      · have h := loop_returns_no_token sc false st (lex_operator st.stream)
          missing_operator_error hstop' hclose (read_returns_operator sc false st heo) hop
          (by rw [lex_operator_no_token _ hop])
        rw [lex_operator_no_token _ hop] at h
        obtain ⟨strm, depth, tokens, err, eo⟩ := st
        simp only at herr
        subst herr
        exact h
  have hfin := lex_internal_finish_tree st tree herr hne htree
  rw [lex_full_of_loop sc false stream st _ (scan_reaches_loop sc false _ _ _ hreach hl) hfin]
  rfl

/-- C18: in permissive mode, when the top-level scan has read tokens ending
with an operand and meets a `)` (its depth is zero),
`ctpl_lexer_expr_lex_full` sets no error, returns the tree that
`validate_token_list` makes of the tokens read before it, and leaves the stream
on that `)`. -/
theorem permissive_stops_before_close (sc : StreamScanners)
    (stream : CtplInputStream) (st : InternalState) (rest : CtplInputStream)
    (hreach : ScanReaches sc false (lex_internal_initial sc 0 stream) st)
    (herr : st.err = none) (heo : st.expect_operand = false)
    (hs : st.stream = ')' :: rest) :
    st.depth = 0 ∧
    ∃ tree, validate_token_list st.tokens.reverse none = some (some tree, none) ∧
      ctpl_lexer_expr_lex_full sc stream false = some ⟨some tree, none, ')' :: rest⟩ := by
  have hacc := scan_reaches_accumulated sc false _ st hreach Accumulated.nil
  rw [heo] at hacc
  have hdepth : st.depth = 0 := scan_reaches_depth sc false _ st hreach
  obtain ⟨tree, htree⟩ := validate_accumulated_operand st.tokens hacc
  have hne := accumulated_false_ne_nil st.tokens hacc
  refine ⟨hdepth, tree, htree, ?_⟩
  have hstop : (ctpl_input_stream_eof st.stream || st.err.isSome) = false := by
    simp [hs, herr, ctpl_input_stream_eof]
  have hl : LoopReturns sc false st st := by
    have h := loop_returns_close sc false st hstop (by rw [hs]; rfl)
    simp only [hdepth, le_refl, if_true, Bool.false_eq_true, if_false] at h
    exact h
  have hfin := lex_internal_finish_tree st tree herr hne htree
  rw [lex_full_of_loop sc false stream st _ (scan_reaches_loop sc false _ _ _ hreach hl) hfin]
  simp [lex_full_finish, hs]

/-- C19: in strict mode (`ctpl_lexer_expr_lex`, and `ctpl_lexer_expr_lex_string`
on the stream it makes), the call returns, and whenever it returns a tree the
stream is at its end: nothing is left unread. -/
theorem strict_tree_consumes_all (sc : StreamScanners) :
    (∀ stream : CtplInputStream, ∃ r, ctpl_lexer_expr_lex sc stream = some r ∧
      (r.token.isSome = true → r.stream = [] ∧ ctpl_input_stream_eof r.stream = true)) ∧
    (∀ (expr : List Char) (len : Int), ∃ r,
      ctpl_lexer_expr_lex sc (expr.take (from_string_length expr len)) = some r ∧
      ctpl_lexer_expr_lex_string sc expr len = (r.token, r.error) ∧
      (r.token.isSome = true → r.stream = [])) := by
  have key : ∀ stream : CtplInputStream, ∃ r, ctpl_lexer_expr_lex sc stream = some r ∧
      (r.token.isSome = true → r.stream = []) := by
    intro stream
    obtain ⟨r, hr, _⟩ := (lexer_total (lex_fuel stream)).1 sc true stream (le_refl _)
    refine ⟨r, hr, ?_⟩
    obtain ⟨ri, _, hfin⟩ := full_returns_inv sc true stream r ⟨_, hr⟩
    rw [hfin]
    exact lex_full_finish_strict_eof ri
  constructor
  · intro stream
    obtain ⟨r, hr, h⟩ := key stream
    exact ⟨r, hr, fun ht => ⟨h ht, by rw [h ht]; rfl⟩⟩
  · intro expr len
    obtain ⟨r, hr, h⟩ := key (expr.take (from_string_length expr len))
    exact ⟨r, hr, by simp [ctpl_lexer_expr_lex_string, hr], h⟩

/-- C20: when the scan reads no token because the input is empty or all
blanks (either mode), or because, in permissive mode, its first non-blank
character is `)` or starts no operand (and is not `(`),
`ctpl_lexer_expr_lex_full` returns no tree and the FAILED error `No valid
operand at start of expression`. -/
theorem no_token_fails (sc : StreamScanners) :
    (∀ (stream : CtplInputStream) (lex_all : Bool),
      ctpl_input_stream_skip_blank sc stream = [] →
      ctpl_lexer_expr_lex_full sc stream lex_all = some ⟨none, some no_token_error, []⟩) ∧
    (∀ (stream rest : CtplInputStream),
      ctpl_input_stream_skip_blank sc stream = ')' :: rest →
      ctpl_lexer_expr_lex_full sc stream false
        = some ⟨none, some no_token_error, ')' :: rest⟩) ∧
    (∀ (stream rest : CtplInputStream) (c : Char),
      ctpl_input_stream_skip_blank sc stream = c :: rest →
      c ≠ ')' → c ≠ '(' → starts_operand sc c (rest.headD NUL) = false →
      ctpl_lexer_expr_lex_full sc stream false
        = some ⟨none, some no_token_error, c :: rest⟩) := by
  refine ⟨?_, ?_, ?_⟩
  · intro stream lex_all hs
    have hl : LoopReturns sc lex_all (lex_internal_initial sc 0 stream)
        ⟨[], 0, [], none, true⟩ := by
      have h := loop_returns_stop sc lex_all (lex_internal_initial sc 0 stream)
        (by simp [lex_internal_initial, hs, ctpl_input_stream_eof])
      simp only [lex_internal_initial, hs] at h ⊢
      exact h
    rw [lex_full_of_loop sc lex_all stream _ ⟨none, some no_token_error, [], 0⟩ hl (by rfl)]
    cases lex_all <;> rfl
  · intro stream rest hs
    have hl : LoopReturns sc false (lex_internal_initial sc 0 stream)
        ⟨')' :: rest, 0, [], none, true⟩ := by
      have h := loop_returns_close sc false (lex_internal_initial sc 0 stream)
        (by simp [lex_internal_initial, hs, ctpl_input_stream_eof])
        (by simp [lex_internal_initial, hs, ctpl_input_stream_peek_c])
      simp only [lex_internal_initial, hs, le_refl, if_true, Bool.false_eq_true,
        if_false] at h ⊢
      exact h
    rw [lex_full_of_loop sc false stream _ ⟨none, some no_token_error, ')' :: rest, 0⟩ hl
      (by rfl)]
    rfl
  · intro stream rest c hs hclose hopen hstart
    have hread : lex_operand_read sc (c :: rest) = ⟨none, some no_operand_error, c :: rest⟩ := by
      simp only [starts_operand, Bool.or_eq_false_iff] at hstart
      obtain ⟨⟨⟨⟨⟨h1, h2⟩, h3⟩, h4⟩, h5⟩, h6⟩ := hstart
      have hc : (ctpl_input_stream_peek (c :: rest) 2).getD 0 NUL = c := by
        simp [ctpl_input_stream_peek]
      have hn : (ctpl_input_stream_peek (c :: rest) 2).getD 1 NUL = rest.headD NUL := by
        cases rest <;> simp [ctpl_input_stream_peek]
      unfold lex_operand_read
      simp only [hc, hn, h1, h2, h3, h4, h5, Bool.or_self, Bool.false_eq_true, if_false]
      have h6' : c ≠ sc.string_delimiter := by simpa using h6
      simp only [h6', if_false]
      rfl
    have hopd : OperandReturns sc (c :: rest) ⟨none, some no_operand_error, c :: rest⟩ := by
      have h := operand_returns_no_token sc (c :: rest) (by rw [hread])
      rw [hread] at h
      exact h
    have hl : LoopReturns sc false (lex_internal_initial sc 0 stream)
        ⟨c :: rest, 0, [], none, true⟩ := by
      have h := loop_returns_no_token sc false (lex_internal_initial sc 0 stream)
        ⟨none, some no_operand_error, c :: rest⟩ no_operand_error
        (by simp [lex_internal_initial, hs, ctpl_input_stream_eof])
        (by simpa [lex_internal_initial, hs, ctpl_input_stream_peek_c] using hclose)
        (read_returns_operand sc false _ _ rfl
          (by simpa [lex_internal_initial, hs, ctpl_input_stream_peek_c] using hopen)
          (by simpa [lex_internal_initial, hs] using hopd))
        rfl rfl
      simp only [lex_internal_initial, hs, Bool.false_eq_true, if_false] at h ⊢
      exact h
    rw [lex_full_of_loop sc false stream _ ⟨none, some no_token_error, c :: rest, 0⟩ hl
      (by rfl)]
    rfl

theorem strict_close_at_depth_zero_witness :
    ctpl_lexer_expr_lex_full sample_scanners "2 + )".toList true
      = some ⟨none, some too_many_closing_error, ")".toList⟩ :=
  ((strict_close_at_depth_zero sample_scanners).1 "2 + )".toList
    ⟨")".toList, 0, [ctpl_token_expr_new_operator CTPL_OPERATOR_PLUS none none, int_token 2],
      none, true⟩ []
    (ScanReaches.token _ _ ⟨some (int_token 2), none, "+ )".toList⟩ (int_token 2)
      (by decide) (by decide) ⟨2, by decide⟩ rfl
      (ScanReaches.token _ _
        ⟨some (ctpl_token_expr_new_operator CTPL_OPERATOR_PLUS none none), none, " )".toList⟩
        (ctpl_token_expr_new_operator CTPL_OPERATOR_PLUS none none)
        (by decide) (by decide) ⟨0, by decide⟩ rfl
        (ScanReaches.here _)))
    rfl rfl).2

/-- C16 (counterexample): in strict mode `2 3` is rejected with the
MissingOperator error `No valid operator`, which is not the error `Trash data
at end of expression`. -/
theorem strict_two_operands_not_trash_data :
    ctpl_lexer_expr_lex_full sample_scanners "2 3".toList true
      = some ⟨none, some missing_operator_error, "3".toList⟩ ∧
    missing_operator_error ≠ trash_data_error :=
  ⟨lex_full_of_returns sample_scanners true "2 3".toList _ ⟨6, by decide⟩, by decide⟩

theorem strict_trailing_operand_missing_operator_witness :
    ctpl_lexer_expr_lex_full sample_scanners "foo bar".toList true
      = some ⟨none, some missing_operator_error, "bar".toList⟩ :=
  strict_trailing_operand_missing_operator sample_scanners "foo bar".toList
    ⟨"bar".toList, 0, [ctpl_token_expr_new_symbol "foo".toList], none, false⟩
    (ScanReaches.token _ _ ⟨some (ctpl_token_expr_new_symbol "foo".toList), none, "bar".toList⟩
      (ctpl_token_expr_new_symbol "foo".toList)
      (by decide) (by decide) ⟨2, by decide⟩ rfl (ScanReaches.here _))
    rfl rfl (by decide) (by decide) (by decide)

/-- A `[` right after a number is read by `lex_operand` as the start of an
index: in strict mode `2 [` fails inside the index, where nothing follows the
bracket, with the FAILED error `No valid operand at start of expression`; the
scan never comes to read an operator there. -/
theorem strict_open_index_fails :
    ctpl_lexer_expr_lex_full sample_scanners "2 [".toList true
      = some ⟨none, some no_token_error, []⟩ ∧
    no_token_error ≠ missing_operator_error :=
  ⟨lex_full_of_returns sample_scanners true "2 [".toList _ ⟨8, by decide⟩, by decide⟩

theorem permissive_stops_before_non_operator_witness :
    ∃ tree,
      validate_token_list [int_token 2] none = some (some tree, none) ∧
      ctpl_lexer_expr_lex_full sample_scanners "2 3".toList false
        = some ⟨some tree, none, "3".toList⟩ :=
  permissive_stops_before_non_operator sample_scanners "2 3".toList
    ⟨"3".toList, 0, [int_token 2], none, false⟩
    (ScanReaches.token _ _ ⟨some (int_token 2), none, "3".toList⟩ (int_token 2)
      (by decide) (by decide) ⟨2, by decide⟩ rfl (ScanReaches.here _))
    rfl rfl (by decide)

theorem permissive_stops_before_close_witness :
    ∃ tree,
      validate_token_list
        [ctpl_token_expr_new_symbol "foo".toList,
          ctpl_token_expr_new_operator CTPL_OPERATOR_PLUS none none,
          ctpl_token_expr_new_symbol "bar".toList] none = some (some tree, none) ∧
      ctpl_lexer_expr_lex_full sample_scanners "foo + bar)".toList false
        = some ⟨some tree, none, ")".toList⟩ :=
  (permissive_stops_before_close sample_scanners "foo + bar)".toList
    ⟨")".toList, 0,
      [ctpl_token_expr_new_symbol "bar".toList,
        ctpl_token_expr_new_operator CTPL_OPERATOR_PLUS none none,
        ctpl_token_expr_new_symbol "foo".toList], none, false⟩ []
    (ScanReaches.token _ _
      ⟨some (ctpl_token_expr_new_symbol "foo".toList), none, "+ bar)".toList⟩
      (ctpl_token_expr_new_symbol "foo".toList)
      (by decide) (by decide) ⟨2, by decide⟩ rfl
      (ScanReaches.token _ _
        ⟨some (ctpl_token_expr_new_operator CTPL_OPERATOR_PLUS none none), none,
          " bar)".toList⟩
        (ctpl_token_expr_new_operator CTPL_OPERATOR_PLUS none none)
        (by decide) (by decide) ⟨0, by decide⟩ rfl
        (ScanReaches.token _ _
          ⟨some (ctpl_token_expr_new_symbol "bar".toList), none, ")".toList⟩
          (ctpl_token_expr_new_symbol "bar".toList)
          (by decide) (by decide) ⟨2, by decide⟩ rfl (ScanReaches.here _))))
    rfl rfl rfl).2

theorem no_token_fails_witness :
    ctpl_lexer_expr_lex_full sample_scanners "  ".toList true
      = some ⟨none, some no_token_error, []⟩ ∧
    ctpl_lexer_expr_lex_full sample_scanners " )".toList false
      = some ⟨none, some no_token_error, ")".toList⟩ ∧
    ctpl_lexer_expr_lex_full sample_scanners " ]x".toList false
      = some ⟨none, some no_token_error, "]x".toList⟩ :=
  ⟨(no_token_fails sample_scanners).1 "  ".toList true (by decide),
   (no_token_fails sample_scanners).2.1 " )".toList [] (by decide),
   (no_token_fails sample_scanners).2.2 " ]x".toList "x".toList ']' (by decide)
     (by decide) (by decide) (by decide)⟩

/-! ## Index suffixes: lemmas -/

theorem token_indexes_append_index (operand idx : CtplTokenExpr) :
    token_indexes (append_index operand idx) = token_indexes operand ++ [idx] := by
  cases operand <;> rfl

theorem token_indexes_foldl (idxs : List CtplTokenExpr) :
    ∀ operand, token_indexes (idxs.foldl append_index operand)
      = token_indexes operand ++ idxs := by
  induction idxs with
  | nil => intro operand; simp
  | cons idx idxs ih =>
    intro operand
    rw [List.foldl_cons, ih, token_indexes_append_index]
    simp

theorem lex_operand_read_indexes (sc : StreamScanners) (stream : CtplInputStream)
    (t : CtplTokenExpr) (h : (lex_operand_read sc stream).token = some t) :
    token_indexes t = [] := by
  unfold lex_operand_read at h
  simp only [] at h
  split at h
  · unfold read_number at h
    split at h
    · simp only [Option.some.injEq] at h
      rw [← h]; rfl
    · cases h
  · split at h
    · unfold read_symbol at h
      split at h
      · split at h
        · simp only [Option.some.injEq] at h
          rw [← h]; rfl
        · cases h
      · cases h
    · split at h
      · unfold read_string_literal at h
        split at h
        · simp only [Option.some.injEq] at h
          rw [← h]; rfl
        · cases h
      · cases h

theorem index_chain_returns (sc : StreamScanners) (s : CtplInputStream)
    (idxs : List CtplTokenExpr) (s' : CtplInputStream) (h : IndexChain sc s idxs s') :
    ∀ operand, IndexReturns sc operand none s
      ⟨true, idxs.foldl append_index operand, none, s'⟩ := by
  induction h with
  | done s hpeek =>
    intro operand
    exact index_returns_done sc operand none s hpeek
  | next s idx s1 idxs s2 hpeek hfull hend _ ih =>
    intro operand
    exact index_returns_next sc operand idx none s ⟨some idx, none, s1⟩ _ hpeek hfull rfl hend
      (ih (append_index operand idx))

/-! ## Index suffixes: properties -/

/-- C13: when `lex_operand` reads an operand (symbol, number or string
literal) that is followed by the bracketed index expressions whose parses are
`idxs` (`IndexChain`), it returns, for every depth bound that is enough, the
operand token with exactly these trees as its index list, in source order, and
no error. -/
theorem index_chaining (sc : StreamScanners) (stream : CtplInputStream)
    (operand : CtplTokenExpr) (s0 : CtplInputStream) (idxs : List CtplTokenExpr)
    (s' : CtplInputStream)
    (hread : lex_operand_read sc stream = ⟨some operand, none, s0⟩)
    (hchain : IndexChain sc s0 idxs s') :
    ∃ t fuel0,
      (∀ fuel, fuel0 ≤ fuel → lex_operand_fuel fuel sc stream = some ⟨some t, none, s'⟩) ∧
      t = idxs.foldl append_index operand ∧
      token_indexes t = idxs ∧
      (token_indexes t).length = idxs.length := by
  have h0 : token_indexes operand = [] :=
    lex_operand_read_indexes sc stream operand (by rw [hread])
  have hidx := index_chain_returns sc s0 idxs s' hchain operand
  have hopd := operand_returns_of_index sc stream operand _ (by rw [hread])
    (by rw [hread]; exact hidx)
  obtain ⟨fuel0, hf⟩ := hopd
  have hind : token_indexes (idxs.foldl append_index operand) = idxs := by
    rw [token_indexes_foldl, h0, List.nil_append]
  refine ⟨idxs.foldl append_index operand, fuel0, ?_, rfl, hind, by rw [hind]⟩
  intro fuel hle
  exact lex_operand_fuel_mono sc stream _ fuel0 fuel hle hf

theorem index_chaining_witness :
    ∃ t fuel0,
      (∀ fuel, fuel0 ≤ fuel → lex_operand_fuel fuel sample_scanners "a[1][2]".toList
        = some ⟨some t, none, []⟩) ∧
      t = [int_token 1, int_token 2].foldl append_index
        (ctpl_token_expr_new_symbol "a".toList) ∧
      token_indexes t = [int_token 1, int_token 2] ∧
      (token_indexes t).length = 2 :=
  index_chaining sample_scanners "a[1][2]".toList (ctpl_token_expr_new_symbol "a".toList)
    "[1][2]".toList [int_token 1, int_token 2] []
    (by decide)
    (IndexChain.next _ (int_token 1) "][2]".toList _ _ (by decide) ⟨6, by decide⟩ (by decide)
      (IndexChain.next _ (int_token 2) "]".toList _ _ (by decide) ⟨6, by decide⟩ (by decide)
        (IndexChain.done _ (by decide))))

/-! ## Operands of the operator nodes: lemmas -/

theorem operands_set_list_append (xs ys : List CtplTokenExpr) :
    operands_set_list (xs ++ ys) = (operands_set_list xs && operands_set_list ys) := by
  induction xs with
  | nil => simp [operands_set_list]
  | cons x xs ih => simp [operands_set_list, ih, Bool.and_assoc]

theorem operands_set_append_index (operand idx : CtplTokenExpr)
    (h1 : operands_set operand = true) (h2 : operands_set idx = true) :
    operands_set (append_index operand idx) = true := by
  cases operand <;>
    simp_all [append_index, operands_set, operands_set_list_append, operands_set_list]

theorem operands_set_op_node (op : CtplOperator) (l r : CtplTokenExpr)
    (hl : operands_set l = true) (hr : operands_set r = true) :
    operands_set (.operator op (some l) (some r) []) = true := by
  simp [operands_set, operands_set_child, operands_set_list, hl, hr]

theorem reduction_operands_set (rest : List (CtplOperator × CtplTokenExpr)) :
    (∀ p ∈ rest, operands_set p.2 = true) → ∀ a, operands_set a = true →
      ∃ t, (reduction a rest none).1 = some t ∧ operands_set t = true := by
  induction rest with
  | nil => intro _ a ha; exact ⟨a, rfl, ha⟩
  | cons p rest ih =>
    intro hall a ha
    have hp : operands_set p.2 = true := hall p (List.mem_cons_self _ _)
    have hrest : ∀ q ∈ rest, operands_set q.2 = true :=
      fun q hq => hall q (List.mem_cons_of_mem _ hq)
    rw [reduction]
    cases hn : next_operator rest none with
    | none => exact ⟨_, rfl, operands_set_op_node p.1 a p.2 ha hp⟩
    | some o2 =>
      by_cases hprior : operator_is_prior p.1 o2 = true
      · simp only [hprior, if_true]
        exact ih hrest _ (operands_set_op_node p.1 a p.2 ha hp)
      · simp only [hprior, if_false]
        obtain ⟨t, ht, hs⟩ := ih hrest p.2 hp
        rw [ht]
        exact ⟨_, rfl, operands_set_op_node p.1 a t ha hs⟩

theorem accumulated_set_reverse (b : Bool) (tokens : List CtplTokenExpr)
    (h : AccumulatedSet b tokens) :
    (b = false → ∃ a rest, tokens.reverse = alternating_tokens a rest none ∧
      operands_set a = true ∧ ∀ p ∈ rest, operands_set p.2 = true) ∧
    (b = true → tokens = [] ∨
      ∃ a rest o, tokens.reverse = alternating_tokens a rest (some o) ∧
        operands_set a = true ∧ ∀ p ∈ rest, operands_set p.2 = true) := by
  induction h with
  | nil => exact ⟨fun h => (by cases h), fun _ => Or.inl rfl⟩
  | operand token tokens hset _ ih =>
    refine ⟨fun _ => ?_, fun h => by cases h⟩
    rcases ih.2 rfl with h0 | ⟨a, rest, o, h1, ha, hrest⟩
    · subst h0
      exact ⟨token, [], by simp [alternating_tokens, flat_tokens], hset,
        fun p hp => (by cases hp)⟩
    · refine ⟨a, rest ++ [(o, token)], ?_, ha, ?_⟩
      · rw [List.reverse_cons, h1, alternating_tokens_snoc_operand]
      · intro p hp
        rcases List.mem_append.1 hp with h2 | h2
        · exact hrest p h2
        · rw [List.mem_singleton] at h2
          subst h2
          exact hset
  | operator op tokens _ ih =>
    refine ⟨fun h => (by cases h), fun _ => Or.inr ?_⟩
    obtain ⟨a, rest, h1, ha, hrest⟩ := ih.1 rfl
    refine ⟨a, rest, op, ?_, ha, hrest⟩
    rw [List.reverse_cons, h1, alternating_tokens_snoc_operator]

/-- On the reversed accumulated list, a tree that `validate_token_list` returns
without error has its operands set. -/
theorem validate_accumulated_set (b : Bool) (tokens : List CtplTokenExpr)
    (h : AccumulatedSet b tokens) (hne : tokens ≠ []) (r : TokenResult)
    (hv : validate_token_list tokens.reverse none = some r) (herr : r.2 = none)
    (t : CtplTokenExpr) (ht : r.1 = some t) : operands_set t = true := by
  cases b with
  | false =>
    obtain ⟨a, rest, h1, ha, hrest⟩ := (accumulated_set_reverse false tokens h).1 rfl
    rw [h1, validate_token_list_eq] at hv
    obtain ⟨t', ht', hs⟩ := reduction_operands_set rest hrest a ha
    simp only [Option.some.injEq] at hv
    rw [← hv, ht'] at ht
    simp only [Option.some.injEq] at ht
    rw [← ht]
    exact hs
  | true =>
    rcases (accumulated_set_reverse true tokens h).2 rfl with h0 | ⟨a, rest, o, h1, _, _⟩
    · exact absurd h0 hne
    · rw [h1, validate_token_list_eq] at hv
      simp only [Option.some.injEq] at hv
      rw [← hv, reduction_last o rest a] at herr
      cases herr

theorem lex_operand_read_set (sc : StreamScanners) (stream : CtplInputStream)
    (t : CtplTokenExpr) (h : (lex_operand_read sc stream).token = some t) :
    operands_set t = true := by
  have hidx := lex_operand_read_indexes sc stream t h
  unfold lex_operand_read at h
  simp only [] at h
  have hv : ∀ v, operands_set (ctpl_token_expr_new_value v) = true := by
    intro v; simp [ctpl_token_expr_new_value, operands_set, operands_set_list]
  have hsy : ∀ s, operands_set (ctpl_token_expr_new_symbol s) = true := by
    intro s; simp [ctpl_token_expr_new_symbol, operands_set, operands_set_list]
  split at h
  · unfold read_number at h
    split at h
    · simp only [Option.some.injEq] at h
      rw [← h]; exact hv _
    · cases h
  · split at h
    · unfold read_symbol at h
      split at h
      · split at h
        · simp only [Option.some.injEq] at h
          rw [← h]; exact hsy _
        · cases h
      · cases h
    · split at h
      · unfold read_string_literal at h
        split at h
        · simp only [Option.some.injEq] at h
          rw [← h]; exact hv _
        · cases h
      · cases h

theorem set_error_ne_none (error : Option GError) (domain : ErrorDomain) (code : ErrorCode)
    (message : List Char) : ctpl_input_stream_set_error error domain code message ≠ none := by
  cases error <;> simp [ctpl_input_stream_set_error]

theorem lex_full_finish_token (lex_all : Bool) (ri : InternalResult) (t : CtplTokenExpr)
    (h : (lex_full_finish lex_all ri).token = some t) :
    ri.token = some t ∧ ri.error = none := by
  unfold lex_full_finish at h
  cases he : ri.error with
  | some e => simp [he] at h
  | none =>
    by_cases hla : (lex_all && !ctpl_input_stream_eof ri.stream) = true
    · simp [he, hla, ctpl_input_stream_set_error] at h
    · simp [he, hla] at h
      exact ⟨h, rfl⟩

theorem lex_internal_read_set
    (internal : LexerExprState → CtplInputStream → Option InternalResult)
    (operand : CtplInputStream → Option LexResult) (lex_all : Bool) (st : InternalState)
    (r : LexResult)
    (hint : ∀ state s ri, internal state s = some ri → ri.error = none →
      ∀ t, ri.token = some t → operands_set t = true)
    (hopd : ∀ s ro, operand s = some ro → ∀ t, ro.token = some t → operands_set t = true)
    (h : lex_internal_read internal operand lex_all st = some r) (herr : r.error = none)
    (t : CtplTokenExpr) (ht : r.token = some t) :
    (st.expect_operand = true → operands_set t = true) ∧
    (st.expect_operand = false → ∃ op, t = ctpl_token_expr_new_operator op none none) := by
  unfold lex_internal_read at h
  cases heo : st.expect_operand with
  | false =>
    simp only [heo, Bool.false_eq_true, if_false, Option.some.injEq] at h
    refine ⟨fun h0 => (by cases h0), fun _ => ?_⟩
    subst h
    exact ((lex_operator_spec st.stream).2.2 t ht).1
  | true =>
    simp only [heo, if_true] at h
    refine ⟨fun _ => ?_, fun h0 => (by cases h0)⟩
    by_cases hopen : ctpl_input_stream_peek_c st.stream = '('
    · simp only [hopen, if_true] at h
      cases hsub : internal ⟨lex_all, st.depth + 1⟩ (ctpl_input_stream_get_c st.stream).2 with
      | none => simp [hsub] at h
      | some ri =>
        simp only [hsub] at h
        split at h
        · simp only [Option.some.injEq] at h
          subst h
          exact absurd herr (set_error_ne_none _ _ _ _)
        · simp only [Option.some.injEq] at h
          subst h
          exact hint _ _ ri hsub herr t ht
    · simp only [hopen, if_false] at h
      exact hopd _ _ h t ht

/-- The invariant of the five functions of the lexer: a token returned without
error has its operands set. -/
theorem lexer_operands_set (fuel : Nat) :
    (∀ sc lex_all stream r, lex_full_fuel fuel sc lex_all stream = some r →
      ∀ t, r.token = some t → operands_set t = true) ∧
    (∀ sc state stream r, lex_internal_fuel fuel sc state stream = some r →
      r.error = none → ∀ t, r.token = some t → operands_set t = true) ∧
    (∀ sc lex_all st st', lex_internal_loop fuel sc lex_all st = some st' →
      (st.err = none → AccumulatedSet st.expect_operand st.tokens) →
      st'.err = none → ∃ b, AccumulatedSet b st'.tokens) ∧
    (∀ sc stream r, lex_operand_fuel fuel sc stream = some r →
      ∀ t, r.token = some t → operands_set t = true) ∧
    (∀ sc operand error stream r,
      lex_operand_index_fuel fuel sc operand error stream = some r →
      operands_set operand = true → operands_set r.operand = true) := by
  induction fuel with
  | zero =>
    refine ⟨?_, ?_, ?_, ?_, ?_⟩
    · intro sc la s r h; rw [lex_full_fuel] at h; cases h
    · intro sc state s r h; rw [lex_internal_fuel] at h; cases h
    · intro sc la st st' h; rw [lex_internal_loop] at h; cases h
    · intro sc s r h; rw [lex_operand_fuel] at h; cases h
    · intro sc o e s r h; rw [lex_operand_index_fuel] at h; cases h
  | succ fuel ih =>
    obtain ⟨hfull, hint, hloop, hopd, hidx⟩ := ih
    refine ⟨?_, ?_, ?_, ?_, ?_⟩
    · intro sc la s r h t ht
      rw [lex_full_fuel_succ] at h
      cases hsub : lex_internal_fuel fuel sc ⟨la, 0⟩ s with
      | none => simp [hsub] at h
      | some ri =>
        simp only [hsub, Option.map_some', Option.some.injEq] at h
        subst h
        obtain ⟨h1, h2⟩ := lex_full_finish_token la ri t ht
        exact hint _ _ _ _ hsub h2 t h1
    · intro sc state s r h herr t ht
      rw [lex_internal_fuel_succ] at h
      cases hsub : lex_internal_loop fuel sc state.lex_all
          (lex_internal_initial sc state.depth s) with
      | none => simp [hsub] at h
      | some st =>
        simp only [hsub, Option.some_bind] at h
        unfold lex_internal_finish at h
        cases hst : st.err with
        | some e =>
          simp [hst] at h
          subst h
          cases ht
        | none =>
          simp only [hst, Option.isNone_none, if_true] at h
          obtain ⟨b, hacc⟩ := hloop _ _ _ _ hsub (fun _ => AccumulatedSet.nil) hst
          by_cases hemp : st.tokens.isEmpty = true
          · simp only [hemp, if_true, Option.some.injEq] at h
            subst h
            cases ht
          · simp only [hemp, if_false, Bool.false_eq_true] at h
            cases hv : validate_token_list st.tokens.reverse none with
            | none => simp [hv] at h
            | some rv =>
              simp only [hv, Option.some.injEq] at h
              subst h
              have hne : st.tokens ≠ [] := by
                intro h0; rw [h0] at hemp; exact hemp rfl
              exact validate_accumulated_set b st.tokens hacc hne rv hv herr t ht
    · intro sc la st st' h hpre hpost
      by_cases hstop : (ctpl_input_stream_eof st.stream || st.err.isSome) = true
      · rw [lex_internal_loop_stop _ _ _ _ hstop] at h
        simp only [Option.some.injEq] at h
        subst h
        exact ⟨_, hpre hpost⟩
      · have hstop' : (ctpl_input_stream_eof st.stream || st.err.isSome) = false := by
          simpa using hstop
        have hst : st.err = none := by
          cases he : st.err with
          | none => rfl
          | some e => simp [he] at hstop'
        by_cases hclose : ctpl_input_stream_peek_c st.stream = ')'
        · rw [lex_internal_loop] at h
          simp only [hstop', hclose, if_true, if_false, Bool.false_eq_true] at h
          split at h
          · split at h
            · simp only [Option.some.injEq] at h
              subst h
              exact absurd hpost (set_error_ne_none _ _ _ _)
            · simp only [Option.some.injEq] at h
              subst h
              exact ⟨_, hpre hst⟩
          · simp only [Option.some.injEq] at h
            subst h
            exact ⟨_, hpre hst⟩
        · rw [lex_internal_loop_succ _ _ _ _ hstop' hclose] at h
          cases hread : lex_internal_read (lex_internal_fuel fuel sc) (lex_operand_fuel fuel sc)
              la st with
          | none => simp [hread] at h
          | some r =>
            simp only [hread, Option.some_bind] at h
            unfold lex_internal_continue at h
            cases htok : r.token with
            | some token =>
              simp only [htok] at h
              refine hloop _ _ _ _ h ?_ hpost
              intro herr
              have hset := lex_internal_read_set _ _ la st r (hint sc) (hopd sc) hread herr
                token htok
              cases heo : st.expect_operand with
              | true =>
                have h1 := hpre hst
                rw [heo] at h1
                exact AccumulatedSet.operand token st.tokens (hset.1 heo) h1
              | false =>
                have h1 := hpre hst
                rw [heo] at h1
                obtain ⟨op, hop⟩ := hset.2 heo
                rw [hop]
                exact AccumulatedSet.operator op st.tokens h1
            | none =>
              simp only [htok] at h
              cases la with
              | false =>
                simp only [Bool.not_false, if_true] at h
                cases he : r.error with
                | none => simp [he] at h
                | some e =>
                  simp only [he] at h
                  split at h
                  · simp only [Option.some.injEq] at h
                    subst h
                    exact ⟨_, hpre hst⟩
                  · simp only [Option.some.injEq] at h
                    subst h
                    cases hpost
              | true =>
                simp only [Bool.not_true, Bool.false_eq_true, if_false] at h
                exact hloop _ _ _ _ h (fun _ => hpre hst) hpost
    · intro sc s r h t ht
      rw [lex_operand_fuel_succ] at h
      cases htok : (lex_operand_read sc s).token with
      | none =>
        simp only [htok, Option.some.injEq] at h
        rw [← h, htok] at ht
        cases ht
      | some token =>
        simp only [htok] at h
        cases hsub : lex_operand_index_fuel fuel sc token (lex_operand_read sc s).error
            (lex_operand_read sc s).stream with
        | none => simp [hsub] at h
        | some ir =>
          simp only [hsub, Option.map_some', Option.some.injEq] at h
          subst h
          have hop := hidx _ _ _ _ _ hsub (lex_operand_read_set sc s token htok)
          unfold lex_operand_finish at ht
          split at ht
          · simp only [Option.some.injEq] at ht
            rw [← ht]; exact hop
          · cases ht
    · intro sc operand error s r h hset
      rw [lex_operand_index_fuel] at h
      by_cases hpeek : ctpl_input_stream_peek_c (ctpl_input_stream_skip_blank sc s) = '['
      · simp only [hpeek, if_true] at h
        cases hsub : lex_full_fuel fuel sc false
            (ctpl_input_stream_get_c (ctpl_input_stream_skip_blank sc s)).2 with
        | none => simp [hsub] at h
        | some rf =>
          simp only [hsub] at h
          cases htok : rf.token with
          | none =>
            simp only [htok, Option.some.injEq] at h
            subst h
            exact hset
          | some idx =>
            simp only [htok] at h
            by_cases hc : (ctpl_input_stream_get_c rf.stream).1 ≠ ']'
            · simp only [hc, if_true, ne_eq, not_false_eq_true, Option.some.injEq] at h
              subst h
              exact hset
            · simp only [hc, if_false] at h
              exact hidx _ _ _ _ _ h
                (operands_set_append_index operand idx hset (hfull _ _ _ _ hsub idx htok))
      · simp only [hpeek, if_false, Option.some.injEq] at h
        subst h
        exact hset

/-! ## Operands of the operator nodes: properties -/

/-- C11: for every input and either mode, `ctpl_lexer_expr_lex_full` returns,
and when it returns a tree, every Operator node of that tree, also inside the
operands (parenthesized groups included) and inside the index lists, has both
its left and its right operand set. -/
theorem lex_full_operands_set (sc : StreamScanners) (stream : CtplInputStream)
    (lex_all : Bool) :
    ∃ r : LexResult, ctpl_lexer_expr_lex_full sc stream lex_all = some r ∧
      ∀ t, r.token = some t → operands_set t = true := by
  obtain ⟨r, hr, _, _⟩ := (lexer_total (lex_fuel stream)).1 sc lex_all stream (le_refl _)
  exact ⟨r, hr, (lexer_operands_set (lex_fuel stream)).1 sc lex_all stream r hr⟩

/-! ## Parenthesis depth: lemmas -/

theorem internal_token_or_error (fuel : Nat) (sc : StreamScanners) (state : LexerExprState)
    (stream : CtplInputStream) (r : InternalResult)
    (h : lex_internal_fuel fuel sc state stream = some r) (ht : r.token = none) :
    r.error ≠ none := by
  obtain ⟨r0, h0, _, hq⟩ := (lexer_total (max fuel (5 * stream.length + 4))).2.1 sc state stream
    (le_max_right _ _)
  have h1 := lex_internal_fuel_mono sc state stream r fuel
    (max fuel (5 * stream.length + 4)) (le_max_left _ _) h
  rw [h0] at h1
  simp only [Option.some.injEq] at h1
  subst h1
  exact hq ht

theorem operand_token_or_error (fuel : Nat) (sc : StreamScanners) (stream : CtplInputStream)
    (r : LexResult) (h : lex_operand_fuel fuel sc stream = some r) (ht : r.token = none) :
    r.error ≠ none := by
  obtain ⟨r0, h0, _, hq⟩ := (lexer_total (max fuel (5 * stream.length + 2))).2.2.2.1 sc stream
    (le_max_right _ _)
  have h1 := lex_operand_fuel_mono sc stream r fuel
    (max fuel (5 * stream.length + 2)) (le_max_left _ _) h
  rw [h0] at h1
  simp only [Option.some.injEq] at h1
  subst h1
  exact hq ht

theorem read_token_or_error (fuel : Nat) (sc : StreamScanners) (lex_all : Bool)
    (st : InternalState) (r : LexResult)
    (h : lex_internal_read (lex_internal_fuel fuel sc) (lex_operand_fuel fuel sc) lex_all st
      = some r)
    (ht : r.token = none) : r.error ≠ none := by
  unfold lex_internal_read at h
  cases heo : st.expect_operand with
  | false =>
    simp only [heo, Bool.false_eq_true, if_false, Option.some.injEq] at h
    subst h
    exact (lex_operator_spec st.stream).1 ht
  | true =>
    simp only [heo, if_true] at h
    by_cases hopen : ctpl_input_stream_peek_c st.stream = '('
    · simp only [hopen, if_true] at h
      cases hsub : lex_internal_fuel fuel sc ⟨lex_all, st.depth + 1⟩
          (ctpl_input_stream_get_c st.stream).2 with
      | none => simp [hsub] at h
      | some ri =>
        simp only [hsub] at h
        split at h
        · simp only [Option.some.injEq] at h
          subst h
          exact set_error_ne_none _ _ _ _
        · simp only [Option.some.injEq] at h
          subst h
          exact internal_token_or_error fuel sc _ _ ri hsub ht
    · simp only [hopen, if_false] at h
      exact operand_token_or_error fuel sc _ r h ht

theorem lex_internal_loop_of_error (fuel : Nat) (sc : StreamScanners) (lex_all : Bool)
    (st st' : InternalState) (h : lex_internal_loop fuel sc lex_all st = some st')
    (herr : st.err ≠ none) : st' = st := by
  cases fuel with
  | zero => rw [lex_internal_loop] at h; cases h
  | succ fuel =>
    have hstop : (ctpl_input_stream_eof st.stream || st.err.isSome) = true := by
      cases he : st.err with
      | none => exact absurd he herr
      | some e => simp
    rw [lex_internal_loop_stop _ _ _ _ hstop] at h
    simp only [Option.some.injEq] at h
    exact h.symm

theorem lex_internal_finish_error (st : InternalState) (r : InternalResult)
    (h : lex_internal_finish st = some r) (herr : r.error = none) : st.err = none := by
  unfold lex_internal_finish at h
  cases he : st.err with
  | none => rfl
  | some e =>
    simp [he] at h
    rw [← h] at herr
    cases herr

theorem lex_internal_finish_shift (k : Nat) (st : InternalState) :
    lex_internal_finish (shift_depth k st) = (lex_internal_finish st).map (shift_result k) := by
  unfold lex_internal_finish shift_depth shift_result
  simp only
  split
  · split
    · rfl
    · cases validate_token_list st.tokens.reverse st.err <;> rfl
  · rfl

theorem lex_internal_group_shift (k depth : Nat) (ri : InternalResult) :
    lex_internal_group (depth + k) (shift_result k ri) = lex_internal_group depth ri := by
  unfold lex_internal_group shift_result
  have h : (ri.depth + k != depth + k) = (ri.depth != depth) := by
    rw [Bool.eq_iff_iff]
    simp [bne_iff_ne]
  simp only [h]

theorem lex_internal_read_group (internal : LexerExprState → CtplInputStream →
      Option InternalResult)
    (operand : CtplInputStream → Option LexResult) (lex_all : Bool) (st : InternalState)
    (heo : st.expect_operand = true) (hopen : ctpl_input_stream_peek_c st.stream = '(') :
    lex_internal_read internal operand lex_all st
      = (internal ⟨lex_all, st.depth + 1⟩ (ctpl_input_stream_get_c st.stream).2).map
          (lex_internal_group st.depth) := by
  unfold lex_internal_read lex_internal_group
  simp only [heo, hopen, if_true]
  cases internal ⟨lex_all, st.depth + 1⟩ (ctpl_input_stream_get_c st.stream).2 with
  | none => rfl
  | some r => simp only [Option.map_some']; split_ifs <;> rfl

theorem lex_internal_read_not_group (internal internal' : LexerExprState → CtplInputStream →
      Option InternalResult)
    (operand : CtplInputStream → Option LexResult) (lex_all lex_all' : Bool)
    (st st2 : InternalState)
    (hs : st2.stream = st.stream) (he : st2.expect_operand = st.expect_operand)
    (h : ¬ (st.expect_operand = true ∧ ctpl_input_stream_peek_c st.stream = '(')) :
    lex_internal_read internal' operand lex_all' st2
      = lex_internal_read internal operand lex_all st := by
  unfold lex_internal_read
  rw [hs, he]
  cases heo : st.expect_operand with
  | false => simp
  | true =>
    have hopen : ctpl_input_stream_peek_c st.stream ≠ '(' := fun h0 => h ⟨heo, h0⟩
    simp [hopen]

theorem lex_internal_group_error (depth : Nat) (ri : InternalResult)
    (h : (lex_internal_group depth ri).error = none) : ri.error = none := by
  unfold lex_internal_group at h
  split at h
  · exact absurd h (set_error_ne_none _ _ _ _)
  · exact h

/-- A scan that was entered inside a parenthesis, or that ends without error in
strict mode, goes the same way when it is entered `k` levels deeper. -/
theorem lexer_depth_shift (fuel : Nat) :
    (∀ sc lex_all depth stream r k,
      lex_internal_fuel fuel sc ⟨lex_all, depth⟩ stream = some r →
      (0 < depth ∨ (lex_all = true ∧ r.error = none)) →
      lex_internal_fuel fuel sc ⟨lex_all, depth + k⟩ stream = some (shift_result k r)) ∧
    (∀ sc lex_all st st' k, lex_internal_loop fuel sc lex_all st = some st' →
      (0 < st.depth ∨ (lex_all = true ∧ st'.err = none)) →
      lex_internal_loop fuel sc lex_all (shift_depth k st) = some (shift_depth k st')) := by
  induction fuel with
  | zero =>
    refine ⟨?_, ?_⟩
    · intro sc la d s r k h; rw [lex_internal_fuel] at h; cases h
    · intro sc la st st' k h; rw [lex_internal_loop] at h; cases h
  | succ fuel ih =>
    obtain ⟨hint, hloop⟩ := ih
    refine ⟨?_, ?_⟩
    · intro sc la d s r k h hc
      rw [lex_internal_fuel_succ] at h ⊢
      simp only at h ⊢
      cases hsub : lex_internal_loop fuel sc la (lex_internal_initial sc d s) with
      | none => simp [hsub] at h
      | some st =>
        simp only [hsub, Option.some_bind] at h
        have hc' : 0 < (lex_internal_initial sc d s).depth ∨ (la = true ∧ st.err = none) := by
          rcases hc with h0 | ⟨hla, herr⟩
          · exact Or.inl h0
          · exact Or.inr ⟨hla, lex_internal_finish_error st r h herr⟩
        have hinit : lex_internal_initial sc (d + k) s
            = shift_depth k (lex_internal_initial sc d s) := rfl
        rw [hinit, hloop _ _ _ _ k hsub hc']
        simp only [Option.some_bind]
        rw [lex_internal_finish_shift, h]
        rfl
    · intro sc la st st' k h hc
      by_cases hstop : (ctpl_input_stream_eof st.stream || st.err.isSome) = true
      · rw [lex_internal_loop_stop _ _ _ _ hstop] at h
        simp only [Option.some.injEq] at h
        subst h
        exact lex_internal_loop_stop _ _ _ (shift_depth k st) hstop
      · have hstop' : (ctpl_input_stream_eof st.stream || st.err.isSome) = false := by
          simpa using hstop
        by_cases hclose : ctpl_input_stream_peek_c st.stream = ')'
        · have hstop2 : (ctpl_input_stream_eof (shift_depth k st).stream
              || (shift_depth k st).err.isSome) = false := hstop'
          have hclose2 : ctpl_input_stream_peek_c (shift_depth k st).stream = ')' := hclose
          rw [lex_internal_loop] at h ⊢
          simp only [hstop', hclose, if_true, if_false, Bool.false_eq_true] at h
          simp only [hstop2, hclose2, if_true, if_false, Bool.false_eq_true]
          by_cases hd : st.depth ≤ 0
          · simp only [hd, if_true] at h
            rcases hc with h0 | ⟨hla, herr⟩
            · omega
            · subst hla
              simp only [if_true, Option.some.injEq] at h
              subst h
              exact absurd herr (set_error_ne_none _ _ _ _)
          · simp only [hd, if_false, Option.some.injEq] at h
            have hk : ¬ ((shift_depth k st).depth ≤ 0) := by
              show ¬ (st.depth + k ≤ 0)
              omega
            simp only [hk, if_false]
            subst h
            have h1 : st.depth + k - 1 = st.depth - 1 + k := by omega
            simp only [shift_depth, h1]
        · rw [lex_internal_loop_succ _ _ _ _ hstop' hclose] at h
          rw [lex_internal_loop_succ _ _ _ (shift_depth k st) hstop' hclose]
          cases hread : lex_internal_read (lex_internal_fuel fuel sc) (lex_operand_fuel fuel sc)
              la st with
          | none => simp [hread] at h
          | some r =>
            have hread' : lex_internal_read (lex_internal_fuel fuel sc)
                (lex_operand_fuel fuel sc) la (shift_depth k st) = some r := by
              by_cases hg : st.expect_operand = true ∧ ctpl_input_stream_peek_c st.stream = '('
              · rw [lex_internal_read_group _ _ _ _ hg.1 hg.2] at hread
                rw [lex_internal_read_group _ _ la (shift_depth k st) hg.1 hg.2]
                cases hsub : lex_internal_fuel fuel sc ⟨la, st.depth + 1⟩
                    (ctpl_input_stream_get_c st.stream).2 with
                | none => simp [hsub] at hread
                | some ri =>
                  simp only [hsub, Option.map_some'] at hread
                  have h2 := hint _ _ _ _ _ k hsub (Or.inl (Nat.succ_pos _))
                  have h3 : (shift_depth k st).depth + 1 = st.depth + 1 + k := by
                    show st.depth + k + 1 = st.depth + 1 + k
                    omega
                  have h4 : (shift_depth k st).stream = st.stream := rfl
                  rw [h3, h4, h2]
                  simp only [Option.map_some']
                  have h5 : (shift_depth k st).depth = st.depth + k := rfl
                  rw [h5, lex_internal_group_shift]
                  exact hread
              · rw [lex_internal_read_not_group (lex_internal_fuel fuel sc) _ _ la la st
                  (shift_depth k st) rfl rfl hg]
                exact hread
            rw [hread']
            simp only [hread, Option.some_bind] at h ⊢
            unfold lex_internal_continue at h ⊢
            cases htok : r.token with
            | some token =>
              simp only [htok] at h ⊢
              exact hloop _ _ _ _ k h hc
            | none =>
              simp only [htok] at h ⊢
              cases la with
              | false =>
                simp only [Bool.not_false, if_true] at h ⊢
                cases he : r.error with
                | none => simp [he] at h
                | some e =>
                  simp only [he] at h ⊢
                  by_cases hdom : e.domain ≠ ErrorDomain.CTPL_IO_ERROR
                  · simp only [hdom, if_true, ne_eq, not_false_eq_true, Option.some.injEq] at h ⊢
                    subst h
                    rfl
                  · simp only [hdom, if_false, Option.some.injEq] at h ⊢
                    subst h
                    rfl
              | true =>
                simp only [Bool.not_true, Bool.false_eq_true, if_false] at h ⊢
                exact hloop _ _ _ _ k h hc

/-- A strict scan that ends without error is also the permissive scan. -/
theorem lexer_strict_permissive (fuel : Nat) :
    (∀ sc depth stream r, lex_internal_fuel fuel sc ⟨true, depth⟩ stream = some r →
      r.error = none → lex_internal_fuel fuel sc ⟨false, depth⟩ stream = some r) ∧
    (∀ sc st st', lex_internal_loop fuel sc true st = some st' → st'.err = none →
      lex_internal_loop fuel sc false st = some st') := by
  induction fuel with
  | zero =>
    refine ⟨?_, ?_⟩
    · intro sc d s r h; rw [lex_internal_fuel] at h; cases h
    · intro sc st st' h; rw [lex_internal_loop] at h; cases h
  | succ fuel ih =>
    obtain ⟨hint, hloop⟩ := ih
    refine ⟨?_, ?_⟩
    · intro sc d s r h herr
      rw [lex_internal_fuel_succ] at h ⊢
      simp only at h ⊢
      cases hsub : lex_internal_loop fuel sc true (lex_internal_initial sc d s) with
      | none => simp [hsub] at h
      | some st =>
        simp only [hsub, Option.some_bind] at h
        rw [hloop _ _ _ hsub (lex_internal_finish_error st r h herr)]
        exact h
    · intro sc st st' h hpost
      by_cases hstop : (ctpl_input_stream_eof st.stream || st.err.isSome) = true
      · rw [lex_internal_loop_stop _ _ _ _ hstop] at h ⊢
        exact h
      · have hstop' : (ctpl_input_stream_eof st.stream || st.err.isSome) = false := by
          simpa using hstop
        by_cases hclose : ctpl_input_stream_peek_c st.stream = ')'
        · rw [lex_internal_loop] at h ⊢
          simp only [hstop', hclose, if_true, if_false, Bool.false_eq_true] at h ⊢
          by_cases hd : st.depth ≤ 0
          · simp only [hd, if_true, Option.some.injEq] at h
            subst h
            exact absurd hpost (set_error_ne_none _ _ _ _)
          · simp only [hd, if_false] at h ⊢
            exact h
        · rw [lex_internal_loop_succ _ _ _ _ hstop' hclose] at h ⊢
          cases hread : lex_internal_read (lex_internal_fuel fuel sc) (lex_operand_fuel fuel sc)
              true st with
          | none => simp [hread] at h
          | some r =>
            simp only [hread, Option.some_bind] at h
            have herr : r.error = none := by
              unfold lex_internal_continue at h
              cases he : r.error with
              | none => rfl
              | some e =>
                cases htok : r.token with
                | some token =>
                  simp only [htok] at h
                  have h1 := lex_internal_loop_of_error _ _ _ _ _ h
                    (by simp only [he]; exact Option.some_ne_none e)
                  subst h1
                  simp only [he] at hpost
                  cases hpost
                | none =>
                  simp only [htok, Bool.not_true, Bool.false_eq_true, if_false] at h
                  have h1 := lex_internal_loop_of_error _ _ _ _ _ h
                    (by simp only [he]; exact Option.some_ne_none e)
                  subst h1
                  simp only [he] at hpost
                  cases hpost
            cases htok : r.token with
            | none => exact absurd herr (read_token_or_error fuel sc true st r hread htok)
            | some token =>
              have hread' : lex_internal_read (lex_internal_fuel fuel sc)
                  (lex_operand_fuel fuel sc) false st = some r := by
                by_cases hg : st.expect_operand = true ∧
                    ctpl_input_stream_peek_c st.stream = '('
                · rw [lex_internal_read_group _ _ _ _ hg.1 hg.2] at hread ⊢
                  cases hsub : lex_internal_fuel fuel sc ⟨true, st.depth + 1⟩
                      (ctpl_input_stream_get_c st.stream).2 with
                  | none => simp [hsub] at hread
                  | some ri =>
                    simp only [hsub, Option.map_some', Option.some.injEq] at hread
                    have h2 : ri.error = none := by
                      apply lex_internal_group_error st.depth
                      rw [hread]; exact herr
                    rw [hint _ _ _ _ hsub h2]
                    simp only [Option.map_some', Option.some.injEq]
                    exact hread
                · rw [lex_internal_read_not_group (lex_internal_fuel fuel sc) _ _ true false st
                    st rfl rfl hg]
                  exact hread
              rw [hread']
              simp only [Option.some_bind]
              unfold lex_internal_continue at h ⊢
              simp only [htok] at h ⊢
              exact hloop _ _ _ h hpost

theorem skip_blank_of_not_blank (sc : StreamScanners) (c : Char) (stream : CtplInputStream)
    (h : sc.is_blank c = false) :
    ctpl_input_stream_skip_blank sc (c :: stream) = c :: stream := by
  simp [ctpl_input_stream_skip_blank, List.dropWhile, h]

theorem skip_blank_nil (sc : StreamScanners) : ctpl_input_stream_skip_blank sc [] = [] := rfl

/-! ## Parenthesis depth: properties -/

/-- C14: when a text `E` parses successfully in strict mode, the text made of
an opening parenthesis followed by `E` (the parenthesis is never closed),
parsed in either mode, returns no tree and fails with the error `Missing
closing parenthesis`, at the end of the stream.  The opening parenthesis is
taken not to be a blank for the scanners. -/
theorem unclosed_group_fails (sc : StreamScanners) (hopen : sc.is_blank '(' = false)
    (E : CtplInputStream) (r : LexResult) (t : CtplTokenExpr)
    (hE : ctpl_lexer_expr_lex_full sc E true = some r) (ht : r.token = some t)
    (lex_all : Bool) :
    ctpl_lexer_expr_lex_full sc ('(' :: E) lex_all
      = some ⟨none, some missing_closing_error, []⟩ := by
  obtain ⟨ri, ⟨fuel, hri⟩, hr⟩ := full_returns_inv sc true E r (lex_full_returns sc true E r hE)
  subst hr
  obtain ⟨htok, herr⟩ := lex_full_finish_token true ri t ht
  have hstream : ri.stream = [] := by
    have h1 := lex_full_finish_strict_eof ri (by rw [ht]; rfl)
    have h2 : (lex_full_finish true ri).stream = ri.stream := by
      unfold lex_full_finish
      simp only
      split_ifs <;> rfl
    rw [← h2]; exact h1
  have hdeep : lex_internal_fuel fuel sc ⟨true, 0 + 1⟩ E = some (shift_result 1 ri) :=
    (lexer_depth_shift fuel).1 sc true 0 E ri 1 hri (Or.inr ⟨rfl, herr⟩)
  have hany : InternalReturns sc ⟨lex_all, 0 + 1⟩ E (shift_result 1 ri) := by
    cases lex_all with
    | true => exact ⟨fuel, hdeep⟩
    | false => exact ⟨fuel, (lexer_strict_permissive fuel).1 sc _ E _ hdeep herr⟩
  have hinit : lex_internal_initial sc 0 ('(' :: E) = ⟨'(' :: E, 0, [], none, true⟩ := by
    unfold lex_internal_initial
    rw [skip_blank_of_not_blank sc '(' E hopen]
  have hgroup : lex_internal_group 0 (shift_result 1 ri)
      = ⟨some t, some missing_closing_error, []⟩ := by
    unfold lex_internal_group shift_result
    simp [htok, herr, hstream, ctpl_input_stream_set_error, missing_closing_error]
  have hread : ReadReturns sc lex_all ⟨'(' :: E, 0, [], none, true⟩
      ⟨some t, some missing_closing_error, []⟩ := by
    rw [← hgroup]
    exact read_returns_group sc lex_all ⟨'(' :: E, 0, [], none, true⟩ _ rfl rfl hany
  have hloop : LoopReturns sc lex_all (lex_internal_initial sc 0 ('(' :: E))
      ⟨[], 0, [t], some missing_closing_error, false⟩ := by
    rw [hinit]
    exact loop_returns_token sc lex_all _ _ _ t rfl (show '(' ≠ ')' by decide) hread rfl
      (loop_returns_stop sc lex_all _ rfl)
  have hfin : lex_internal_finish ⟨[], 0, [t], some missing_closing_error, false⟩
      = some ⟨none, some missing_closing_error, [], 0⟩ := rfl
  rw [lex_full_of_loop sc lex_all ('(' :: E) _ _ hloop hfin]
  rfl

theorem sample_sum_strict :
    ctpl_lexer_expr_lex_full sample_scanners "2 + 3".toList true
      = some ⟨some (op_node CTPL_OPERATOR_PLUS (int_token 2) (int_token 3)), none, []⟩ :=
  lex_full_of_loop sample_scanners true "2 + 3".toList
    ⟨[], 0, [int_token 3, ctpl_token_expr_new_operator CTPL_OPERATOR_PLUS none none,
      int_token 2], none, false⟩
    ⟨some (op_node CTPL_OPERATOR_PLUS (int_token 2) (int_token 3)), none, [], 0⟩
    (scan_reaches_loop sample_scanners true _ _ _
      (ScanReaches.token _ _ ⟨some (int_token 2), none, "+ 3".toList⟩ (int_token 2)
        (by decide) (by decide) ⟨2, by decide⟩ rfl
        (ScanReaches.token _ _
          ⟨some (ctpl_token_expr_new_operator CTPL_OPERATOR_PLUS none none), none,
            " 3".toList⟩
          (ctpl_token_expr_new_operator CTPL_OPERATOR_PLUS none none)
          (by decide) (by decide) ⟨0, by decide⟩ rfl
          (ScanReaches.token _ _ ⟨some (int_token 3), none, []⟩ (int_token 3)
            (by decide) (by decide) ⟨2, by decide⟩ rfl (ScanReaches.here _))))
      (loop_returns_stop sample_scanners true _ rfl))
    (lex_internal_finish_tree _ _ rfl (by decide)
      (validate_token_list_eq (int_token 2) [(CTPL_OPERATOR_PLUS, int_token 3)] none))

theorem unclosed_group_fails_witness :
    ctpl_lexer_expr_lex_full sample_scanners "(2 + 3".toList false
      = some ⟨none, some ⟨ErrorDomain.CTPL_LEXER_EXPR_ERROR,
          ErrorCode.CTPL_LEXER_EXPR_ERROR_SYNTAX_ERROR, "Missing closing parenthesis".toList⟩,
          []⟩ :=
  unclosed_group_fails sample_scanners (by decide) "2 + 3".toList
    ⟨some (op_node CTPL_OPERATOR_PLUS (int_token 2) (int_token 3)), none, []⟩
    (op_node CTPL_OPERATOR_PLUS (int_token 2) (int_token 3)) sample_sum_strict rfl false

/-! ## Parenthesized groups: lemmas -/

theorem lex_operator_text (op : CtplOperator) (hop : op ≠ CTPL_OPERATOR_NONE)
    (rest : List Char) :
    lex_operator (ctpl_operator_to_string op ++ ' ' :: rest)
      = ⟨some (ctpl_token_expr_new_operator op none none), none, ' ' :: rest⟩ := by
  cases op <;> first | exact absurd rfl hop | rfl

theorem operator_text_cons (op : CtplOperator) (hop : op ≠ CTPL_OPERATOR_NONE) :
    ∃ x xs, ctpl_operator_to_string op = x :: xs ∧ x ≠ ')' ∧ x ≠ '(' ∧ x ≠ '[' := by
  cases op <;> first | exact absurd rfl hop | exact ⟨_, _, rfl, by decide, by decide, by decide⟩

theorem skip_blank_space (sc : StreamScanners) (hbl : BlankConvention sc)
    (stream : CtplInputStream) :
    ctpl_input_stream_skip_blank sc (' ' :: stream) = ctpl_input_stream_skip_blank sc stream := by
  simp [ctpl_input_stream_skip_blank, List.dropWhile, hbl.1]

theorem skip_blank_operator (sc : StreamScanners) (hbl : BlankConvention sc)
    (op : CtplOperator) (hop : op ≠ CTPL_OPERATOR_NONE) (rest : List Char) :
    ctpl_input_stream_skip_blank sc (ctpl_operator_to_string op ++ rest)
      = ctpl_operator_to_string op ++ rest := by
  obtain ⟨x, xs, hx, _⟩ := operator_text_cons op hop
  have h1 : sc.is_blank x = false := hbl.2.2.2 op hop x (by rw [hx]; exact List.mem_cons_self _ _)
  rw [hx]
  exact skip_blank_of_not_blank sc x (xs ++ rest) h1

theorem skip_blank_operand (sc : StreamScanners) (text : List Char) (tok : CtplTokenExpr)
    (hs : SimpleOperand sc text tok) (rest : List Char) :
    ctpl_input_stream_skip_blank sc (text ++ rest) = text ++ rest := by
  obtain ⟨⟨c, cs, hc, hb, _, _⟩, _⟩ := hs
  rw [hc]
  exact skip_blank_of_not_blank sc c (cs ++ rest) hb

theorem skip_blank_idem (sc : StreamScanners) (stream : CtplInputStream) :
    ctpl_input_stream_skip_blank sc (ctpl_input_stream_skip_blank sc stream)
      = ctpl_input_stream_skip_blank sc stream := by
  induction stream with
  | nil => rfl
  | cons c cs ih =>
    by_cases h : sc.is_blank c = true
    · have h1 : ctpl_input_stream_skip_blank sc (c :: cs)
          = ctpl_input_stream_skip_blank sc cs := by
        simp [ctpl_input_stream_skip_blank, List.dropWhile, h]
      rw [h1, ih]
    · have h0 : sc.is_blank c = false := by simpa using h
      rw [skip_blank_of_not_blank sc c cs h0, skip_blank_of_not_blank sc c cs h0]

theorem scan_step_operator (sc : StreamScanners) (lex_all : Bool) (op : CtplOperator)
    (hop : op ≠ CTPL_OPERATOR_NONE) (rest : List Char) (depth : Nat)
    (tokens : List CtplTokenExpr) (st' : InternalState)
    (hnext : ScanReaches sc lex_all
      ⟨ctpl_input_stream_skip_blank sc (' ' :: rest), depth,
        ctpl_token_expr_new_operator op none none :: tokens, none, true⟩ st') :
    ScanReaches sc lex_all
      ⟨ctpl_operator_to_string op ++ ' ' :: rest, depth, tokens, none, false⟩ st' := by
  obtain ⟨x, xs, hx, hx1, _, _⟩ := operator_text_cons op hop
  have hread := read_returns_operator sc lex_all
    ⟨ctpl_operator_to_string op ++ ' ' :: rest, depth, tokens, none, false⟩ rfl
  simp only [lex_operator_text op hop rest] at hread
  refine ScanReaches.token _ _ _ (ctpl_token_expr_new_operator op none none) ?_ ?_ hread rfl
    hnext
  · simp [hx, ctpl_input_stream_eof]
  · simp [hx, ctpl_input_stream_peek_c, hx1]

theorem scan_step_operand (sc : StreamScanners) (lex_all : Bool) (text : List Char)
    (tok : CtplTokenExpr) (hs : SimpleOperand sc text tok) (rest : List Char)
    (hend : operand_end rest = true)
    (hidx : ctpl_input_stream_peek_c (ctpl_input_stream_skip_blank sc rest) ≠ '[')
    (depth : Nat) (tokens : List CtplTokenExpr) (st' : InternalState)
    (hnext : ScanReaches sc lex_all
      ⟨ctpl_input_stream_skip_blank sc rest, depth, tok :: tokens, none, false⟩ st') :
    ScanReaches sc lex_all ⟨text ++ rest, depth, tokens, none, true⟩ st' := by
  obtain ⟨⟨c, cs, hc, _, hc1, hc2⟩, hread⟩ := hs
  have hr := hread rest hend
  have hidx' := index_returns_done sc tok none rest hidx
  have hopd : OperandReturns sc (text ++ rest)
      ⟨some tok, none, ctpl_input_stream_skip_blank sc rest⟩ :=
    operand_returns_of_index sc (text ++ rest) tok
      ⟨true, tok, none, ctpl_input_stream_skip_blank sc rest⟩ (by rw [hr])
      (by rw [hr]; exact hidx')
  have hrr : ReadReturns sc lex_all ⟨text ++ rest, depth, tokens, none, true⟩
      ⟨some tok, none, ctpl_input_stream_skip_blank sc rest⟩ :=
    read_returns_operand sc lex_all _ _ rfl (by simp [hc, ctpl_input_stream_peek_c, hc1]) hopd
  refine ScanReaches.token _ _ _ tok ?_ ?_ hrr rfl ?_
  · simp [hc, ctpl_input_stream_eof]
  · simp [hc, ctpl_input_stream_peek_c, hc2]
  · have h1 : lex_internal_next sc ⟨text ++ rest, depth, tokens, none, true⟩
        ⟨some tok, none, ctpl_input_stream_skip_blank sc rest⟩ tok
        = ⟨ctpl_input_stream_skip_blank sc rest, depth, tok :: tokens, none, false⟩ := by
      simp [lex_internal_next, skip_blank_idem]
    rw [h1]
    exact hnext

theorem scan_step_group (sc : StreamScanners) (lex_all : Bool) (rest : List Char)
    (depth : Nat) (tokens : List CtplTokenExpr) (tok : CtplTokenExpr) (rest' : List Char)
    (st' : InternalState)
    (hsub : InternalReturns sc ⟨lex_all, depth + 1⟩ rest ⟨some tok, none, rest', depth⟩)
    (hnext : ScanReaches sc lex_all
      ⟨ctpl_input_stream_skip_blank sc rest', depth, tok :: tokens, none, false⟩ st') :
    ScanReaches sc lex_all ⟨'(' :: rest, depth, tokens, none, true⟩ st' := by
  have hread := read_returns_group sc lex_all ⟨'(' :: rest, depth, tokens, none, true⟩
    ⟨some tok, none, rest', depth⟩ rfl rfl hsub
  have hg : lex_internal_group depth ⟨some tok, none, rest', depth⟩
      = ⟨some tok, none, rest'⟩ := by
    simp [lex_internal_group]
  rw [hg] at hread
  exact ScanReaches.token _ _ _ tok rfl (show '(' ≠ ')' by decide) hread rfl hnext

theorem internal_returns_binary_group (sc : StreamScanners) (lex_all : Bool)
    (hbl : BlankConvention sc) (depth : Nat) (ta : List Char) (o : CtplOperator)
    (tb : List Char) (a b : CtplTokenExpr) (R : List Char) (ho : o ≠ CTPL_OPERATOR_NONE)
    (ha : SimpleOperand sc ta a) (hb : SimpleOperand sc tb b) :
    InternalReturns sc ⟨lex_all, depth + 1⟩
      (ta ++ ' ' :: (ctpl_operator_to_string o ++ ' ' :: (tb ++ ')' :: R)))
      ⟨some (op_node o a b), none, R, depth⟩ := by
  obtain ⟨x, xs, hx, _, _, hx3⟩ := operator_text_cons o ho
  have hinit : lex_internal_initial sc (depth + 1)
      (ta ++ ' ' :: (ctpl_operator_to_string o ++ ' ' :: (tb ++ ')' :: R)))
      = ⟨ta ++ ' ' :: (ctpl_operator_to_string o ++ ' ' :: (tb ++ ')' :: R)), depth + 1, [],
          none, true⟩ := by
    unfold lex_internal_initial
    rw [skip_blank_operand sc ta a ha]
  have hclose : LoopReturns sc lex_all
      ⟨')' :: R, depth + 1, [b, ctpl_token_expr_new_operator o none none, a], none, false⟩
      ⟨R, depth, [b, ctpl_token_expr_new_operator o none none, a], none, false⟩ := by
    have h := loop_returns_close sc lex_all
      ⟨')' :: R, depth + 1, [b, ctpl_token_expr_new_operator o none none, a], none, false⟩
      rfl rfl
    simpa [ctpl_input_stream_get_c] using h
  refine internal_returns_of_loop sc ⟨lex_all, depth + 1⟩ _
    ⟨R, depth, [b, ctpl_token_expr_new_operator o none none, a], none, false⟩ _ ?_
    (lex_internal_finish_tree _ _ rfl (by simp) (validate_token_list_eq a [(o, b)] none))
  rw [hinit]
  refine scan_reaches_loop sc lex_all _ _ _ ?_ hclose
  refine scan_step_operand sc lex_all ta a ha _ ?_ ?_ (depth + 1) [] _ ?_
  · rfl
  · rw [skip_blank_space sc hbl, skip_blank_operator sc hbl o ho, hx]
    exact hx3
  rw [skip_blank_space sc hbl, skip_blank_operator sc hbl o ho]
  refine scan_step_operator sc lex_all o ho _ (depth + 1) _ _ ?_
  rw [skip_blank_space sc hbl, skip_blank_operand sc tb b hb]
  refine scan_step_operand sc lex_all tb b hb _ ?_ ?_ (depth + 1) _ _ ?_
  · rfl
  · rw [skip_blank_of_not_blank sc ')' R hbl.2.2.1]
    exact (show ')' ≠ '[' by decide)
  rw [skip_blank_of_not_blank sc ')' R hbl.2.2.1]
  exact ScanReaches.here _

theorem lex_full_binary (sc : StreamScanners) (lex_all : Bool) (stream : CtplInputStream)
    (x c : CtplTokenExpr) (o : CtplOperator)
    (h : ScanReaches sc lex_all (lex_internal_initial sc 0 stream)
      ⟨[], 0, [c, ctpl_token_expr_new_operator o none none, x], none, false⟩) :
    ctpl_lexer_expr_lex_full sc stream lex_all = some ⟨some (op_node o x c), none, []⟩ := by
  rw [lex_full_of_loop sc lex_all stream
    ⟨[], 0, [c, ctpl_token_expr_new_operator o none none, x], none, false⟩
    ⟨some (op_node o x c), none, [], 0⟩
    (scan_reaches_loop sc lex_all _ _ _ h (loop_returns_stop sc lex_all _ rfl))
    (lex_internal_finish_tree _ _ rfl (by simp) (validate_token_list_eq x [(o, c)] none))]
  cases lex_all <;> rfl

/-! ## Parenthesized groups: properties -/

/-- C12: parenthesization overrides precedence.  For all operators `o1`, `o2`
and all simple operands (texts `ta`, `tb`, `tc` read as the tokens `a`, `b`,
`c`), strict parsing of the text `(a o1 b) o2 c` returns `o2 (o1 (a, b), c)` and
strict parsing of `a o1 (b o2 c)` returns `o1 (a, o2 (b, c))`, whatever the
priorities of `o1` and `o2`. -/
theorem group_overrides_precedence (sc : StreamScanners) (hbl : BlankConvention sc)
    (o1 o2 : CtplOperator) (h1 : o1 ≠ CTPL_OPERATOR_NONE) (h2 : o2 ≠ CTPL_OPERATOR_NONE)
    (ta tb tc : List Char) (a b c : CtplTokenExpr)
    (ha : SimpleOperand sc ta a) (hb : SimpleOperand sc tb b) (hc : SimpleOperand sc tc c) :
    ctpl_lexer_expr_lex_full sc (grouped_left_text ta o1 tb o2 tc) true
      = some ⟨some (op_node o2 (op_node o1 a b) c), none, []⟩ ∧
    ctpl_lexer_expr_lex_full sc (grouped_right_text ta o1 tb o2 tc) true
      = some ⟨some (op_node o1 a (op_node o2 b c)), none, []⟩ := by
  obtain ⟨x1, xs1, hx1, _, _, hx13⟩ := operator_text_cons o1 h1
  refine ⟨?_, ?_⟩
  · apply lex_full_binary
    unfold grouped_left_text lex_internal_initial
    rw [skip_blank_of_not_blank sc '(' _ hbl.2.1]
    refine scan_step_group sc true _ 0 [] (op_node o1 a b) _ _
      (internal_returns_binary_group sc true hbl 0 ta o1 tb a b _ h1 ha hb) ?_
    rw [skip_blank_space sc hbl, skip_blank_operator sc hbl o2 h2]
    refine scan_step_operator sc true o2 h2 _ 0 _ _ ?_
    rw [skip_blank_space sc hbl, skip_blank_operand sc tc c hc]
    refine scan_step_operand sc true tc c hc [] rfl (show NUL ≠ '[' by decide) 0 _ _ ?_
    exact ScanReaches.here _
  · apply lex_full_binary
    unfold grouped_right_text lex_internal_initial
    rw [skip_blank_operand sc ta a ha]
    refine scan_step_operand sc true ta a ha _ ?_ ?_ 0 [] _ ?_
    · rfl
    · rw [skip_blank_space sc hbl, skip_blank_operator sc hbl o1 h1, hx1]
      exact hx13
    rw [skip_blank_space sc hbl, skip_blank_operator sc hbl o1 h1]
    refine scan_step_operator sc true o1 h1 _ 0 _ _ ?_
    rw [skip_blank_space sc hbl, skip_blank_of_not_blank sc '(' _ hbl.2.1]
    refine scan_step_group sc true _ 0 _ (op_node o2 b c) [] _
      (internal_returns_binary_group sc true hbl 0 tb o2 tc b c [] h2 hb hc) ?_
    exact ScanReaches.here _

theorem sample_blank_convention : BlankConvention sample_scanners := by
  refine ⟨by decide, by decide, by decide, ?_⟩
  intro op hop
  cases op <;> first | exact absurd rfl hop | decide

theorem sample_simple_digit (d : Char) (n : Int)
    (h : (d, n) = ('2', 2) ∨ (d, n) = ('3', 3) ∨ (d, n) = ('4', 4)) :
    SimpleOperand sample_scanners [d] (int_token n) := by
  refine ⟨⟨d, [], rfl, ?_, ?_, ?_⟩, ?_⟩
  · rcases h with h | h | h <;> cases h <;> decide
  · rcases h with h | h | h <;> cases h <;> decide
  · rcases h with h | h | h <;> cases h <;> decide
  · intro rest hend
    cases rest with
    | nil => rcases h with h | h | h <;> cases h <;> rfl
    | cons e es =>
      have he : e = ' ' ∨ e = ')' := by simpa [operand_end] using hend
      rcases he with he | he <;> subst he <;> rcases h with h | h | h <;> cases h <;> rfl

theorem group_overrides_precedence_witness :
    ctpl_lexer_expr_lex_full sample_scanners "(2 + 3) * 4".toList true
      = some ⟨some (op_node CTPL_OPERATOR_MUL
          (op_node CTPL_OPERATOR_PLUS (int_token 2) (int_token 3)) (int_token 4)), none, []⟩ ∧
    ctpl_lexer_expr_lex_full sample_scanners "2 + (3 * 4)".toList true
      = some ⟨some (op_node CTPL_OPERATOR_PLUS (int_token 2)
          (op_node CTPL_OPERATOR_MUL (int_token 3) (int_token 4))), none, []⟩ :=
  group_overrides_precedence sample_scanners sample_blank_convention
    CTPL_OPERATOR_PLUS CTPL_OPERATOR_MUL (by decide) (by decide)
    ['2'] ['3'] ['4'] (int_token 2) (int_token 3) (int_token 4)
    (sample_simple_digit '2' 2 (Or.inl rfl)) (sample_simple_digit '3' 3 (Or.inr (Or.inl rfl)))
    (sample_simple_digit '4' 4 (Or.inr (Or.inr rfl)))

/-! ## The two modes: lemmas -/

/-- The strict loop entered at depth 0 is only left without error at the end
of the stream. -/
theorem strict_loop_ends_at_eof (fuel : Nat) :
    ∀ (sc : StreamScanners) (st st' : InternalState),
      lex_internal_loop fuel sc true st = some st' → st.depth = 0 → st'.err = none →
      ctpl_input_stream_eof st'.stream = true := by
  induction fuel with
  | zero => intro sc st st' h; rw [lex_internal_loop] at h; cases h
  | succ fuel ih =>
    intro sc st st' h hd hpost
    by_cases hstop : (ctpl_input_stream_eof st.stream || st.err.isSome) = true
    · rw [lex_internal_loop_stop _ _ _ _ hstop] at h
      simp only [Option.some.injEq] at h
      subst h
      simpa [hpost] using hstop
    · have hstop' : (ctpl_input_stream_eof st.stream || st.err.isSome) = false := by
        simpa using hstop
      by_cases hclose : ctpl_input_stream_peek_c st.stream = ')'
      · rw [lex_internal_loop] at h
        simp only [hstop', hclose, if_true, if_false, Bool.false_eq_true, hd, le_refl,
          Option.some.injEq] at h
        subst h
        exact absurd hpost (set_error_ne_none _ _ _ _)
      · rw [lex_internal_loop_succ _ _ _ _ hstop' hclose] at h
        cases hread : lex_internal_read (lex_internal_fuel fuel sc) (lex_operand_fuel fuel sc)
            true st with
        | none => simp [hread] at h
        | some r =>
          simp only [hread, Option.some_bind] at h
          unfold lex_internal_continue at h
          cases htok : r.token with
          | some token =>
            simp only [htok] at h
            exact ih sc _ st' h hd hpost
          | none =>
            simp only [htok, Bool.not_true, Bool.false_eq_true, if_false] at h
            exact ih sc _ st' h hd hpost

theorem lex_internal_finish_stream (st : InternalState) (r : InternalResult)
    (h : lex_internal_finish st = some r) : r.stream = st.stream := by
  unfold lex_internal_finish at h
  split at h
  · split at h
    · simp only [Option.some.injEq] at h
      rw [← h]
    · cases hv : validate_token_list st.tokens.reverse st.err with
      | none => simp [hv] at h
      | some rv =>
        simp only [hv, Option.some.injEq] at h
        rw [← h]
  · simp only [Option.some.injEq] at h
    rw [← h]

theorem strict_internal_ends_at_eof (fuel : Nat) (sc : StreamScanners)
    (stream : CtplInputStream) (ri : InternalResult)
    (h : lex_internal_fuel fuel sc ⟨true, 0⟩ stream = some ri) (herr : ri.error = none) :
    ctpl_input_stream_eof ri.stream = true := by
  cases fuel with
  | zero => rw [lex_internal_fuel] at h; cases h
  | succ fuel =>
    rw [lex_internal_fuel_succ] at h
    simp only at h
    cases hsub : lex_internal_loop fuel sc true (lex_internal_initial sc 0 stream) with
    | none => simp [hsub] at h
    | some st =>
      simp only [hsub, Option.some_bind] at h
      rw [lex_internal_finish_stream st ri h]
      exact strict_loop_ends_at_eof fuel sc _ st hsub rfl
        (lex_internal_finish_error st ri h herr)

/-! ## The two modes: properties -/

/-- C23: in strict mode the branch `Trash data at end of expression` of
`ctpl_lexer_expr_lex_full` is never taken.  Whenever the top-level call of
`ctpl_lexer_expr_lex_internal` (lex_all true, depth 0) returns without error,
the stream is at its end, so the condition of the branch is false and the
error of the strict parse is the one that call set; and the call does return,
with the result of `ctpl_lexer_expr_lex_full` built from it. -/
theorem strict_trash_data_never_set (sc : StreamScanners) (stream : CtplInputStream) :
    (∀ fuel ri, lex_internal_fuel fuel sc ⟨true, 0⟩ stream = some ri →
      (ri.error = none → ctpl_input_stream_eof ri.stream = true) ∧
      trash_data_branch true ri = false ∧
      (lex_full_finish true ri).error = ri.error) ∧
    ∃ ri, lex_internal_fuel (5 * stream.length + 4) sc ⟨true, 0⟩ stream = some ri ∧
      ctpl_lexer_expr_lex_full sc stream true = some (lex_full_finish true ri) := by
  refine ⟨?_, ?_⟩
  · intro fuel ri h
    have heof := strict_internal_ends_at_eof fuel sc stream ri h
    refine ⟨heof, ?_, ?_⟩
    · unfold trash_data_branch
      cases he : ri.error with
      | some e => simp
      | none => simp [heof he]
    · unfold lex_full_finish
      cases he : ri.error with
      | some e => simp
      | none => simp [heof he]
  · obtain ⟨ri, hri, _⟩ := (lexer_total (5 * stream.length + 4)).2.1 sc ⟨true, 0⟩ stream
      (le_refl _)
    refine ⟨ri, hri, ?_⟩
    show lex_full_fuel (5 * stream.length + 4 + 1) sc true stream = _
    rw [lex_full_fuel_succ, hri]
    rfl

/-- C24: strict mode is a restriction of permissive mode.  If
`ctpl_lexer_expr_lex_full` with lex_all true returns a tree `T`, then with
lex_all false on the same input it returns the same tree `T` without error,
and leaves the stream at its end, as the strict parse did. -/
theorem strict_restricts_permissive (sc : StreamScanners) (stream : CtplInputStream)
    (r : LexResult) (T : CtplTokenExpr)
    (h : ctpl_lexer_expr_lex_full sc stream true = some r) (hT : r.token = some T) :
    ctpl_lexer_expr_lex_full sc stream false = some ⟨some T, none, []⟩ ∧
    r = ⟨some T, none, []⟩ := by
  obtain ⟨ri, ⟨fuel, hri⟩, hr⟩ :=
    full_returns_inv sc true stream r (lex_full_returns sc true stream r h)
  subst hr
  obtain ⟨htok, herr⟩ := lex_full_finish_token true ri T hT
  have heof := strict_internal_ends_at_eof fuel sc stream ri hri herr
  have hstream : ri.stream = [] := by
    cases hs : ri.stream with
    | nil => rfl
    | cons c cs => simp [hs, ctpl_input_stream_eof] at heof
  have hperm := (lexer_strict_permissive fuel).1 sc 0 stream ri hri herr
  have hfull := lex_full_of_returns sc false stream _
    (full_returns_of_internal sc false stream ri ⟨fuel, hperm⟩)
  refine ⟨?_, ?_⟩
  · rw [hfull]
    simp [lex_full_finish, herr, htok, hstream]
  · simp [lex_full_finish, herr, htok, hstream, ctpl_input_stream_eof]

theorem strict_restricts_permissive_witness :
    ctpl_lexer_expr_lex_full sample_scanners "2 + 3".toList false
      = some ⟨some (op_node CTPL_OPERATOR_PLUS (int_token 2) (int_token 3)), none, []⟩ ∧
    (⟨some (op_node CTPL_OPERATOR_PLUS (int_token 2) (int_token 3)), none, []⟩ : LexResult)
      = ⟨some (op_node CTPL_OPERATOR_PLUS (int_token 2) (int_token 3)), none, []⟩ :=
  strict_restricts_permissive sample_scanners "2 + 3".toList
    ⟨some (op_node CTPL_OPERATOR_PLUS (int_token 2) (int_token 3)), none, []⟩
    (op_node CTPL_OPERATOR_PLUS (int_token 2) (int_token 3)) sample_sum_strict rfl

/-! ## In-order reading of a tree: lemmas -/

theorem read_in_order_self (a : CtplTokenExpr) (after : List CtplTokenExpr) :
    read_in_order a (a :: after) = some after := by
  cases a <;> simp [read_in_order]

theorem reads_as_leaf (a : CtplTokenExpr) : ReadsAs a [a] :=
  ⟨fun after => read_in_order_self a after, a, [], rfl, le_refl _⟩

theorem reads_as_node (op : CtplOperator) (l r : CtplTokenExpr)
    (ll lr : List CtplTokenExpr) (hl : ReadsAs l ll) (hr : ReadsAs r lr) :
    ReadsAs (.operator op (some l) (some r) [])
      (ll ++ ctpl_token_expr_new_operator op none none :: lr) := by
  obtain ⟨hl1, x, more, hx, hsize⟩ := hl
  obtain ⟨hr1, _⟩ := hr
  have hne : CtplTokenExpr.operator op (some l) (some r) [] ≠ x := by
    intro h
    rw [← h] at hsize
    simp at hsize
    omega
  refine ⟨?_, x, more ++ ctpl_token_expr_new_operator op none none :: lr, by rw [hx]; rfl, ?_⟩
  · intro after
    have h1 := hl1 (ctpl_token_expr_new_operator op none none :: (lr ++ after))
    have h2 := hr1 after
    have hlist : (ll ++ ctpl_token_expr_new_operator op none none :: lr) ++ after
        = x :: (more ++ ctpl_token_expr_new_operator op none none :: (lr ++ after)) := by
      rw [hx]; simp
    rw [hx, List.cons_append] at h1
    rw [hlist, read_in_order]
    simp only [hne, if_false, read_operand, h1]
    simp [ctpl_token_expr_new_operator, h2]
  · simp
    omega

theorem reduction_reads_as (rest : List (CtplOperator × CtplTokenExpr)) :
    ∀ a la, ReadsAs a la →
      ∃ t, (reduction a rest none).1 = some t ∧ ReadsAs t (la ++ tail_tokens rest none) := by
  induction rest with
  | nil =>
    intro a la ha
    refine ⟨a, rfl, ?_⟩
    rw [tail_tokens_nil_none, List.append_nil]
    exact ha
  | cons p rest ih =>
    intro a la ha
    have hnode := reads_as_node p.1 a p.2 la [p.2] ha (reads_as_leaf p.2)
    rw [reduction, tail_tokens_cons]
    cases hn : next_operator rest none with
    | none =>
      have hrest : rest = [] := by
        cases rest with
        | nil => rfl
        | cons q rest => simp [next_operator] at hn
      subst hrest
      exact ⟨_, rfl, by rw [tail_tokens_nil_none]; exact hnode⟩
    | some o2 =>
      by_cases hprior : operator_is_prior p.1 o2 = true
      · simp only [hprior, if_true]
        obtain ⟨t, ht, hreads⟩ := ih _ _ hnode
        refine ⟨t, ht, ?_⟩
        rw [List.append_assoc] at hreads
        exact hreads
      · simp only [hprior, if_false]
        obtain ⟨t, ht, hreads⟩ := ih p.2 [p.2] (reads_as_leaf p.2)
        rw [ht]
        exact ⟨_, rfl, reads_as_node p.1 a t la _ ha hreads⟩

theorem read_in_order_rejects_swap :
    read_in_order (op_node CTPL_OPERATOR_PLUS (int_token 2) (int_token 3))
      [int_token 3, ctpl_token_expr_new_operator CTPL_OPERATOR_PLUS none none, int_token 2]
      = none := by
  decide

theorem reduction_token_none (o : CtplOperator) (rest : List (CtplOperator × CtplTokenExpr)) :
    ∀ a x, (reduction a rest (some o)).1 = none ↔
      priorities_non_increasing (rest ++ [(o, x)]) = true := by
  induction rest with
  | nil => intro a x; simp [reduction, priorities_non_increasing]
  | cons p rest ih =>
    intro a x
    rw [reduction]
    cases rest with
    | nil =>
      simp only [next_operator, List.nil_append, List.cons_append, priorities_non_increasing,
        Bool.and_true, decide_eq_true_eq]
      by_cases hprior : operator_is_prior p.1 o = true
      · simp only [hprior, if_true]
        have h1 := (operator_is_prior_iff p.1 o).1 hprior
        simp [reduction, h1]
      · simp only [hprior, if_false]
        have h1 : ¬ p.1.priority ≥ o.priority := fun h => hprior ((operator_is_prior_iff _ _).2 h)
        simp [h1]
    | cons q rest =>
      simp only [next_operator, List.cons_append, priorities_non_increasing,
        Bool.and_eq_true, decide_eq_true_eq]
      by_cases hprior : operator_is_prior p.1 q.1 = true
      · simp only [hprior, if_true]
        have h1 := (operator_is_prior_iff p.1 q.1).1 hprior
        rw [ih _ x]
        simp [h1]
      · simp only [hprior, if_false]
        have h1 : ¬ p.1.priority ≥ q.1.priority :=
          fun h => hprior ((operator_is_prior_iff _ _).2 h)
        simp [h1]

/-! ## In-order reading of a tree: properties -/

/-- C21: `validate_token_list` does not always return NULL when it sets an
error.  On the token list of `2 + 3 *` it returns the node PLUS with left
operand 2 and no right operand, together with the error `Too few operands for
operator '*'`.  In general, on a list that ends with an operator, an error is
set, and the token returned is NULL exactly when the priorities of the
operators, the last one included, never increase from left to right. -/
theorem validate_error_with_token :
    validate_token_list
      [int_token 2, ctpl_token_expr_new_operator CTPL_OPERATOR_PLUS none none, int_token 3,
        ctpl_token_expr_new_operator CTPL_OPERATOR_MUL none none] none
      = some (some (.operator CTPL_OPERATOR_PLUS (some (int_token 2)) none []),
          some (missing_operand_error CTPL_OPERATOR_MUL)) ∧
    ∀ (a : CtplTokenExpr) (rest : List (CtplOperator × CtplTokenExpr)) (o : CtplOperator)
      (x : CtplTokenExpr),
      ∃ r : TokenResult,
        validate_token_list (alternating_tokens a rest (some o)) none = some r ∧
        r.2 = some (missing_operand_error o) ∧
        (r.1 = none ↔ priorities_non_increasing (rest ++ [(o, x)]) = true) := by
  refine ⟨?_, ?_⟩
  · exact validate_token_list_eq (int_token 2) [(CTPL_OPERATOR_PLUS, int_token 3)]
      (some CTPL_OPERATOR_MUL)
  · intro a rest o x
    exact ⟨reduction a rest (some o), validate_token_list_eq a rest (some o),
      reduction_last o rest a, reduction_token_none o rest a x⟩

/-- C22: for every valid flat token list of odd length (operand, operator,
operand, ..., operand), `validate_token_list` returns a tree without error, and
the tree read in order (left operand, operator, right operand), without
descending into the operand entries of the list, is exactly the list: every
token is met once, in source order, and nothing is left. -/
theorem validate_in_order (a : CtplTokenExpr) (rest : List (CtplOperator × CtplTokenExpr)) :
    ∃ t, validate_token_list (alternating_tokens a rest none) none = some (some t, none) ∧
      read_in_order t (alternating_tokens a rest none) = some [] ∧
      (alternating_tokens a rest none).length = 2 * rest.length + 1 := by
  obtain ⟨t, ht, hreads⟩ := reduction_reads_as rest a [a] (reads_as_leaf a)
  refine ⟨t, ?_, ?_, ?_⟩
  · rw [validate_token_list_eq]
    have h2 := (reduction_no_last rest a).1
    rw [← ht, ← h2]
  · have h := hreads.1 []
    rw [List.append_nil] at h
    rw [alternating_tokens_eq]
    exact h
  · rw [alternating_tokens_eq]
    have h : ∀ l : List (CtplOperator × CtplTokenExpr),
        (tail_tokens l none).length = 2 * l.length := by
      intro l
      induction l with
      | nil => rfl
      | cons p l ih => rw [tail_tokens_cons]; simp only [List.length_cons, ih]; omega
    simp only [List.length_cons, h]

end Ctpl
